import Mathlib

/-! # Skyline Maxwell3D interconnect: pipeline cache and deferred state updates

A shallow embedding of
`gpu/interconnect/maxwell_3d/pipeline_manager.h` and
`gpu/interconnect/maxwell_3d/state_updater.h`, with the properties of the
design document that concern them, followed by embeddings of
`soc/host1x/classes/nvdec.cpp`, `soc/gm20b/engines/kepler_compute.cpp` and
`gpu/shaders/helper_shaders.cpp` and by models of the methods that
`pipeline_manager.h` and `maxwell_3d.h` declare only.

Conventions of the embedding:
* a C++ pointer is an address, a natural number; `nullptr` is `none`;
* an object that lives on the heap is an element of a list that stands for
  the heap region, its address is its position;
* undefined behaviour of the source (out of bounds access, null dereference)
  is the result `none`.
-/

namespace Skyline

/-! ## `PipelineManager` (pipeline_manager.h, lines 111-123) -/

/-- Address of a `Pipeline` allocated by `std::make_unique<Pipeline>`. -/
abbrev PipelinePtr := Nat

/-- State of a `PipelineManager`.  `K` stands for `PackedPipelineState`, compared with
its `operator==` (the hash functor `util::ObjectHash` is taken to agree with it), `P` for
`Pipeline`.  `map` is the `tsl::robin_map` from keys to the owning `unique_ptr`, `heap`
holds the pipelines constructed so far, a pipeline's address is its position. -/
structure PipelineManager (K P : Type) where
  map : List (K × PipelinePtr)
  heap : List P

namespace PipelineManager

variable {K P A : Type} [DecidableEq K]

/-- A newly constructed manager: the default constructed (empty) map. -/
def empty : PipelineManager K P := ⟨[], []⟩

/-- The call `map.find(packedState)`: the mapped pointer, `none` for `map.end()`. -/
def find (m : PipelineManager K P) (packedState : K) : Option PipelinePtr :=
  m.map.lookup packedState

/-- The call `std::make_unique<Pipeline>(...)`: the object is placed at an unused address. -/
def make_unique (m : PipelineManager K P) (p : P) : PipelinePtr × PipelineManager K P :=
  (m.heap.length, { m with heap := m.heap ++ [p] })

/-- The call `map.emplace(packedState, ptr).first->second.get()`: inserts unless the key is
present and yields the pointer mapped afterwards. -/
def emplace (m : PipelineManager K P) (packedState : K) (ptr : PipelinePtr) :
    PipelinePtr × PipelineManager K P :=
  match m.find packedState with
  | some q => (q, m)
  | none => (ptr, { m with map := m.map ++ [(packedState, ptr)] })

/-- The method `PipelineManager::FindOrCreate`.  `ctor` is the constructor of `Pipeline`
(defined outside the header), `args` the arguments other than the key: context, shader
binaries, colour attachments and depth attachment. -/
def FindOrCreate (ctor : K → A → P) (m : PipelineManager K P) (packedState : K) (args : A) :
    PipelinePtr × PipelineManager K P :=
  match m.find packedState with
  | some p => (p, m)
  | none => (m.make_unique (ctor packedState args)).2.emplace packedState
      (m.make_unique (ctor packedState args)).1

/-- A sequence of `FindOrCreate` calls, the returned pointers dropped. -/
def FindOrCreateAll (ctor : K → A → P) (m : PipelineManager K P) :
    List (K × A) → PipelineManager K P
  | [] => m
  | c :: cs => FindOrCreateAll ctor (FindOrCreate ctor m c.1 c.2).2 cs

end PipelineManager

/-! ## Deferred state updates (state_updater.h) -/

/-! ### Values carried by the commands -/

/-- The value of an unsigned 32 bit (`u32`) result. -/
def u32 (n : Nat) : Nat := n % 2 ^ 32

/-- A `float`, kept as its bit pattern: the commands carry floats and never compute on them. -/
abbrev FloatBits := Nat

/-- The struct `BufferBinding`, declared outside these sources and taken with the members that
`state_updater.h` reads: a resolved buffer location, a `vk::Buffer` handle with offset and
size. -/
structure BufferBinding where
  buffer : Nat
  offset : Nat
  size : Nat
deriving DecidableEq, Repr

/-- Modelled from the spec: `BufferView` is declared outside these sources.  It is a logical
handle (`id`) to a region of a buffer with a `size` member; the buffer it lies in and its offset
there are answered by the memory subsystem at the time of the question. -/
structure BufferView where
  id : Nat
  size : Nat
deriving DecidableEq, Repr

/-- Modelled from the spec: the memory subsystem, "logical resource handle → view exposing
backing handle/offset/size, supporting block sequenced writes".  `viewBuffer` and `viewOffset`
answer `BufferView::GetBuffer` and `BufferView::GetOffset`, `backing` answers
`Buffer::GetBacking`, `blocked` lists the buffers on which `BlockSequencedCpuBackingWrites` was
called, the latest first. -/
structure Memory where
  viewBuffer : Nat → Nat
  viewOffset : Nat → Nat
  backing : Nat → Nat
  blocked : List Nat

/-- The call `view.GetBuffer()`. -/
def BufferView.GetBuffer (view : BufferView) (mem : Memory) : Nat := mem.viewBuffer view.id

/-- The call `view.GetOffset()`. -/
def BufferView.GetOffset (view : BufferView) (mem : Memory) : Nat := mem.viewOffset view.id

/-- The call `buffer->GetBacking()`. -/
def Memory.GetBacking (mem : Memory) (buffer : Nat) : Nat := mem.backing buffer

/-- The call `buffer->BlockSequencedCpuBackingWrites()`. -/
def Memory.BlockSequencedCpuBackingWrites (mem : Memory) (buffer : Nat) : Memory :=
  { mem with blocked := buffer :: mem.blocked }

/-- The struct `vk::Viewport`. -/
structure Viewport where
  x : FloatBits
  y : FloatBits
  width : FloatBits
  height : FloatBits
  minDepth : FloatBits
  maxDepth : FloatBits
deriving DecidableEq, Repr

/-- The struct `vk::Rect2D`. -/
structure Rect2D where
  x : Int
  y : Int
  width : Nat
  height : Nat
deriving DecidableEq, Repr

/-- The struct `vk::DescriptorBufferInfo`. -/
structure DescriptorBufferInfo where
  buffer : Nat
  offset : Nat
  range : Nat
deriving DecidableEq, Repr

/-- The struct `vk::WriteDescriptorSet`; the three pointer members are kept as addresses. -/
structure WriteDescriptorSet where
  dstSet : Nat
  dstBinding : Nat
  dstArrayElement : Nat
  descriptorCount : Nat
  descriptorType : Nat
  pImageInfo : Nat
  pBufferInfo : Nat
  pTexelBufferView : Nat
deriving DecidableEq, Repr

/-- The struct `vk::CopyDescriptorSet`. -/
structure CopyDescriptorSet where
  srcSet : Nat
  srcBinding : Nat
  srcArrayElement : Nat
  dstSet : Nat
  dstBinding : Nat
  dstArrayElement : Nat
  descriptorCount : Nat
deriving DecidableEq, Repr

/-- An element of `DescriptorUpdateInfo::bufferDescDynamicBindings`, declared outside these
sources: a variant that `Record` asks for a `BufferView` and for a `BufferBinding`; `other`
stands for a variant that holds neither. -/
inductive DynamicBufferBinding where
  | view (v : BufferView)
  | binding (b : BufferBinding)
  | other
deriving DecidableEq, Repr

/-- The struct `DescriptorUpdateInfo`, declared outside these sources and taken with the members
that `SetDescriptorSetCmdImpl::Record` uses. -/
structure DescriptorUpdateInfo where
  copies : List CopyDescriptorSet
  writes : List WriteDescriptorSet
  bufferDescs : List DescriptorBufferInfo
  bufferDescDynamicBindings : List DynamicBufferBinding
  pipelineLayout : Nat
  bindPoint : Nat
  descriptorSetIndex : Nat
deriving DecidableEq, Repr

/-- The constant `vk::PipelineBindPoint::eGraphics`. -/
def eGraphics : Nat := 0

/-- A call made on the command buffer or on the Vulkan device while a command is recorded.
The descriptor calls also show `bufferDescs`, the array their writes point into, as the call
finds it. -/
inductive VkCall where
  | bindVertexBuffers (firstBinding : Nat) (buffers : List Nat) (offsets : List Nat)
  | bindIndexBuffer (buffer : Nat) (offset : Nat) (indexType : Nat)
  | bindTransformFeedbackBuffersEXT (binding : Nat) (buffer : Nat) (offset : Nat) (size : Nat)
  | setViewport (index : Nat) (viewport : Viewport)
  | setScissor (index : Nat) (scissor : Rect2D)
  | setLineWidth (lineWidth : FloatBits)
  | setDepthBias (constantFactor : FloatBits) (clamp : FloatBits) (slopeFactor : FloatBits)
  | setBlendConstants (blendConstants : List FloatBits)
  | setDepthBounds (minDepthBounds : FloatBits) (maxDepthBounds : FloatBits)
  | setStencilCompareMask (flags : Nat) (compareMask : Nat)
  | setStencilReference (flags : Nat) (reference : Nat)
  | setStencilWriteMask (flags : Nat) (writeMask : Nat)
  | pushDescriptorSetKHR (bindPoint : Nat) (layout : Nat) (set : Nat)
      (writes : List WriteDescriptorSet) (bufferDescs : List DescriptorBufferInfo)
  | updateDescriptorSets (writes : List WriteDescriptorSet) (copies : List CopyDescriptorSet)
      (bufferDescs : List DescriptorBufferInfo)
  | bindDescriptorSets (bindPoint : Nat) (layout : Nat) (firstSet : Nat) (descriptorSet : Nat)
  | bindPipeline (bindPoint : Nat) (pipeline : Nat)
deriving DecidableEq, Repr

/-- What recording acts on: the `GPU` (memory subsystem, Vulkan device), the objects that
descriptor commands point to (`DescriptorUpdateInfo` and `ActiveDescriptorSet`, the address of
one is its position, an `ActiveDescriptorSet` dereferences to a `vk::DescriptorSet` handle) and
the calls made so far on the command buffer and the device, the earliest first. -/
structure World where
  memory : Memory
  updateInfos : List DescriptorUpdateInfo
  descriptorSets : List Nat
  calls : List VkCall

/-- One more call on the command buffer or the device. -/
def World.emit (w : World) (c : VkCall) : World := { w with calls := w.calls ++ [c] }

/-! ### The commands and their `Record` functions (lines 38-247) -/

/-- The struct `SetVertexBuffersCmdImpl`; the two arrays have `engine::VertexStreamCount`
elements. -/
structure SetVertexBuffersCmdImpl where
  firstBinding : Nat
  bindingCount : Nat
  buffers : List Nat
  offsets : List Nat
deriving DecidableEq, Repr

/-- The struct `SetVertexBuffersDynamicCmdImpl`; an element of `views` that was never assigned
is a default constructed view, `none`. -/
structure SetVertexBuffersDynamicCmdImpl where
  base : SetVertexBuffersCmdImpl
  views : List (Option BufferView)
deriving DecidableEq, Repr

structure SetIndexBufferCmdImpl where
  buffer : Nat
  offset : Nat
  indexType : Nat
deriving DecidableEq, Repr

structure SetIndexBufferDynamicCmdImpl where
  base : SetIndexBufferCmdImpl
  view : BufferView
deriving DecidableEq, Repr

structure SetTransformFeedbackBufferCmdImpl where
  binding : Nat
  buffer : Nat
  offset : Nat
  size : Nat
deriving DecidableEq, Repr

structure SetTransformFeedbackBufferDynamicCmdImpl where
  base : SetTransformFeedbackBufferCmdImpl
  view : BufferView
deriving DecidableEq, Repr

structure SetViewportCmdImpl where
  index : Nat
  viewport : Viewport
deriving DecidableEq, Repr

structure SetScissorCmdImpl where
  index : Nat
  scissor : Rect2D
deriving DecidableEq, Repr

structure SetLineWidthCmdImpl where
  lineWidth : FloatBits
deriving DecidableEq, Repr

structure SetDepthBiasCmdImpl where
  depthBiasConstantFactor : FloatBits
  depthBiasClamp : FloatBits
  depthBiasSlopeFactor : FloatBits
deriving DecidableEq, Repr

structure SetBlendConstantsCmdImpl where
  blendConstants : List FloatBits
deriving DecidableEq, Repr

structure SetDepthBoundsCmdImpl where
  minDepthBounds : FloatBits
  maxDepthBounds : FloatBits
deriving DecidableEq, Repr

structure SetBaseStencilStateCmdImpl where
  flags : Nat
  funcRef : Nat
  funcMask : Nat
  mask : Nat
deriving DecidableEq, Repr

/-- The struct `SetDescriptorSetCmdImpl<PushDescriptor>`; the three members are pointers. -/
structure SetDescriptorSetCmdImpl where
  updateInfo : Option Nat
  srcSet : Option Nat
  dstSet : Option Nat
deriving DecidableEq, Repr

structure SetPipelineCmdImpl where
  pipeline : Nat
deriving DecidableEq, Repr

/-- The contents of a command, the member `cmd` of a `CmdHolder<Cmd>`.  Vertex buffer commands
are always allocated as `SetVertexBuffersDynamicCmd`, whose first member is the
`SetVertexBuffersCmdImpl`, and both descriptor set commands have the same members. -/
inductive Cmd where
  | SetVertexBuffersDynamic (c : SetVertexBuffersDynamicCmdImpl)
  | SetIndexBuffer (c : SetIndexBufferCmdImpl)
  | SetIndexBufferDynamic (c : SetIndexBufferDynamicCmdImpl)
  | SetTransformFeedbackBuffer (c : SetTransformFeedbackBufferCmdImpl)
  | SetTransformFeedbackBufferDynamic (c : SetTransformFeedbackBufferDynamicCmdImpl)
  | SetViewport (c : SetViewportCmdImpl)
  | SetScissor (c : SetScissorCmdImpl)
  | SetLineWidth (c : SetLineWidthCmdImpl)
  | SetDepthBias (c : SetDepthBiasCmdImpl)
  | SetBlendConstants (c : SetBlendConstantsCmdImpl)
  | SetDepthBounds (c : SetDepthBoundsCmdImpl)
  | SetBaseStencilState (c : SetBaseStencilStateCmdImpl)
  | SetDescriptorSet (c : SetDescriptorSetCmdImpl)
  | SetPipeline (c : SetPipelineCmdImpl)
deriving DecidableEq, Repr

/-- A value of the function pointer `StateUpdateCmdHeader::RecordFunc`: the static member
`Record` of one of the sixteen `CmdHolder` instances. -/
inductive RecordFunc where
  | SetVertexBuffersCmd
  | SetVertexBuffersDynamicCmd
  | SetIndexBufferCmd
  | SetIndexBufferDynamicCmd
  | SetTransformFeedbackBufferCmd
  | SetTransformFeedbackBufferDynamicCmd
  | SetViewportCmd
  | SetScissorCmd
  | SetLineWidthCmd
  | SetDepthBiasCmd
  | SetBlendConstantsCmd
  | SetDepthBoundsCmd
  | SetBaseStencilStateCmd
  | SetDescriptorSetWithUpdateCmd
  | SetDescriptorSetWithPushCmd
  | SetPipelineCmd
deriving DecidableEq, Repr

/-- The struct `StateUpdateCmdHeader`. -/
structure StateUpdateCmdHeader where
  next : Option Nat
  record : RecordFunc
deriving DecidableEq, Repr

/-- The struct `CmdHolder<Cmd>`: the header followed by the command. -/
structure CmdHolder where
  header : StateUpdateCmdHeader
  cmd : Cmd
deriving DecidableEq, Repr

/-- The method `SetVertexBuffersCmdImpl::Record`; `subspan` is out of range, hence undefined,
unless `firstBinding + bindingCount` is at most the array size. -/
def SetVertexBuffersCmdImpl.Record (VertexStreamCount : Nat) (c : SetVertexBuffersCmdImpl)
    (w : World) : Option World :=
  if c.firstBinding + c.bindingCount ≤ VertexStreamCount then
    some (w.emit (.bindVertexBuffers c.firstBinding
      ((c.buffers.drop c.firstBinding).take c.bindingCount)
      ((c.offsets.drop c.firstBinding).take c.bindingCount)))
  else none

/-- One pass of the loop body of `SetVertexBuffersDynamicCmdImpl::Record`, for the index `i`. -/
def SetVertexBuffersDynamicCmdImpl.resolve (VertexStreamCount : Nat) (mem : Memory)
    (c : SetVertexBuffersDynamicCmdImpl) (i : Nat) : Option SetVertexBuffersDynamicCmdImpl :=
  if i < VertexStreamCount then
    match c.views[i]? with
    | some (some view) =>
      some { c with base := { c.base with
        buffers := c.base.buffers.set i (mem.GetBacking (view.GetBuffer mem))
        offsets := c.base.offsets.set i (view.GetOffset mem) } }
    | _ => none
  else none

/-- The method `SetVertexBuffersDynamicCmdImpl::Record`: the loop runs `i` from `firstBinding`
while `i < firstBinding + bindingCount`, a `u32` sum, then the base command is recorded. -/
def SetVertexBuffersDynamicCmdImpl.Record (VertexStreamCount : Nat)
    (c : SetVertexBuffersDynamicCmdImpl) (w : World) :
    Option (SetVertexBuffersDynamicCmdImpl × World) :=
  match (List.range' c.base.firstBinding
      (u32 (c.base.firstBinding + c.base.bindingCount) - c.base.firstBinding)).foldlM
      (SetVertexBuffersDynamicCmdImpl.resolve VertexStreamCount w.memory) c with
  | some c' => (c'.base.Record VertexStreamCount w).map (fun w' => (c', w'))
  | none => none

/-- The method `SetIndexBufferCmdImpl::Record`. -/
def SetIndexBufferCmdImpl.Record (c : SetIndexBufferCmdImpl) (w : World) : World :=
  w.emit (.bindIndexBuffer c.buffer c.offset c.indexType)

/-- The method `SetIndexBufferDynamicCmdImpl::Record`. -/
def SetIndexBufferDynamicCmdImpl.Record (c : SetIndexBufferDynamicCmdImpl) (w : World) :
    SetIndexBufferDynamicCmdImpl × World :=
  let base : SetIndexBufferCmdImpl := { c.base with
    buffer := w.memory.GetBacking (c.view.GetBuffer w.memory)
    offset := c.view.GetOffset w.memory }
  ({ c with base := base }, base.Record w)

/-- The method `SetTransformFeedbackBufferCmdImpl::Record`. -/
def SetTransformFeedbackBufferCmdImpl.Record (c : SetTransformFeedbackBufferCmdImpl)
    (w : World) : World :=
  w.emit (.bindTransformFeedbackBuffersEXT c.binding c.buffer c.offset c.size)

/-- The method `SetTransformFeedbackBufferDynamicCmdImpl::Record`. -/
def SetTransformFeedbackBufferDynamicCmdImpl.Record
    (c : SetTransformFeedbackBufferDynamicCmdImpl) (w : World) :
    SetTransformFeedbackBufferDynamicCmdImpl × World :=
  let base : SetTransformFeedbackBufferCmdImpl := { c.base with
    buffer := w.memory.GetBacking (c.view.GetBuffer w.memory)
    offset := c.view.GetOffset w.memory
    size := c.view.size }
  ({ c with base := base }, base.Record w)

/-- The method `SetViewportCmdImpl::Record`. -/
def SetViewportCmdImpl.Record (c : SetViewportCmdImpl) (w : World) : World :=
  w.emit (.setViewport c.index c.viewport)

/-- The method `SetScissorCmdImpl::Record`. -/
def SetScissorCmdImpl.Record (c : SetScissorCmdImpl) (w : World) : World :=
  w.emit (.setScissor c.index c.scissor)

/-- The method `SetLineWidthCmdImpl::Record`. -/
def SetLineWidthCmdImpl.Record (c : SetLineWidthCmdImpl) (w : World) : World :=
  w.emit (.setLineWidth c.lineWidth)

/-- The method `SetDepthBiasCmdImpl::Record`. -/
def SetDepthBiasCmdImpl.Record (c : SetDepthBiasCmdImpl) (w : World) : World :=
  w.emit (.setDepthBias c.depthBiasConstantFactor c.depthBiasClamp c.depthBiasSlopeFactor)

/-- The method `SetBlendConstantsCmdImpl::Record`. -/
def SetBlendConstantsCmdImpl.Record (c : SetBlendConstantsCmdImpl) (w : World) : World :=
  w.emit (.setBlendConstants c.blendConstants)

/-- The method `SetDepthBoundsCmdImpl::Record`. -/
def SetDepthBoundsCmdImpl.Record (c : SetDepthBoundsCmdImpl) (w : World) : World :=
  w.emit (.setDepthBounds c.minDepthBounds c.maxDepthBounds)

/-- The method `SetBaseStencilStateCmdImpl::Record`. -/
def SetBaseStencilStateCmdImpl.Record (c : SetBaseStencilStateCmdImpl) (w : World) : World :=
  ((w.emit (.setStencilCompareMask c.flags c.funcMask)).emit
    (.setStencilReference c.flags c.funcRef)).emit (.setStencilWriteMask c.flags c.mask)

/-- The first loop of `SetDescriptorSetCmdImpl::Record` from index `i` on: `bufferDescs[i]` is
assigned for a view or a binding; the assignment is undefined when `i` is out of range. -/
def resolveDynamicBindings (mem : Memory) :
    Nat → List DynamicBufferBinding → List DescriptorBufferInfo →
      Option (List DescriptorBufferInfo)
  | _, [], descs => some descs
  | i, .view v :: rest, descs =>
    if i < descs.length then
      resolveDynamicBindings mem (i + 1) rest
        (descs.set i ⟨mem.GetBacking (v.GetBuffer mem), v.GetOffset mem, v.size⟩)
    else none
  | i, .binding b :: rest, descs =>
    if i < descs.length then
      resolveDynamicBindings mem (i + 1) rest (descs.set i ⟨b.buffer, b.offset, b.size⟩)
    else none
  | i, .other :: rest, descs => resolveDynamicBindings mem (i + 1) rest descs

/-- Dereference of a pointer into a region of objects. -/
def deref {α : Type} (region : List α) (ptr : Option Nat) : Option α :=
  match ptr with
  | some p => region[p]?
  | none => none

/-- The method `SetDescriptorSetCmdImpl<PushDescriptor>::Record`.  It writes through
`updateInfo`: the changed `DescriptorUpdateInfo` is stored back into the world. -/
def SetDescriptorSetCmdImpl.Record (PushDescriptor : Bool) (c : SetDescriptorSetCmdImpl)
    (w : World) : Option World :=
  match c.updateInfo, deref w.updateInfos c.updateInfo with
  | some ptr, some updateInfo =>
    match resolveDynamicBindings w.memory 0 updateInfo.bufferDescDynamicBindings
        updateInfo.bufferDescs with
    | none => none
    | some descs =>
      if PushDescriptor then
        let resolved : DescriptorUpdateInfo := { updateInfo with bufferDescs := descs }
        let w₁ : World := { w with updateInfos := w.updateInfos.set ptr resolved }
        some (w₁.emit (.pushDescriptorSetKHR updateInfo.bindPoint updateInfo.pipelineLayout
          updateInfo.descriptorSetIndex updateInfo.writes descs))
      else
        match deref w.descriptorSets c.dstSet with
        | none => none
        | some dst =>
          let writes := updateInfo.writes.map (fun write => { write with dstSet := dst })
          match (if updateInfo.copies.isEmpty then some []
              else (deref w.descriptorSets c.srcSet).map (fun src =>
                updateInfo.copies.map
                  (fun copy => { copy with dstSet := dst, srcSet := src }))) with
          | none => none
          | some copies =>
            let updated : DescriptorUpdateInfo :=
              { updateInfo with bufferDescs := descs, writes := writes, copies := copies }
            let w₁ : World := { w with updateInfos := w.updateInfos.set ptr updated }
            let w₂ :=
              if copies.isEmpty then w₁ else w₁.emit (.updateDescriptorSets [] copies descs)
            let w₃ :=
              if writes.isEmpty then w₂ else w₂.emit (.updateDescriptorSets writes [] descs)
            some (w₃.emit (.bindDescriptorSets updateInfo.bindPoint updateInfo.pipelineLayout
              updateInfo.descriptorSetIndex dst))
  | _, _ => none

/-- The method `SetPipelineCmdImpl::Record`. -/
def SetPipelineCmdImpl.Record (c : SetPipelineCmdImpl) (w : World) : World :=
  w.emit (.bindPipeline eGraphics c.pipeline)

/-- The call `header->record(gpu, commandBuffer, header)` on a holder whose command is `cmd`:
the static `CmdHolder<Cmd>::Record` that `record` names casts the header to its own holder type
and records the command.  The cast is sound when the command has that type, and for
`SetVertexBuffersCmd::Record` on a `SetVertexBuffersDynamicCmd`, whose command begins with the
`SetVertexBuffersCmdImpl`; anything else is undefined.  The result is the command as recording
leaves it and the world after the calls. -/
def RecordFunc.call (VertexStreamCount : Nat) (record : RecordFunc) (cmd : Cmd) (w : World) :
    Option (Cmd × World) :=
  match record, cmd with
  | .SetVertexBuffersCmd, .SetVertexBuffersDynamic c =>
    (c.base.Record VertexStreamCount w).map (fun w' => (cmd, w'))
  | .SetVertexBuffersDynamicCmd, .SetVertexBuffersDynamic c =>
    (c.Record VertexStreamCount w).map (fun r => (.SetVertexBuffersDynamic r.1, r.2))
  | .SetIndexBufferCmd, .SetIndexBuffer c => some (cmd, c.Record w)
  | .SetIndexBufferDynamicCmd, .SetIndexBufferDynamic c =>
    some (.SetIndexBufferDynamic (c.Record w).1, (c.Record w).2)
  | .SetTransformFeedbackBufferCmd, .SetTransformFeedbackBuffer c => some (cmd, c.Record w)
  | .SetTransformFeedbackBufferDynamicCmd, .SetTransformFeedbackBufferDynamic c =>
    some (.SetTransformFeedbackBufferDynamic (c.Record w).1, (c.Record w).2)
  | .SetViewportCmd, .SetViewport c => some (cmd, c.Record w)
  | .SetScissorCmd, .SetScissor c => some (cmd, c.Record w)
  | .SetLineWidthCmd, .SetLineWidth c => some (cmd, c.Record w)
  | .SetDepthBiasCmd, .SetDepthBias c => some (cmd, c.Record w)
  | .SetBlendConstantsCmd, .SetBlendConstants c => some (cmd, c.Record w)
  | .SetDepthBoundsCmd, .SetDepthBounds c => some (cmd, c.Record w)
  | .SetBaseStencilStateCmd, .SetBaseStencilState c => some (cmd, c.Record w)
  | .SetDescriptorSetWithUpdateCmd, .SetDescriptorSet c =>
    (c.Record false w).map (fun w' => (cmd, w'))
  | .SetDescriptorSetWithPushCmd, .SetDescriptorSet c =>
    (c.Record true w).map (fun w' => (cmd, w'))
  | .SetPipelineCmd, .SetPipeline c => some (cmd, c.Record w)
  | _, _ => none

/-! ### `StateUpdater` and `StateUpdateBuilder` (lines 252-459)

The commands live in the linear allocator, a list of holders; the address of a holder is its
position in the list. -/

/-- The class `StateUpdater`. -/
structure StateUpdater where
  first : Option Nat
deriving DecidableEq, Repr

/-- The loop of `StateUpdater::RecordAll` from the command `cmd` on, for at most `fuel` passes:
each pass calls `cmd->record` and moves to `cmd->next`.  The result is the allocator contents
and the world after the loop; it is `none` when a pass is undefined or the passes run out. -/
def recordFrom (VertexStreamCount : Nat) :
    Nat → Option Nat → List CmdHolder → World → Option (List CmdHolder × World)
  | _, none, arena, w => some (arena, w)
  | 0, some _, _, _ => none
  | fuel + 1, some p, arena, w =>
    match arena[p]? with
    | none => none
    | some node =>
      match node.header.record.call VertexStreamCount node.cmd w with
      | none => none
      | some r =>
        recordFrom VertexStreamCount fuel node.header.next
          (arena.set p { node with cmd := r.1 }) r.2

/-- The method `StateUpdater::RecordAll`. -/
def StateUpdater.RecordAll (VertexStreamCount : Nat) (fuel : Nat) (updater : StateUpdater)
    (arena : List CmdHolder) (w : World) : Option (List CmdHolder × World) :=
  recordFrom VertexStreamCount fuel updater.first arena w

/-- The members of the class `StateUpdateBuilder`; `allocator` holds the commands emplaced into
the linear allocator by this builder.  `appended` is not a member: it is the history of the
arguments of `AppendCmd`, the earliest first, which no operation reads. -/
structure StateUpdateBuilder where
  allocator : List CmdHolder
  vertexBatchBindNextBinding : Nat
  vertexBatchBind : Nat
  head : Option Nat
  tail : Option Nat
  appended : List Nat
deriving DecidableEq, Repr

/-- A default constructed `SetVertexBuffersDynamicCmdImpl` for `VertexStreamCount` streams:
zeroed base (`base{}`) and default constructed views. -/
def SetVertexBuffersDynamicCmdImpl.new (VertexStreamCount : Nat) :
    SetVertexBuffersDynamicCmdImpl :=
  ⟨⟨0, 0, List.replicate VertexStreamCount 0, List.replicate VertexStreamCount 0⟩,
    List.replicate VertexStreamCount none⟩

/-- A default constructed `SetVertexBuffersDynamicCmd`: null `next`, its own `Record` and a
default constructed command. -/
def SetVertexBuffersDynamicCmd (VertexStreamCount : Nat) : CmdHolder :=
  ⟨⟨none, .SetVertexBuffersDynamicCmd⟩,
    .SetVertexBuffersDynamic (SetVertexBuffersDynamicCmdImpl.new VertexStreamCount)⟩

namespace StateUpdateBuilder

/-- The call `allocator.EmplaceUntracked<Cmd>(...)`: the holder is placed at the next unused
address, which is returned. -/
def EmplaceUntracked (b : StateUpdateBuilder) (holder : CmdHolder) : Nat × StateUpdateBuilder :=
  (b.allocator.length, { b with allocator := b.allocator ++ [holder] })

/-- The constructor `StateUpdateBuilder(allocator)`. -/
def new (VertexStreamCount : Nat) : StateUpdateBuilder :=
  { allocator := [SetVertexBuffersDynamicCmd VertexStreamCount]
    vertexBatchBindNextBinding := 0
    vertexBatchBind := 0
    head := none
    tail := none
    appended := [] }

/-- The method `AppendCmd(StateUpdateCmdHeader *cmd)`. -/
def AppendCmd (b : StateUpdateBuilder) (cmd : Nat) : Option StateUpdateBuilder :=
  match b.tail with
  | some t =>
    match b.allocator[t]? with
    | some node =>
      some { b with
        allocator := b.allocator.set t { node with header := { node.header with next := some cmd } }
        tail := some cmd
        appended := b.appended ++ [cmd] }
    | none => none
  | none => some { b with head := some cmd, tail := some cmd, appended := b.appended ++ [cmd] }

/-- The template `AppendCmd<Cmd>(contents)`: a holder constructed from the contents, with null
`next` and the `Record` of its type, is emplaced and appended. -/
def AppendCmdNew (b : StateUpdateBuilder) (record : RecordFunc) (contents : Cmd) :
    Option StateUpdateBuilder :=
  (b.EmplaceUntracked ⟨⟨none, record⟩, contents⟩).2.AppendCmd
    (b.EmplaceUntracked ⟨⟨none, record⟩, contents⟩).1

/-- Reading `*vertexBatchBind`: its header and its command. -/
def vertexBatchBindCmd (b : StateUpdateBuilder) :
    Option (StateUpdateCmdHeader × SetVertexBuffersDynamicCmdImpl) :=
  match b.allocator[b.vertexBatchBind]? with
  | some ⟨header, .SetVertexBuffersDynamic c⟩ => some (header, c)
  | _ => none

/-- Writing `*vertexBatchBind`. -/
def vertexBatchBindStore (b : StateUpdateBuilder) (header : StateUpdateCmdHeader)
    (c : SetVertexBuffersDynamicCmdImpl) : StateUpdateBuilder :=
  { b with allocator := b.allocator.set b.vertexBatchBind ⟨header, .SetVertexBuffersDynamic c⟩ }

/-- The method `FlushVertexBatchBind`. -/
def FlushVertexBatchBind (VertexStreamCount : Nat) (b : StateUpdateBuilder) :
    Option StateUpdateBuilder :=
  match b.vertexBatchBindCmd with
  | none => none
  | some (_, c) =>
    if c.base.bindingCount ≠ 0 then
      match b.AppendCmd b.vertexBatchBind with
      | none => none
      | some b₁ =>
        some { (b₁.EmplaceUntracked (SetVertexBuffersDynamicCmd VertexStreamCount)).2 with
          vertexBatchBind :=
            (b₁.EmplaceUntracked (SetVertexBuffersDynamicCmd VertexStreamCount)).1 }
    else some b

/-- The method `Build`: the updater and the builder as the call leaves it. -/
def Build (VertexStreamCount : Nat) (b : StateUpdateBuilder) :
    Option (StateUpdater × StateUpdateBuilder) :=
  (b.FlushVertexBatchBind VertexStreamCount).map (fun b' => (⟨b'.head⟩, b'))

/-- The body of the `if` of both `SetVertexBuffer` overloads: flush, then set `header.record`
to `record`, `firstBinding` and `vertexBatchBindNextBinding` to `index`. -/
def restartVertexBatch (VertexStreamCount : Nat) (b : StateUpdateBuilder) (record : RecordFunc)
    (index : Nat) : Option StateUpdateBuilder :=
  match b.FlushVertexBatchBind VertexStreamCount with
  | none => none
  | some b₁ =>
    match b₁.vertexBatchBindCmd with
    | none => none
    | some (header, c) =>
      some { b₁.vertexBatchBindStore { header with record := record }
          { c with base := { c.base with firstBinding := index } } with
        vertexBatchBindNextBinding := index }

/-- The method `SetVertexBuffer(u32 index, const BufferBinding &binding)`; a write into the
arrays at an index that is not below `VertexStreamCount` is undefined. -/
def SetVertexBuffer (VertexStreamCount : Nat) (b : StateUpdateBuilder) (index : Nat)
    (binding : BufferBinding) : Option StateUpdateBuilder :=
  match b.vertexBatchBindCmd with
  | none => none
  | some (header, _) =>
    match (if index ≠ b.vertexBatchBindNextBinding ∨ header.record ≠ .SetVertexBuffersCmd then
        b.restartVertexBatch VertexStreamCount .SetVertexBuffersCmd index else some b) with
    | none => none
    | some b₁ =>
      match b₁.vertexBatchBindCmd with
      | none => none
      | some (header₁, c) =>
        if b₁.vertexBatchBindNextBinding < VertexStreamCount then
          some { b₁.vertexBatchBindStore header₁
              { c with base := { c.base with
                buffers := c.base.buffers.set b₁.vertexBatchBindNextBinding binding.buffer
                offsets := c.base.offsets.set b₁.vertexBatchBindNextBinding binding.offset
                bindingCount := u32 (c.base.bindingCount + 1) } } with
            vertexBatchBindNextBinding := u32 (b₁.vertexBatchBindNextBinding + 1) }
        else none

/-- The method `SetVertexBuffer(u32 index, BufferView view)`, with the memory subsystem that
its first statement acts on. -/
def SetVertexBufferView (VertexStreamCount : Nat) (b : StateUpdateBuilder) (mem : Memory)
    (index : Nat) (view : BufferView) : Option (StateUpdateBuilder × Memory) :=
  match b.vertexBatchBindCmd with
  | none => none
  | some (header, _) =>
    match (if index ≠ b.vertexBatchBindNextBinding ∨
          header.record ≠ .SetVertexBuffersDynamicCmd then
        b.restartVertexBatch VertexStreamCount .SetVertexBuffersDynamicCmd index else some b) with
    | none => none
    | some b₁ =>
      match b₁.vertexBatchBindCmd with
      | none => none
      | some (header₁, c) =>
        if b₁.vertexBatchBindNextBinding < VertexStreamCount then
          some ({ b₁.vertexBatchBindStore header₁
              { c with
                views := c.views.set b₁.vertexBatchBindNextBinding (some view)
                base := { c.base with bindingCount := u32 (c.base.bindingCount + 1) } } with
            vertexBatchBindNextBinding := u32 (b₁.vertexBatchBindNextBinding + 1) },
            mem.BlockSequencedCpuBackingWrites (view.GetBuffer mem))
        else none

/-- The method `SetIndexBuffer(const BufferBinding &binding, vk::IndexType indexType)`. -/
def SetIndexBuffer (b : StateUpdateBuilder) (binding : BufferBinding) (indexType : Nat) :
    Option StateUpdateBuilder :=
  b.AppendCmdNew .SetIndexBufferCmd (.SetIndexBuffer
    { indexType := indexType, buffer := binding.buffer, offset := binding.offset })

/-- The method `SetIndexBuffer(BufferView view, vk::IndexType indexType)`; the members of the
base that are not named are zeroed. -/
def SetIndexBufferView (b : StateUpdateBuilder) (mem : Memory) (view : BufferView)
    (indexType : Nat) : Option (StateUpdateBuilder × Memory) :=
  (b.AppendCmdNew .SetIndexBufferDynamicCmd (.SetIndexBufferDynamic
    { base := { indexType := indexType, buffer := 0, offset := 0 }, view := view })).map
    (fun b' => (b', mem.BlockSequencedCpuBackingWrites (view.GetBuffer mem)))

/-- The method `SetTransformFeedbackBuffer(u32 index, const BufferBinding &binding)`. -/
def SetTransformFeedbackBuffer (b : StateUpdateBuilder) (index : Nat) (binding : BufferBinding) :
    Option StateUpdateBuilder :=
  b.AppendCmdNew .SetTransformFeedbackBufferCmd (.SetTransformFeedbackBuffer
    { binding := index, buffer := binding.buffer, offset := binding.offset,
      size := binding.size })

/-- The method `SetTransformFeedbackBuffer(u32 index, BufferView view)`. -/
def SetTransformFeedbackBufferView (b : StateUpdateBuilder) (mem : Memory) (index : Nat)
    (view : BufferView) : Option (StateUpdateBuilder × Memory) :=
  (b.AppendCmdNew .SetTransformFeedbackBufferDynamicCmd (.SetTransformFeedbackBufferDynamic
    { base := { binding := index, buffer := 0, offset := 0, size := 0 }, view := view })).map
    (fun b' => (b', mem.BlockSequencedCpuBackingWrites (view.GetBuffer mem)))

/-- The method `SetViewport`. -/
def SetViewport (b : StateUpdateBuilder) (index : Nat) (viewport : Viewport) :
    Option StateUpdateBuilder :=
  b.AppendCmdNew .SetViewportCmd (.SetViewport { index := index, viewport := viewport })

/-- The method `SetScissor`. -/
def SetScissor (b : StateUpdateBuilder) (index : Nat) (scissor : Rect2D) :
    Option StateUpdateBuilder :=
  b.AppendCmdNew .SetScissorCmd (.SetScissor { index := index, scissor := scissor })

/-- The method `SetLineWidth`. -/
def SetLineWidth (b : StateUpdateBuilder) (lineWidth : FloatBits) : Option StateUpdateBuilder :=
  b.AppendCmdNew .SetLineWidthCmd (.SetLineWidth { lineWidth := lineWidth })

/-- The method `SetDepthBias`. -/
def SetDepthBias (b : StateUpdateBuilder) (depthBiasConstantFactor depthBiasClamp
    depthBiasSlopeFactor : FloatBits) : Option StateUpdateBuilder :=
  b.AppendCmdNew .SetDepthBiasCmd (.SetDepthBias
    { depthBiasConstantFactor := depthBiasConstantFactor, depthBiasClamp := depthBiasClamp,
      depthBiasSlopeFactor := depthBiasSlopeFactor })

/-- The method `SetBlendConstants`. -/
def SetBlendConstants (b : StateUpdateBuilder) (blendConstants : List FloatBits) :
    Option StateUpdateBuilder :=
  b.AppendCmdNew .SetBlendConstantsCmd (.SetBlendConstants { blendConstants := blendConstants })

/-- The method `SetDepthBounds`. -/
def SetDepthBounds (b : StateUpdateBuilder) (minDepthBounds maxDepthBounds : FloatBits) :
    Option StateUpdateBuilder :=
  b.AppendCmdNew .SetDepthBoundsCmd (.SetDepthBounds
    { minDepthBounds := minDepthBounds, maxDepthBounds := maxDepthBounds })

/-- The method `SetBaseStencilState`. -/
def SetBaseStencilState (b : StateUpdateBuilder) (flags funcRef funcMask mask : Nat) :
    Option StateUpdateBuilder :=
  b.AppendCmdNew .SetBaseStencilStateCmd (.SetBaseStencilState
    { flags := flags, funcRef := funcRef, funcMask := funcMask, mask := mask })

/-- The method `SetDescriptorSetWithUpdate`. -/
def SetDescriptorSetWithUpdate (b : StateUpdateBuilder) (updateInfo dstSet srcSet : Option Nat) :
    Option StateUpdateBuilder :=
  b.AppendCmdNew .SetDescriptorSetWithUpdateCmd (.SetDescriptorSet
    { updateInfo := updateInfo, srcSet := srcSet, dstSet := dstSet })

/-- The method `SetPipeline`. -/
def SetPipeline (b : StateUpdateBuilder) (pipeline : Nat) : Option StateUpdateBuilder :=
  b.AppendCmdNew .SetPipelineCmd (.SetPipeline { pipeline := pipeline })

/-- The method `SetDescriptorSetWithPush`; the two set pointers are left null. -/
def SetDescriptorSetWithPush (b : StateUpdateBuilder) (updateInfo : Option Nat) :
    Option StateUpdateBuilder :=
  b.AppendCmdNew .SetDescriptorSetWithPushCmd (.SetDescriptorSet
    { updateInfo := updateInfo, srcSet := none, dstSet := none })

end StateUpdateBuilder

/-- A call of one of the public operations of `StateUpdateBuilder` other than `Build`, with
its arguments. -/
inductive BuilderCall where
  | SetVertexBuffer (index : Nat) (binding : BufferBinding)
  | SetVertexBufferView (index : Nat) (view : BufferView)
  | SetIndexBuffer (binding : BufferBinding) (indexType : Nat)
  | SetIndexBufferView (view : BufferView) (indexType : Nat)
  | SetTransformFeedbackBuffer (index : Nat) (binding : BufferBinding)
  | SetTransformFeedbackBufferView (index : Nat) (view : BufferView)
  | SetViewport (index : Nat) (viewport : Viewport)
  | SetScissor (index : Nat) (scissor : Rect2D)
  | SetLineWidth (lineWidth : FloatBits)
  | SetDepthBias (depthBiasConstantFactor : FloatBits) (depthBiasClamp : FloatBits)
      (depthBiasSlopeFactor : FloatBits)
  | SetBlendConstants (blendConstants : List FloatBits)
  | SetDepthBounds (minDepthBounds : FloatBits) (maxDepthBounds : FloatBits)
  | SetBaseStencilState (flags : Nat) (funcRef : Nat) (funcMask : Nat) (mask : Nat)
  | SetDescriptorSetWithUpdate (updateInfo : Option Nat) (dstSet : Option Nat)
      (srcSet : Option Nat)
  | SetPipeline (pipeline : Nat)
  | SetDescriptorSetWithPush (updateInfo : Option Nat)
deriving DecidableEq, Repr

namespace StateUpdateBuilder

/-- One call made on the builder, with the memory subsystem beside it. -/
def call (VertexStreamCount : Nat) (s : StateUpdateBuilder × Memory) :
    BuilderCall → Option (StateUpdateBuilder × Memory)
  | .SetVertexBuffer index binding =>
    (s.1.SetVertexBuffer VertexStreamCount index binding).map (fun b => (b, s.2))
  | .SetVertexBufferView index view => s.1.SetVertexBufferView VertexStreamCount s.2 index view
  | .SetIndexBuffer binding indexType =>
    (s.1.SetIndexBuffer binding indexType).map (fun b => (b, s.2))
  | .SetIndexBufferView view indexType => s.1.SetIndexBufferView s.2 view indexType
  | .SetTransformFeedbackBuffer index binding =>
    (s.1.SetTransformFeedbackBuffer index binding).map (fun b => (b, s.2))
  | .SetTransformFeedbackBufferView index view =>
    s.1.SetTransformFeedbackBufferView s.2 index view
  | .SetViewport index viewport => (s.1.SetViewport index viewport).map (fun b => (b, s.2))
  | .SetScissor index scissor => (s.1.SetScissor index scissor).map (fun b => (b, s.2))
  | .SetLineWidth lineWidth => (s.1.SetLineWidth lineWidth).map (fun b => (b, s.2))
  | .SetDepthBias f c sl => (s.1.SetDepthBias f c sl).map (fun b => (b, s.2))
  | .SetBlendConstants bc => (s.1.SetBlendConstants bc).map (fun b => (b, s.2))
  | .SetDepthBounds lo hi => (s.1.SetDepthBounds lo hi).map (fun b => (b, s.2))
  | .SetBaseStencilState flags funcRef funcMask mask =>
    (s.1.SetBaseStencilState flags funcRef funcMask mask).map (fun b => (b, s.2))
  | .SetDescriptorSetWithUpdate updateInfo dstSet srcSet =>
    (s.1.SetDescriptorSetWithUpdate updateInfo dstSet srcSet).map (fun b => (b, s.2))
  | .SetPipeline pipeline => (s.1.SetPipeline pipeline).map (fun b => (b, s.2))
  | .SetDescriptorSetWithPush updateInfo =>
    (s.1.SetDescriptorSetWithPush updateInfo).map (fun b => (b, s.2))

/-- A sequence of calls made on the builder, in order. -/
def calls (VertexStreamCount : Nat) (s : StateUpdateBuilder × Memory) :
    List BuilderCall → Option (StateUpdateBuilder × Memory)
  | [] => some s
  | c :: cs =>
    match call VertexStreamCount s c with
    | none => none
    | some s' => calls VertexStreamCount s' cs

/-- A sequence of calls on a newly constructed builder followed by `Build`: the updater, the
builder as `Build` leaves it, whose allocator holds the list of the updater, and the memory
subsystem after the calls. -/
def buildAll (VertexStreamCount : Nat) (mem : Memory) (cs : List BuilderCall) :
    Option (StateUpdater × StateUpdateBuilder × Memory) :=
  match calls VertexStreamCount (new VertexStreamCount, mem) cs with
  | none => none
  | some s => (s.1.Build VertexStreamCount).map (fun r => (r.1, r.2, s.2))

end StateUpdateBuilder

/-- The addresses met by following `next` from `cmd`, for at most `fuel` steps. -/
def walk (arena : List CmdHolder) : Nat → Option Nat → List Nat
  | 0, _ => []
  | _ + 1, none => []
  | fuel + 1, some p =>
    match arena[p]? with
    | none => []
    | some node => p :: walk arena fuel node.header.next

/-- The list that a `StateUpdater` refers to: the holders met from `first` by following `next`,
in order. -/
def StateUpdater.nodes (updater : StateUpdater) (arena : List CmdHolder) : List CmdHolder :=
  (walk arena arena.length updater.first).filterMap (fun p => arena[p]?)

/-- The record functions and commands of the list that a `StateUpdater` refers to, in
order. -/
def StateUpdater.contents (updater : StateUpdater) (arena : List CmdHolder) :
    List (RecordFunc × Cmd) :=
  (updater.nodes arena).map (fun n => (n.header.record, n.cmd))

/-- Whether a holder is a vertex buffer batch. -/
def CmdHolder.isVertexBatch (holder : CmdHolder) : Bool :=
  match holder.cmd with
  | .SetVertexBuffersDynamic _ => true
  | _ => false

/-- The memory subsystem of the examples: every view lies at offset 0 of the buffer with its
own number, a buffer number is its own backing handle, nothing is blocked. -/
def Memory.example : Memory := ⟨id, fun _ => 0, id, []⟩

/-- The world of the examples: that memory subsystem, no descriptor objects, no calls yet. -/
def World.example : World := ⟨Memory.example, [], [], []⟩

/-- Whether the call is no `SetVertexBuffer` or its index is below `VertexStreamCount`: the
index of a `SetVertexBuffer` call must be the index of a vertex stream. -/
def BuilderCall.indexInRange (VertexStreamCount : Nat) : BuilderCall → Bool
  | .SetVertexBuffer index _ => decide (index < VertexStreamCount)
  | .SetVertexBufferView index _ => decide (index < VertexStreamCount)
  | _ => true

/-! ## Vocabulary of the properties of the deferred state updates -/

/-- The holders at the addresses `ps`, starting at `start`, are linked by `next` in this order,
the last `next` is null, and their record functions and commands are `L`. -/
def Linked (arena : List CmdHolder) : Option Nat → List Nat → List (RecordFunc × Cmd) → Prop
  | start, [], [] => start = none
  | start, p :: ps, rc :: L =>
    start = some p ∧ ∃ nx, arena[p]? = some ⟨⟨nx, rc.1⟩, rc.2⟩ ∧ Linked arena nx ps L
  | _, _ :: _, [] => False
  | _, [], _ :: _ => False

/-- What a builder holds, apart from addresses: the record functions and commands of the
holders appended so far, in order, the record function and command of the pending vertex batch
and the next contiguous binding. -/
structure Abs where
  list : List (RecordFunc × Cmd)
  record : RecordFunc
  pending : SetVertexBuffersDynamicCmdImpl
  next : Nat

/-- The list part of the representation of a builder. -/
structure ListRep (b : StateUpdateBuilder) (L : List (RecordFunc × Cmd)) : Prop where
  linked : Linked b.allocator b.head b.appended L
  tail : b.tail = b.appended.getLast?
  nodup : b.appended.Nodup

/-- The builder `b` holds `a`. -/
structure Rep (b : StateUpdateBuilder) (a : Abs) : Prop where
  list : ListRep b a.list
  fresh : b.vertexBatchBind ∉ b.appended
  pending : b.allocator[b.vertexBatchBind]? =
    some ⟨⟨none, a.record⟩, .SetVertexBuffersDynamic a.pending⟩
  next : b.vertexBatchBindNextBinding = a.next

/-- The holder that a call of an operation other than `SetVertexBuffer` constructs: its record
function and its command. -/
def BuilderCall.node : BuilderCall → Option (RecordFunc × Cmd)
  | .SetVertexBuffer _ _ => none
  | .SetVertexBufferView _ _ => none
  | .SetIndexBuffer binding indexType =>
    some (.SetIndexBufferCmd, .SetIndexBuffer ⟨binding.buffer, binding.offset, indexType⟩)
  | .SetIndexBufferView view indexType =>
    some (.SetIndexBufferDynamicCmd, .SetIndexBufferDynamic ⟨⟨0, 0, indexType⟩, view⟩)
  | .SetTransformFeedbackBuffer index binding =>
    some (.SetTransformFeedbackBufferCmd,
      .SetTransformFeedbackBuffer ⟨index, binding.buffer, binding.offset, binding.size⟩)
  | .SetTransformFeedbackBufferView index view =>
    some (.SetTransformFeedbackBufferDynamicCmd,
      .SetTransformFeedbackBufferDynamic ⟨⟨index, 0, 0, 0⟩, view⟩)
  | .SetViewport index viewport => some (.SetViewportCmd, .SetViewport ⟨index, viewport⟩)
  | .SetScissor index scissor => some (.SetScissorCmd, .SetScissor ⟨index, scissor⟩)
  | .SetLineWidth lineWidth => some (.SetLineWidthCmd, .SetLineWidth ⟨lineWidth⟩)
  | .SetDepthBias f c s => some (.SetDepthBiasCmd, .SetDepthBias ⟨f, c, s⟩)
  | .SetBlendConstants bc => some (.SetBlendConstantsCmd, .SetBlendConstants ⟨bc⟩)
  | .SetDepthBounds lo hi => some (.SetDepthBoundsCmd, .SetDepthBounds ⟨lo, hi⟩)
  | .SetBaseStencilState flags funcRef funcMask mask =>
    some (.SetBaseStencilStateCmd, .SetBaseStencilState ⟨flags, funcRef, funcMask, mask⟩)
  | .SetDescriptorSetWithUpdate updateInfo dstSet srcSet =>
    some (.SetDescriptorSetWithUpdateCmd, .SetDescriptorSet ⟨updateInfo, srcSet, dstSet⟩)
  | .SetPipeline pipeline => some (.SetPipelineCmd, .SetPipeline ⟨pipeline⟩)
  | .SetDescriptorSetWithPush updateInfo =>
    some (.SetDescriptorSetWithPushCmd, .SetDescriptorSet ⟨updateInfo, none, none⟩)

namespace Abs

/-- What a newly constructed builder holds. -/
def new (VertexStreamCount : Nat) : Abs :=
  ⟨[], .SetVertexBuffersDynamicCmd, SetVertexBuffersDynamicCmdImpl.new VertexStreamCount, 0⟩

/-- One holder more at the end of the list. -/
def append (a : Abs) (rc : RecordFunc × Cmd) : Abs := { a with list := a.list ++ [rc] }

/-- The pending batch moves to the end of the list unless it is empty. -/
def flush (VertexStreamCount : Nat) (a : Abs) : Abs :=
  if a.pending.base.bindingCount ≠ 0 then
    ⟨a.list ++ [(a.record, .SetVertexBuffersDynamic a.pending)], .SetVertexBuffersDynamicCmd,
      SetVertexBuffersDynamicCmdImpl.new VertexStreamCount, a.next⟩
  else a

/-- A flush followed by the start of a batch at `index`. -/
def restart (VertexStreamCount : Nat) (a : Abs) (record : RecordFunc) (index : Nat) : Abs :=
  { a.flush VertexStreamCount with
    record := record
    pending := { (a.flush VertexStreamCount).pending with
      base := { (a.flush VertexStreamCount).pending.base with firstBinding := index } }
    next := index }

/-- The batch that the bind of a given kind at `index` goes to. -/
def enter (VertexStreamCount : Nat) (a : Abs) (record : RecordFunc) (index : Nat) : Abs :=
  if index ≠ a.next ∨ a.record ≠ record then a.restart VertexStreamCount record index else a

/-- The write of a direct binding into the slot `next` of the pending batch. -/
def writeDirect (a : Abs) (binding : BufferBinding) : Abs :=
  { a with
    pending := { a.pending with
      base := { a.pending.base with
        buffers := a.pending.base.buffers.set a.next binding.buffer
        offsets := a.pending.base.offsets.set a.next binding.offset
        bindingCount := u32 (a.pending.base.bindingCount + 1) } }
    next := u32 (a.next + 1) }

/-- The write of a view into the slot `next` of the pending batch. -/
def writeView (a : Abs) (view : BufferView) : Abs :=
  { a with
    pending := { a.pending with
      views := a.pending.views.set a.next (some view)
      base := { a.pending.base with bindingCount := u32 (a.pending.base.bindingCount + 1) } }
    next := u32 (a.next + 1) }

/-- A direct vertex buffer bind. -/
def SetVertexBuffer (VertexStreamCount : Nat) (a : Abs) (index : Nat) (binding : BufferBinding) :
    Option Abs :=
  if (a.enter VertexStreamCount .SetVertexBuffersCmd index).next < VertexStreamCount then
    some ((a.enter VertexStreamCount .SetVertexBuffersCmd index).writeDirect binding)
  else none

/-- A vertex buffer bind of a view. -/
def SetVertexBufferView (VertexStreamCount : Nat) (a : Abs) (index : Nat) (view : BufferView) :
    Option Abs :=
  if (a.enter VertexStreamCount .SetVertexBuffersDynamicCmd index).next < VertexStreamCount then
    some ((a.enter VertexStreamCount .SetVertexBuffersDynamicCmd index).writeView view)
  else none

/-- One call. -/
def call (VertexStreamCount : Nat) (a : Abs) (c : BuilderCall) : Option Abs :=
  match c with
  | .SetVertexBuffer index binding => a.SetVertexBuffer VertexStreamCount index binding
  | .SetVertexBufferView index view => a.SetVertexBufferView VertexStreamCount index view
  | c =>
    match c.node with
    | some rc => some (a.append rc)
    | none => none

/-- A sequence of calls. -/
def calls (VertexStreamCount : Nat) (a : Abs) : List BuilderCall → Option Abs
  | [] => some a
  | c :: cs =>
    match a.call VertexStreamCount c with
    | none => none
    | some a' => calls VertexStreamCount a' cs

end Abs

/-- Results of an operation on a builder and on what it holds that agree. -/
def RepOpt : Option StateUpdateBuilder → Option Abs → Prop
  | some b, some a => Rep b a
  | none, none => True
  | _, _ => False

/-- The record function of every address of `ps` called in turn, each on the holder at that
address: the replay of the holders at `ps` in the order of `ps`, each once. -/
def recordEach (VertexStreamCount : Nat) :
    List Nat → List CmdHolder → World → Option (List CmdHolder × World)
  | [], arena, w => some (arena, w)
  | p :: ps, arena, w =>
    match arena[p]? with
    | none => none
    | some node =>
      match node.header.record.call VertexStreamCount node.cmd w with
      | none => none
      | some r => recordEach VertexStreamCount ps (arena.set p { node with cmd := r.1 }) r.2

/-- Where a vertex buffer bind takes its buffer from: a location, given by buffer handle and
offset, or a view. -/
inductive VertexSource where
  | direct (buffer : Nat) (offset : Nat)
  | view (v : BufferView)
deriving DecidableEq, Repr

/-- What a `SetVertexBuffer` call asks for: the binding index and the source. -/
structure VertexBind where
  index : Nat
  source : VertexSource
deriving DecidableEq, Repr

/-- The vertex buffer bind that a call asks for, if it is a `SetVertexBuffer` call. -/
def BuilderCall.vertexBind : BuilderCall → Option VertexBind
  | .SetVertexBuffer index binding => some ⟨index, .direct binding.buffer binding.offset⟩
  | .SetVertexBufferView index view => some ⟨index, .view view⟩
  | _ => none

/-- What a vertex batch with record function `r` holds for the binding `i`: for
`SetVertexBuffersCmd::Record` the location in `buffers[i]` and `offsets[i]`, for
`SetVertexBuffersDynamicCmd::Record` the view in `views[i]`. -/
def batchSlot (r : RecordFunc) (c : SetVertexBuffersDynamicCmdImpl) (i : Nat) :
    Option VertexBind :=
  match r with
  | .SetVertexBuffersCmd =>
    match c.base.buffers[i]?, c.base.offsets[i]? with
    | some buffer, some offset => some ⟨i, .direct buffer offset⟩
    | _, _ => none
  | .SetVertexBuffersDynamicCmd =>
    match c.views[i]? with
    | some (some v) => some ⟨i, .view v⟩
    | _ => none
  | _ => none

/-- The binds that a vertex batch replays: its slots `firstBinding`, ...,
`firstBinding + bindingCount - 1` in this order. -/
def batchBinds (r : RecordFunc) (c : SetVertexBuffersDynamicCmdImpl) : List (Option VertexBind) :=
  (List.range' c.base.firstBinding c.base.bindingCount).map (batchSlot r c)

/-- The vertex buffer binds that a holder replays; none unless it is a vertex batch. -/
def holderBinds (rc : RecordFunc × Cmd) : List (Option VertexBind) :=
  match rc.2 with
  | .SetVertexBuffersDynamic c => batchBinds rc.1 c
  | _ => []

/-- The holder itself unless it is a vertex batch. -/
def holderOther (rc : RecordFunc × Cmd) : Option (RecordFunc × Cmd) :=
  match rc.2 with
  | .SetVertexBuffersDynamic _ => none
  | _ => some rc

/-- What `a` holds accounts for the calls `pre`: the pending batch is well formed, the holders in
the list that are no vertex batches are those of the calls of `pre` other than `SetVertexBuffer`,
in call order, and the slots of the vertex batches in the list followed by those of the pending
batch are the `SetVertexBuffer` calls of `pre`, in call order. -/
structure Tracks (N : Nat) (a : Abs) (pre : List BuilderCall) : Prop where
  sum : a.pending.base.firstBinding + a.pending.base.bindingCount = a.next
  le : a.next ≤ N
  buffers : a.pending.base.buffers.length = N
  offsets : a.pending.base.offsets.length = N
  views : a.pending.views.length = N
  others : a.list.filterMap holderOther = pre.filterMap BuilderCall.node
  binds : a.list.flatMap holderBinds ++ batchBinds a.record a.pending =
    (pre.filterMap BuilderCall.vertexBind).map some

/-- The operation with result `result` on the builder `b` appends exactly one holder at the
tail: the operation is defined, the new holder is the one at the next unused address of the
allocator and has a null `next`, the record function `r` and the command `cmd`, it is the new
`tail`, following `next` from `head` meets the holders met before, in the same order, and then
the new one, and the record functions and commands of the list are those of before followed by
`r` and `cmd`. -/
def AppendsOne (b : StateUpdateBuilder) (result : Option StateUpdateBuilder) (r : RecordFunc)
    (cmd : Cmd) : Prop :=
  ∃ b', result = some b' ∧
    b'.allocator[b.allocator.length]? = some ⟨⟨none, r⟩, cmd⟩ ∧
    b'.tail = some b.allocator.length ∧
    walk b'.allocator b'.allocator.length b'.head =
      walk b.allocator b.allocator.length b.head ++ [b.allocator.length] ∧
    (⟨b'.head⟩ : StateUpdater).contents b'.allocator =
      (⟨b.head⟩ : StateUpdater).contents b.allocator ++ [(r, cmd)]

/-- The pending batch of `a` is a run of `n` binds of the kind `r` that starts at the binding
`f`, and the list of `a` is `L`. -/
structure OpenRun (a : Abs) (r : RecordFunc) (f n : Nat) (L : List (RecordFunc × Cmd)) :
    Prop where
  list : a.list = L
  record : a.record = r
  first : a.pending.base.firstBinding = f
  count : a.pending.base.bindingCount = n
  next : a.next = f + n

/-- The number of maximal runs of consecutive ascending indices of a sequence of indices: one
for the first index and one more for every index that is not its predecessor plus one. -/
def ascendingRuns : List Nat → Nat
  | [] => 0
  | [_] => 1
  | i :: j :: rest => (if j = i + 1 then 0 else 1) + ascendingRuns (j :: rest)

/-- Whether the command with this record function is a vertex buffer batch. -/
def holderIsBatch (rc : RecordFunc × Cmd) : Bool :=
  match rc.2 with
  | .SetVertexBuffersDynamic _ => true
  | _ => false

/-- After binds of the kind `r` to the indices `idxs`, in what `a` holds: the pending batch is
well formed, it is empty only if there was no bind, else it is of the kind `r` and ends at the
last index, and the vertex batches of the list and the pending batch, if it is not empty, are
as many as the runs of `idxs`. -/
structure RunCount (N : Nat) (r : RecordFunc) (a : Abs) (idxs : List Nat) : Prop where
  sum : a.pending.base.firstBinding + a.pending.base.bindingCount = a.next
  le : a.next ≤ N
  idle : a.pending.base.bindingCount = 0 → idxs = []
  running : a.pending.base.bindingCount ≠ 0 →
    a.record = r ∧ idxs.getLast? = some (a.next - 1) ∧ 1 ≤ a.next
  runs : (a.list.filter holderIsBatch).length +
    (if a.pending.base.bindingCount = 0 then 0 else 1) = ascendingRuns idxs

/-- The buffer that a call marks as blocked for sequenced CPU backing writes, if it marks one:
the buffer of the view of the `BufferView` overloads of `SetVertexBuffer`, `SetIndexBuffer` and
`SetTransformFeedbackBuffer`. -/
def BuilderCall.blocks (mem : Memory) : BuilderCall → Option Nat
  | .SetVertexBufferView _ view => some (view.GetBuffer mem)
  | .SetIndexBufferView view _ => some (view.GetBuffer mem)
  | .SetTransformFeedbackBufferView _ view => some (view.GetBuffer mem)
  | _ => none

/-- The buffer handle that a vertex buffer bind stands for when the memory subsystem is `mem`:
the handle of a location, the backing of the buffer of a view. -/
def VertexBind.buffer (mem : Memory) (vb : VertexBind) : Nat :=
  match vb.source with
  | .direct buffer _ => buffer
  | .view v => mem.GetBacking (v.GetBuffer mem)

/-- The offset that a vertex buffer bind stands for when the memory subsystem is `mem`. -/
def VertexBind.offset (mem : Memory) (vb : VertexBind) : Nat :=
  match vb.source with
  | .direct _ offset => offset
  | .view v => v.GetOffset mem

/-- A vertex batch is well formed for `N` vertex streams: its record function is one of the two
vertex buffer record functions, it holds at least one binding, its bindings end within the
streams and its arrays have `N` elements. -/
structure BatchOK (N : Nat) (r : RecordFunc) (c : SetVertexBuffersDynamicCmdImpl) : Prop where
  record : r = .SetVertexBuffersCmd ∨ r = .SetVertexBuffersDynamicCmd
  count : c.base.bindingCount ≠ 0
  le : c.base.firstBinding + c.base.bindingCount ≤ N
  buffers : c.base.buffers.length = N
  offsets : c.base.offsets.length = N

/-- The vertex batches that `a` holds are well formed: the pending batch has one of the two
vertex buffer record functions and every vertex batch of the list is well formed. -/
structure Batched (N : Nat) (a : Abs) : Prop where
  record : a.record = .SetVertexBuffersCmd ∨ a.record = .SetVertexBuffersDynamicCmd
  list : ∀ rc ∈ a.list, ∀ c, rc.2 = .SetVertexBuffersDynamic c → BatchOK N rc.1 c

/-- The binds that the slots of a holder hold, when every slot holds one. -/
def holderRun (rc : RecordFunc × Cmd) : List VertexBind := (holderBinds rc).filterMap id

/-- The world after the record function of a holder was called in the world `w`. -/
def holderRecord (N : Nat) (w : World) (rc : RecordFunc × Cmd) : Option World :=
  (rc.1.call N rc.2 w).map Prod.snd

/-- The binds of the views `vs` to the bindings from `f` on. -/
def viewRun (f : Nat) (vs : List BufferView) : List VertexBind :=
  List.zipWith (fun i v => ⟨i, .view v⟩) (List.range' f vs.length) vs

/-- A `DescriptorUpdateInfo` with one copy, one write and one dynamic binding, a view. -/
def DescriptorUpdateInfo.example : DescriptorUpdateInfo :=
  ⟨[⟨0, 1, 0, 0, 1, 0, 1⟩], [⟨0, 2, 0, 1, 6, 0, 0, 0⟩], [⟨0, 0, 0⟩], [.view ⟨7, 4⟩], 3, 0, 2⟩

/-- A world that holds this `DescriptorUpdateInfo` and two descriptor sets, with handles 10
and 11. -/
def World.descriptorExample : World := ⟨Memory.example, [DescriptorUpdateInfo.example], [10, 11], []⟩

/-! ## The class `Nvdec` (`soc/host1x/classes/nvdec.cpp`)
`NvdecCommon::NvdecRegisters` and `Codec` are declared outside these sources.  Of the registers
the functions use the array `reg_array` of `u64` and the indices of the registers `set_codec_id`
and `execute`, of the codec the methods `SetTargetCodec`, `GetCurrentCodec` and `Decode`; the
indices and the methods are parameters. -/

/-- The methods of `Codec` that `Nvdec` calls, on a codec state `C`.  The codec holds a
reference to the registers: `Decode` gets them to read.  `decodes` tells whether a codec is one
of `H264`, `VP8` and `VP9`, the case labels of `Execute`. -/
structure CodecMethods (C : Type) where
  SetTargetCodec : C → Nat → C
  GetCurrentCodec : C → Nat
  Decode : C → List Nat → C
  decodes : Nat → Bool

/-- A call that `ProcessMethod` makes. -/
inductive NvdecCall where
  | SetTargetCodec (codec : Nat)
  | Execute
  | Decode
  | Unimplemented
deriving DecidableEq, Repr

/-- The members `state` (its `reg_array`) and `codec` of the class `Nvdec`.  `trace` is not a
member: it is the history of the calls made, the earliest first, which no function reads. -/
structure Nvdec (C : Type) where
  reg_array : List Nat
  codec : C
  trace : List NvdecCall

/-- The method `Nvdec::Execute`: `Decode` for the three codecs, else `UNIMPLEMENTED_MSG`. -/
def Nvdec.Execute {C : Type} (m : CodecMethods C) (n : Nvdec C) : Nvdec C :=
  if m.decodes (m.GetCurrentCodec n.codec) then
    { n with codec := m.Decode n.codec n.reg_array, trace := n.trace ++ [.Execute, .Decode] }
  else { n with trace := n.trace ++ [.Execute, .Unimplemented] }

/-- The method `Nvdec::ProcessMethod`, with the register indices of `set_codec_id` and
`execute`; `method` and `argument` are `u32`, the registers `u64`.  The assignment is undefined
when `method` is out of the range of `reg_array`. -/
def Nvdec.ProcessMethod {C : Type} (m : CodecMethods C) (set_codec_id execute : Nat)
    (n : Nvdec C) (method argument : Nat) : Option (Nvdec C) :=
  if u32 method < n.reg_array.length then
    let n₁ : Nvdec C :=
      { n with reg_array := n.reg_array.set (u32 method) (u32 argument * 2 ^ 8 % 2 ^ 64) }
    if u32 method = set_codec_id then
      some { n₁ with
        codec := m.SetTargetCodec n₁.codec (u32 argument)
        trace := n₁.trace ++ [.SetTargetCodec (u32 argument)] }
    else if u32 method = execute then some (n₁.Execute m)
    else some n₁
  else none

/-- Codec methods on a codec state that is the current codec, for the example. -/
def CodecMethods.example : CodecMethods Nat := ⟨fun _ codec => codec, id, fun c _ => c, fun c => c == 3⟩

/-! ## The class `Pipeline` (pipeline_manager.h, lines 23-109)
The header declares the members and defines `ShaderStage::BindingsEqual`; the methods
`LookupNext`, `AddTransition` and `CheckBindingMatch` are declared only, and their
definitions are not part of these sources. -/

/-- The members of `Shader::Info` that `BindingsEqual` compares.  The struct and its
descriptor types are declared outside these sources: `D` stands for the descriptor types,
compared with their `operator==`, and `rest` for the other members. -/
structure ShaderInfo (D : Type) where
  constant_buffer_descriptors : List D
  storage_buffers_descriptors : List D
  texture_buffer_descriptors : List D
  image_buffer_descriptors : List D
  texture_descriptors : List D
  image_descriptors : List D
  rest : Nat
deriving DecidableEq, Repr

/-- The struct `Pipeline::ShaderStage`. -/
structure ShaderStage (D : Type) where
  stage : Nat
  module : Nat
  info : ShaderInfo D
deriving DecidableEq, Repr

/-- The method `ShaderStage::BindingsEqual`. -/
def ShaderStage.BindingsEqual {D : Type} [DecidableEq D] (self other : ShaderStage D) : Bool :=
  decide (self.info.constant_buffer_descriptors = other.info.constant_buffer_descriptors) &&
  decide (self.info.storage_buffers_descriptors = other.info.storage_buffers_descriptors) &&
  decide (self.info.texture_buffer_descriptors = other.info.texture_buffer_descriptors) &&
  decide (self.info.image_buffer_descriptors = other.info.image_buffer_descriptors) &&
  decide (self.info.texture_descriptors = other.info.texture_descriptors) &&
  decide (self.info.image_descriptors = other.info.image_descriptors)

/-- The members of the class `Pipeline` that the transition cache and the binding match cache
use: `shaderStages`, `transitionCache` (an array of four pointers), `transitionCacheNextIdx`,
`bindingMatchCache` (the map from pipelines to results, as its entries, the latest first) and
`sourcePackedState`. -/
structure Pipeline (D K : Type) where
  shaderStages : List (ShaderStage D)
  transitionCache : List (Option PipelinePtr)
  transitionCacheNextIdx : Nat
  bindingMatchCache : List (PipelinePtr × Bool)
  sourcePackedState : K

/-- Whether every shader stage of `p` has bindings equal to the same stage of `q`. -/
def Pipeline.stagesMatch {D K : Type} [DecidableEq D] (p q : Pipeline D K) : Bool :=
  (List.zipWith ShaderStage.BindingsEqual p.shaderStages q.shaderStages).all id

/-- Modelled from the spec: the method `Pipeline::CheckBindingMatch`, whose definition is not
part of these sources.  The result for `other` is looked up in `bindingMatchCache` of this
pipeline; if it is not there, the stages of the two pipelines are compared with
`BindingsEqual` and the result is stored in `bindingMatchCache` under `other`.  The pipelines
live on `heap`; the result is the value returned and the heap after the call. -/
def Pipeline.CheckBindingMatch {D K : Type} [DecidableEq D] (heap : List (Pipeline D K))
    (self other : PipelinePtr) : Option (Bool × List (Pipeline D K)) :=
  match heap[self]?, heap[other]? with
  | some p, some q =>
    match p.bindingMatchCache.lookup other with
    | some result => some (result, heap)
    | none =>
      some (p.stagesMatch q, heap.set self
        { p with bindingMatchCache := (other, p.stagesMatch q) :: p.bindingMatchCache })
  | _, _ => none

/-- A sequence of `CheckBindingMatch` calls, the returned values dropped. -/
def Pipeline.CheckBindingMatchAll {D K : Type} [DecidableEq D] :
    List (Pipeline D K) → List (PipelinePtr × PipelinePtr) → Option (List (Pipeline D K))
  | heap, [] => some heap
  | heap, c :: cs =>
    match Pipeline.CheckBindingMatch heap c.1 c.2 with
    | none => none
    | some r => Pipeline.CheckBindingMatchAll r.2 cs

/-- Every memoized result on the heap is the result of the comparison of the stages. -/
def MatchCacheOK {D K : Type} [DecidableEq D] (heap : List (Pipeline D K)) : Prop :=
  ∀ (a : Nat) (p : Pipeline D K), heap[a]? = some p → ∀ b r, (b, r) ∈ p.bindingMatchCache →
    ∃ q, heap[b]? = some q ∧ r = p.stagesMatch q

/-- The shader stages of the pipelines on `heap'` are those of the pipelines on `heap`. -/
def SameStages {D K : Type} (heap heap' : List (Pipeline D K)) : Prop :=
  ∀ x : Nat, (heap'[x]?).map (fun p => p.shaderStages) =
    (heap[x]?).map (fun p => p.shaderStages)

/-- The result `r` is memoized on `heap` for the call of `CheckBindingMatch` on the pipeline at
`a` with the pipeline at `b`. -/
def Memo {D K : Type} (heap : List (Pipeline D K)) (a b : PipelinePtr) (r : Bool) : Prop :=
  ∃ p, heap[a]? = some p ∧ p.bindingMatchCache.lookup b = some r

/-- A pipeline with one stage whose constant buffer descriptors are `ds`, with empty caches. -/
def Pipeline.example (ds : List Nat) : Pipeline Nat Nat :=
  ⟨[⟨0, 0, ⟨ds, [], [], [], [], [], 0⟩⟩], [none, none, none, none], 0, [], ds.length⟩

/-- The scan of `LookupNext` over the entries of the transition cache: the first entry that is
not null and whose pipeline has the source state `packedState`; null when there is none.  An
entry that points outside the heap makes the scan undefined. -/
def scanTransitionCache {D K : Type} [DecidableEq K] (heap : List (Pipeline D K))
    (packedState : K) : List (Option PipelinePtr) → Option (Option PipelinePtr)
  | [] => some none
  | none :: rest => scanTransitionCache heap packedState rest
  | some q :: rest =>
    match heap[q]? with
    | none => none
    | some t =>
      if t.sourcePackedState = packedState then some (some q)
      else scanTransitionCache heap packedState rest

/-- Modelled from the spec: the method `Pipeline::LookupNext`, whose definition is not part of
these sources.  It scans the transition cache of this pipeline for a pipeline with the source
state `packedState` and returns it, or null on a miss (the fall back to the manager is the
caller's: a pipeline has no reference to its manager); it changes nothing.  The result is the
pointer returned and the heap after the call. -/
def Pipeline.LookupNext {D K : Type} [DecidableEq K] (heap : List (Pipeline D K))
    (self : PipelinePtr) (packedState : K) :
    Option (Option PipelinePtr × List (Pipeline D K)) :=
  match heap[self]? with
  | none => none
  | some p => (scanTransitionCache heap packedState p.transitionCache).map (fun r => (r, heap))

/-- Modelled from the spec: the method `Pipeline::AddTransition`, whose definition is not part
of these sources.  It stores `next` in the entry `transitionCacheNextIdx` of the ring and moves
`transitionCacheNextIdx` to the entry after it, the first one after the last: the entry
written is the one written the longest ago. -/
def Pipeline.AddTransition {D K : Type} (heap : List (Pipeline D K)) (self next : PipelinePtr) :
    Option (List (Pipeline D K)) :=
  match heap[self]? with
  | none => none
  | some p =>
    if p.transitionCacheNextIdx < p.transitionCache.length then
      some (heap.set self { p with
        transitionCache := p.transitionCache.set p.transitionCacheNextIdx (some next)
        transitionCacheNextIdx := (p.transitionCacheNextIdx + 1) % p.transitionCache.length })
    else none

/-- A sequence of `AddTransition` calls on the pipeline at `self`. -/
def Pipeline.AddTransitions {D K : Type} (self : PipelinePtr) :
    List (Pipeline D K) → List PipelinePtr → Option (List (Pipeline D K))
  | heap, [] => some heap
  | heap, t :: ts =>
    match Pipeline.AddTransition heap self t with
    | none => none
    | some heap' => Pipeline.AddTransitions self heap' ts

/-- The ring after one more transition: the entries and the next index. -/
def ringAdd (ring : List (Option PipelinePtr) × Nat) (next : PipelinePtr) :
    List (Option PipelinePtr) × Nat :=
  (ring.1.set ring.2 (some next), (ring.2 + 1) % ring.1.length)

/-- The source states of the pipelines on `heap'` are those of the pipelines on `heap`. -/
def SameKeys {D K : Type} (heap heap' : List (Pipeline D K)) : Prop :=
  ∀ x : Nat, (heap'[x]?).map (fun p => p.sourcePackedState) =
    (heap[x]?).map (fun p => p.sourcePackedState)

/-- A pipeline without stages, with an empty ring and the source state `k`. -/
def Pipeline.withKey (k : Nat) : Pipeline Nat Nat := ⟨[], [none, none, none, none], 0, [], k⟩

/-- Six pipelines with the source states 0 to 5, at the addresses 0 to 5. -/
def Pipeline.exampleHeap : List (Pipeline Nat Nat) :=
  [Pipeline.withKey 0, Pipeline.withKey 1, Pipeline.withKey 2, Pipeline.withKey 3,
    Pipeline.withKey 4, Pipeline.withKey 5]

/-- What `bufferDescs[j]` is after the first loop of `SetDescriptorSetCmdImpl::Record`, in the
memory subsystem `mem`: resolved from the view or the binding if entry `j` of the dynamic
bindings holds one, else as before. -/
def resolvedDesc (mem : Memory) (bindings : List DynamicBufferBinding)
    (descs : List DescriptorBufferInfo) (j : Nat) : Option DescriptorBufferInfo :=
  match bindings[j]? with
  | some (.view v) => some ⟨mem.GetBacking (v.GetBuffer mem), v.GetOffset mem, v.size⟩
  | some (.binding b) => some ⟨b.buffer, b.offset, b.size⟩
  | _ => descs[j]?

/-- The array `bufferDescs` that a descriptor call shows. -/
def VkCall.bufferDescs? : VkCall → Option (List DescriptorBufferInfo)
  | .pushDescriptorSetKHR _ _ _ _ descs => some descs
  | .updateDescriptorSets _ _ descs => some descs
  | _ => none

/-- The list of the builder is well formed: `head` is null exactly when `tail` is, following
`next` from `head` meets no holder twice and meets `tail` last, and `next` of `tail` is
null. -/
structure StateUpdateBuilder.WellFormed (b : StateUpdateBuilder) : Prop where
  null : b.head = none ↔ b.tail = none
  nodup : (walk b.allocator b.allocator.length b.head).Nodup
  last : b.tail = (walk b.allocator b.allocator.length b.head).getLast?
  next : ∀ t, b.tail = some t → ∃ node, b.allocator[t]? = some node ∧ node.header.next = none
  appended : walk b.allocator b.allocator.length b.head = b.appended

/-! ## The engine `KeplerCompute` (`soc/gm20b/engines/kepler_compute.cpp`)
The registers and the inline to memory engine `i2m` are declared outside these sources.  Of
the registers the functions use the array `raw` of `u32` and the offsets of four registers, of
`i2m` three methods; the offsets and the methods are parameters.  Logging is left out. -/

/-- The offsets of the registers that are case labels: `ENGINE_STRUCT_OFFSET(i2m, launchDma)`,
`ENGINE_STRUCT_OFFSET(i2m, loadInlineData)`, `ENGINE_OFFSET(sendSignalingPcasB)` and
`ENGINE_STRUCT_OFFSET(reportSemaphore, action)`. -/
structure KeplerOffsets where
  launchDma : Nat
  loadInlineData : Nat
  sendSignalingPcasB : Nat
  reportSemaphoreAction : Nat
deriving DecidableEq, Repr

/-- The methods of `i2m` that the engine calls, on a state `I` of `i2m`: `LaunchDma`,
`LoadInlineData` with one argument and `LoadInlineData` with a span of arguments.  Each gets
`*registers.i2m`, here the registers, to read. -/
structure I2MMethods (I : Type) where
  LaunchDma : I → List Nat → I
  LoadInlineData : I → List Nat → Nat → I
  LoadInlineDataSpan : I → List Nat → List Nat → I

/-- The members `registers` (its array `raw`) and `i2m` of the class `KeplerCompute`. -/
structure KeplerCompute (I : Type) where
  raw : List Nat
  i2m : I

/-- How a call ends: it returns, or an exception leaves it; with the state it ends in. -/
inductive Outcome (σ : Type) where
  | done (s : σ)
  | thrown (s : σ)

/-- The state that a call ends in. -/
def Outcome.state {σ : Type} : Outcome σ → σ
  | .done s => s
  | .thrown s => s

/-- The method `KeplerCompute::HandleMethod`; `method` and `argument` are `u32` values.  The
assignment is undefined when `method` is out of the range of `raw`. -/
def KeplerCompute.HandleMethod {I : Type} (m : I2MMethods I) (o : KeplerOffsets)
    (s : KeplerCompute I) (method argument : Nat) : Option (Outcome (KeplerCompute I)) :=
  if method < s.raw.length then
    let s₁ : KeplerCompute I := { s with raw := s.raw.set method argument }
    if method = o.launchDma then some (.done { s₁ with i2m := m.LaunchDma s₁.i2m s₁.raw })
    else if method = o.loadInlineData then
      some (.done { s₁ with i2m := m.LoadInlineData s₁.i2m s₁.raw argument })
    else if method = o.sendSignalingPcasB then some (.done s₁)
    else if method = o.reportSemaphoreAction then some (.thrown s₁)
    else some (.done s₁)
  else none

/-- The loop `for (u32 argument : arguments) HandleMethod(method, argument);` of
`CallMethodBatchNonInc`; an exception leaves the loop. -/
def KeplerCompute.handleEach {I : Type} (m : I2MMethods I) (o : KeplerOffsets) (method : Nat) :
    List Nat → KeplerCompute I → Option (Outcome (KeplerCompute I))
  | [], s => some (.done s)
  | argument :: rest, s =>
    match s.HandleMethod m o method argument with
    | some (.done s') => KeplerCompute.handleEach m o method rest s'
    | r => r

/-- The method `KeplerCompute::CallMethodBatchNonInc`. -/
def KeplerCompute.CallMethodBatchNonInc {I : Type} (m : I2MMethods I) (o : KeplerOffsets)
    (s : KeplerCompute I) (method : Nat) (arguments : List Nat) :
    Option (Outcome (KeplerCompute I)) :=
  if method = o.loadInlineData then
    some (.done { s with i2m := m.LoadInlineDataSpan s.i2m s.raw arguments })
  else KeplerCompute.handleEach m o method arguments s

/-- One more call of `HandleMethod(method, a)` after calls that ended as `acc` tells: it is
made if they all returned. -/
def KeplerCompute.handleNext {I : Type} (m : I2MMethods I) (o : KeplerOffsets) (method : Nat)
    (acc : Option (Outcome (KeplerCompute I))) (a : Nat) : Option (Outcome (KeplerCompute I)) :=
  match acc with
  | some (.done s') => s'.HandleMethod m o method a
  | r => r

/-- What the design asks of a batch: a call of `HandleMethod(method, a)` for each `a` of
`arguments`, in order, each in the state that the call before returned in; when a call does not
return, none follows. -/
def KeplerCompute.HandleMethodInOrder {I : Type} (m : I2MMethods I) (o : KeplerOffsets)
    (s : KeplerCompute I) (method : Nat) (arguments : List Nat) :
    Option (Outcome (KeplerCompute I)) :=
  arguments.foldl (KeplerCompute.handleNext m o method) (some (.done s))

/-- Methods of an `i2m` whose state is the number of words loaded, and offsets, for the
example. -/
def I2MMethods.example : I2MMethods Nat :=
  ⟨fun n _ => n, fun n _ _ => n + 1, fun n _ args => n + args.length⟩

/-- Offsets for the example. -/
def KeplerOffsets.example : KeplerOffsets := ⟨1, 2, 3, 4⟩

/-! ## Helper shaders (`gpu/shaders/helper_shaders.cpp`)
`TextureView`, its texture and the pipeline cache are declared outside these sources.  A
texture view is taken with the dimensions of its texture, and `GetPipeline` with the pipeline
state that it hands to the pipeline cache. -/

/-- The struct `vk::Extent2D`, the dimensions of a texture as `GetPipeline` uses them. -/
structure Extent2D where
  width : Nat
  height : Nat
deriving DecidableEq, Repr

/-- The constant `vk::ImageAspectFlagBits::eColor` of the Vulkan headers. -/
def eColor : Nat := 1

/-- The constant `vk::ImageAspectFlagBits::eDepth` of the Vulkan headers. -/
def eDepth : Nat := 2

/-- The constant `vk::ImageAspectFlagBits::eStencil` of the Vulkan headers. -/
def eStencil : Nat := 4

/-- The conversion of `mask & bit` to `bool`. -/
def hasAspect (mask bit : Nat) : Bool := mask &&& bit != 0

/-- The members of the pipeline state that `GetPipeline` computes from its arguments: the
depth and stencil state, the colour write mask, the viewport and the scissor, and the
attachments. -/
structure SingleRtPipelineState where
  depthTestEnable : Bool
  depthWriteEnable : Bool
  stencilTestEnable : Bool
  stencilReference : Option Nat
  colorWriteMask : Nat
  viewport : Extent2D
  scissor : Extent2D
  colorAttachment : Option Nat
  depthStencilAttachment : Option Nat
deriving DecidableEq, Repr

/-- The initialiser of `attachmentDimensions` in `GetPipeline`:
`colorAttachment ? colorAttachment->texture->dimensions
: depthStencilAttachment->texture->dimensions`, on the texture views `views`; undefined when
the pointer that is dereferenced is null or points to no view. -/
def attachmentDimensions (views : List Extent2D) (colorAttachment depthStencilAttachment :
    Option Nat) : Option Extent2D :=
  match colorAttachment with
  | some p => views[p]?
  | none => deref views depthStencilAttachment

/-- The method `SimpleSingleRtShader::GetPipeline`: the pipeline state handed to
`GetCompiledPipeline`. -/
def GetPipeline (views : List Extent2D) (colorAttachment depthStencilAttachment : Option Nat)
    (depthWrite stencilWrite : Bool) (stencilValue : Nat) (colorWriteMask : Nat) :
    Option SingleRtPipelineState :=
  match attachmentDimensions views colorAttachment depthStencilAttachment with
  | none => none
  | some dimensions =>
    some ⟨depthWrite, depthWrite, stencilWrite,
      if stencilWrite then some stencilValue else none, colorWriteMask, dimensions, dimensions,
      colorAttachment, depthStencilAttachment⟩

/-- The method `ClearHelperShader::Clear` up to the record callback: the pipeline state that
the `GetPipeline` call of `Clear` hands on and the member `clearDepth` of the push
constants. -/
def ClearHelperShader.Clear (views : List Extent2D) (mask components stencil : Nat)
    (dstImageView : Option Nat) : Option (Bool × SingleRtPipelineState) :=
  let writeColor := hasAspect mask eColor
  let writeDepth := hasAspect mask eDepth
  let writeStencil := hasAspect mask eStencil
  (GetPipeline views (if writeColor then dstImageView else none)
    (if writeDepth || writeStencil then dstImageView else none) writeDepth writeStencil
    stencil components).map (fun pipeline => (hasAspect mask eDepth, pipeline))

/-! ## `Maxwell3D` (maxwell_3d.h)
The header declares `GetClearScissor`, `Clear`, `UpdateQuadConversionBuffer` and `Draw`; their
definitions are not part of these sources. -/

/-- Whether the point `(px, py)` lies in the rectangle. -/
def Rect2D.contains (r : Rect2D) (px py : Int) : Bool :=
  decide (r.x ≤ px) && decide (px < r.x + r.width) && decide (r.y ≤ py) &&
    decide (py < r.y + r.height)

/-- The rectangle intersection: from the larger of the two origins to the smaller of the two
ends, in each direction, with the extent zero when the end is not beyond the origin. -/
def rectIntersection (a b : Rect2D) : Rect2D :=
  ⟨max a.x b.x, max a.y b.y,
    (min (a.x + a.width) (b.x + b.width) - max a.x b.x).toNat,
    (min (a.y + a.height) (b.y + b.height) - max a.y b.y).toNat⟩

/-- Modelled from the spec: the method `Maxwell3D::GetClearScissor`, whose definition is not
part of these sources, as the scissor that `Clear` uses: the rectangle intersection of the
configured clear rectangle and the active surface clip. -/
def Maxwell3D.GetClearScissor (clearRect surfaceClip : Rect2D) : Rect2D :=
  rectIntersection clearRect surfaceClip

/-- The indices that expand the quads of `count` vertices into triangles: six for every four
vertices, the vertices of quad `q` being `4 * q`, ..., `4 * q + 3`; `corner` tells which
vertex of a quad each of the six indices of its two triangles names. -/
def quadIndices (corner : Fin 6 → Fin 4) (count : Nat) : List Nat :=
  (List.range (count / 4)).flatMap
    (fun q => (List.finRange 6).map (fun k => 4 * q + (corner k).val))

/-- The members `quadConversionBuffer` of `Maxwell3D`, with the vertex count that it was
synthesized for, and a count of the times a buffer was synthesized, which nothing reads. -/
structure QuadConversion where
  buffer : Option (Nat × List Nat)
  generated : Nat
deriving DecidableEq, Repr

/-- Modelled from the spec: the method `Maxwell3D::UpdateQuadConversionBuffer`, whose
definition is not part of these sources.  A draw of `count` vertices under quad topology uses
`6 * (count / 4)` indices of the conversion buffer; the buffer cached is reused if it was
synthesized for the same or a larger vertex count, else one is synthesized for `count`.  The
result is the index count and the state after the call. -/
def Maxwell3D.UpdateQuadConversionBuffer (corner : Fin 6 → Fin 4) (s : QuadConversion)
    (count : Nat) : Nat × QuadConversion :=
  match s.buffer with
  | some (cached, _) =>
    if count ≤ cached then (6 * (count / 4), s)
    else (6 * (count / 4), ⟨some (count, quadIndices corner count), s.generated + 1⟩)
  | none => (6 * (count / 4), ⟨some (count, quadIndices corner count), s.generated + 1⟩)

/-- The corners of the two triangles of a quad, for the example. -/
def quadCorner : Fin 6 → Fin 4 := fun k => [0, 1, 2, 0, 2, 3].getD k.val 0

/-! ## Descriptor synchronisation (pipeline_manager.h, lines 43-108)
The header defines the usage lists of `DescriptorInfo` and declares `SyncDescriptors` and
`SyncDescriptorsQuickBind`; their definitions are not part of these sources. -/

/-- The struct `ConstantBufferDescriptorUsages::Usage`. -/
structure Usage where
  binding : Nat
  shaderDescIdx : Nat
  storageBufferIdx : Nat
deriving DecidableEq, Repr

/-- The struct `StageDescriptorInfo::ConstantBufferDescriptorUsages`: the bindings that depend
on one constant buffer index of one stage. -/
structure ConstantBufferDescriptorUsages where
  uniformBuffers : List Usage
  storageBuffers : List Usage
  totalBufferDescCount : Nat
  writeDescCount : Nat
deriving DecidableEq, Repr

/-- A usage with the stage and the constant buffer index whose list it stands in and with
whether it is one of `storageBuffers`. -/
structure CbufUsage where
  stage : Nat
  index : Nat
  storage : Bool
  usage : Usage
deriving DecidableEq, Repr

/-- The usages in the lists of the constant buffer `index` of the stage `stage`, the
`uniformBuffers` first; none when there is no such stage or index.  `stages` holds `cbufUsages`
of every stage. -/
def usagesAt (stages : List (List ConstantBufferDescriptorUsages)) (stage index : Nat) :
    List CbufUsage :=
  match stages[stage]? with
  | none => []
  | some cbufUsages =>
    match cbufUsages[index]? with
    | none => []
    | some u =>
      u.uniformBuffers.map (fun x => ⟨stage, index, false, x⟩) ++
        u.storageBuffers.map (fun x => ⟨stage, index, true, x⟩)

/-- The usages of all constant buffer indices of all stages, in the order of the arrays. -/
def allUsages (stages : List (List ConstantBufferDescriptorUsages)) : List CbufUsage :=
  (List.range stages.length).flatMap (fun stage =>
    (List.range ((stages[stage]?).getD []).length).flatMap (fun index =>
      usagesAt stages stage index))

/-- The descriptor write for a usage: the binding and the resource that the constant buffer
bound at the stage and index of the usage resolves to.  `C` stands for what is bound at a
constant buffer index, `R` for a resource, `resolve` for the resolution of a view. -/
def writeOf {C R : Type} (resolve : C → Bool → Usage → R) (constantBuffers : Nat → Nat → C)
    (u : CbufUsage) : Nat × R :=
  (u.usage.binding, resolve (constantBuffers u.stage u.index) u.storage u.usage)

/-- The bound resource of every descriptor slot after the writes `writes` to the descriptor
set `set`, the earliest first. -/
def applyWrites {R : Type} (set : Nat → Option R) (writes : List (Nat × R)) : Nat → Option R :=
  writes.foldl (fun s w => fun slot => if slot = w.1 then some w.2 else s slot) set

/-- Modelled from the spec: the method `Pipeline::SyncDescriptors`, whose definition is not
part of these sources, as the final bound resource of every slot.  The full rebuild writes,
into an empty set, the resource of every usage of every constant buffer index of every stage
and then the resources `others` that do not depend on constant buffers (textures and
images). -/
def Pipeline.SyncDescriptors {C R : Type} (resolve : C → Bool → Usage → R)
    (stages : List (List ConstantBufferDescriptorUsages)) (others : List (Nat × R))
    (constantBuffers : Nat → Nat → C) : Nat → Option R :=
  applyWrites (fun _ => none) ((allUsages stages).map (writeOf resolve constantBuffers) ++ others)

/-- Modelled from the spec: the method `Pipeline::SyncDescriptorsQuickBind`, whose definition
is not part of these sources, as the final bound resource of every slot.  The incremental
variant copies the descriptor set of the draw before, `previous`, and walks only the usage
lists of the constant buffer indices `quickBind`, given with their stages, writing the
resources of these usages. -/
def Pipeline.SyncDescriptorsQuickBind {C R : Type} (resolve : C → Bool → Usage → R)
    (stages : List (List ConstantBufferDescriptorUsages)) (previous : Nat → Option R)
    (constantBuffers : Nat → Nat → C) (quickBind : List (Nat × Nat)) : Nat → Option R :=
  applyWrites previous
    ((quickBind.flatMap (fun q => usagesAt stages q.1 q.2)).map
      (writeOf resolve constantBuffers))

/-- Usage lists of one stage with two constant buffer indices, for the example. -/
def Pipeline.stagesExample : List (List ConstantBufferDescriptorUsages) :=
  [[⟨[⟨0, 0, 0⟩], [⟨1, 0, 0⟩], 2, 2⟩, ⟨[⟨2, 1, 0⟩], [], 1, 1⟩]]

/-- A resolution of views to numbers, for the example. -/
def Pipeline.resolveExample (c : Nat) (storage : Bool) (u : Usage) : Nat :=
  100 * c + 10 * u.shaderDescIdx + (if storage then 1 else 0)

/-- Constant buffers of the draw before, for the example. -/
def Pipeline.beforeExample (_ index : Nat) : Nat := index + 1

/-- Constant buffers that differ from those before at the index 1 of the stage 0. -/
def Pipeline.constantBuffersExample (stage index : Nat) : Nat :=
  if (stage, index) ∈ [(0, 1)] then 9 else index + 1

/-- The record function of the batch that a vertex buffer bind goes to: that of direct binds
for a location, that of view binds for a view. -/
def VertexBind.record (vb : VertexBind) : RecordFunc :=
  match vb.source with
  | .direct _ _ => .SetVertexBuffersCmd
  | .view _ => .SetVertexBuffersDynamicCmd

/-- What `RecordAll` replays at one place of the list: the holder of a call other than
`SetVertexBuffer`, or a vertex batch, given by its record function and the binds in its
slots. -/
inductive ReplayItem where
  | holder (rc : RecordFunc × Cmd)
  | batch (record : RecordFunc) (binds : List VertexBind)
deriving DecidableEq

/-- What a holder of the list is for the replay. -/
def holderItem (rc : RecordFunc × Cmd) : ReplayItem :=
  match rc.2 with
  | .SetVertexBuffersDynamic _ => .batch rc.1 (holderRun rc)
  | _ => .holder rc

/-- The batch that closing the open run `run` of vertex buffer binds adds; none when no bind
is open. -/
def closeRun (run : List VertexBind) : List ReplayItem :=
  match run.getLast? with
  | none => []
  | some last => [.batch last.record run]

/-- Whether the vertex buffer bind `vb` goes on with the open run `run`: it is of the variant
of the run and binds the index after the last one of the run. -/
def continuesRun (run : List VertexBind) (vb : VertexBind) : Bool :=
  match run.getLast? with
  | none => false
  | some last => decide (vb.index = last.index + 1) && decide (vb.record = last.record)

/-- The order of replay of the calls `cs` followed by `Build`, when the vertex buffer binds
`run` are open: a call other than `SetVertexBuffer` is replayed where it is made; a vertex
buffer bind joins the open run if it goes on with it, else it closes the open run, which is
replayed there as one batch, and opens a run of its own; `Build` closes the open run. -/
def replayPlan : List VertexBind → List BuilderCall → List ReplayItem
  | run, [] => closeRun run
  | run, c :: cs =>
    match c.vertexBind with
    | some vb =>
      if continuesRun run vb then replayPlan (run ++ [vb]) cs
      else closeRun run ++ replayPlan [vb] cs
    | none =>
      match c.node with
      | some rc => .holder rc :: replayPlan run cs
      | none => replayPlan run cs

/-! ## Properties of `PipelineManager` -/

namespace PipelineManager

variable {K P A : Type} [DecidableEq K]

theorem find_eq_some_mem {m : PipelineManager K P} {k : K} {p : PipelinePtr}
    (h : m.find k = some p) : (k, p) ∈ m.map := by
  unfold find at h
  obtain ⟨l₁, l₂, hl, -⟩ := List.lookup_eq_some_iff.mp h
  rw [hl]
  simp

theorem find_eq_none_iff {m : PipelineManager K P} {k : K} :
    m.find k = none ↔ k ∉ m.map.map Prod.fst := by
  unfold find
  rw [List.lookup_eq_none_iff]
  constructor
  · intro h hk
    obtain ⟨e, he, rfl⟩ := List.mem_map.mp hk
    simpa using h e he
  · intro h e he
    have : e.1 ∈ m.map.map Prod.fst := List.mem_map.mpr ⟨e, he, rfl⟩
    simp only [bne_iff_ne, ne_eq]
    rintro rfl
    exact h this

/-- On a hit `FindOrCreate` returns the mapped pointer and changes nothing. -/
theorem FindOrCreate_hit (ctor : K → A → P) (m : PipelineManager K P) (k : K) (a : A)
    (p : PipelinePtr) (h : m.find k = some p) : FindOrCreate ctor m k a = (p, m) := by
  simp [FindOrCreate, h]

/-- On a miss `FindOrCreate` constructs one pipeline at the next address and maps the key
to it. -/
theorem FindOrCreate_miss (ctor : K → A → P) (m : PipelineManager K P) (k : K) (a : A)
    (h : m.find k = none) :
    FindOrCreate ctor m k a =
      (m.heap.length, ⟨m.map ++ [(k, m.heap.length)], m.heap ++ [ctor k a]⟩) := by
  have h2 : (m.make_unique (ctor k a)).2.find k = none := by
    simpa [make_unique, find] using h
  simp only [FindOrCreate, h, emplace, h2]
  simp [make_unique]

/-- After `FindOrCreate` the key is mapped to the returned pointer. -/
theorem find_FindOrCreate_self (ctor : K → A → P) (m : PipelineManager K P) (k : K) (a : A) :
    (FindOrCreate ctor m k a).2.find k = some (FindOrCreate ctor m k a).1 := by
  cases h : m.find k with
  | some p => rw [FindOrCreate_hit ctor m k a p h]; exact h
  | none =>
    rw [FindOrCreate_miss ctor m k a h]
    unfold find at h ⊢
    simp [List.lookup_append, h, List.lookup_cons]

/-- A mapping present before `FindOrCreate` is present after it. -/
theorem find_FindOrCreate_of_find (ctor : K → A → P) (m : PipelineManager K P) (k : K) (a : A)
    {k' : K} {p : PipelinePtr} (h' : m.find k' = some p) :
    (FindOrCreate ctor m k a).2.find k' = some p := by
  cases h : m.find k with
  | some q => rw [FindOrCreate_hit ctor m k a q h]; exact h'
  | none =>
    rw [FindOrCreate_miss ctor m k a h]
    unfold find at h' ⊢
    simp [List.lookup_append, h']

theorem find_FindOrCreateAll_of_find (ctor : K → A → P) (calls : List (K × A)) :
    ∀ (m : PipelineManager K P) {k' : K} {p : PipelinePtr}, m.find k' = some p →
      (FindOrCreateAll ctor m calls).find k' = some p := by
  induction calls with
  | nil => intro m k' p h; exact h
  | cons c cs ih =>
    intro m k' p h
    exact ih _ (find_FindOrCreate_of_find ctor m c.1 c.2 h)

/-- The class invariant of a manager: mapped pointers are addresses of constructed pipelines,
no two keys share a pointer, no key occurs twice and every pipeline is owned by one entry. -/
structure WF (m : PipelineManager K P) : Prop where
  bound : ∀ e ∈ m.map, e.2 < m.heap.length
  inj : ∀ e ∈ m.map, ∀ e' ∈ m.map, e.2 = e'.2 → e.1 = e'.1
  nodup : (m.map.map Prod.fst).Nodup
  size : m.map.length = m.heap.length

omit [DecidableEq K] in
theorem WF_empty : WF (empty : PipelineManager K P) :=
  ⟨by simp [empty], by simp [empty], by simp [empty], by simp [empty]⟩

theorem WF_FindOrCreate (ctor : K → A → P) (m : PipelineManager K P) (k : K) (a : A)
    (hm : WF m) : WF (FindOrCreate ctor m k a).2 := by
  cases h : m.find k with
  | some q => rw [FindOrCreate_hit ctor m k a q h]; exact hm
  | none =>
    rw [FindOrCreate_miss ctor m k a h]
    have hk := find_eq_none_iff.mp h
    refine ⟨?_, ?_, ?_, ?_⟩
    · intro e he
      simp only [List.mem_append, List.mem_singleton] at he
      rcases he with he | rfl
      · have := hm.bound e he
        simp only [List.length_append, List.length_singleton]
        exact Nat.lt_succ_of_lt this
      · simp
    · intro e he e' he' hee
      simp only [List.mem_append, List.mem_singleton] at he he'
      rcases he with he | rfl <;> rcases he' with he' | rfl
      · exact hm.inj e he e' he' hee
      · have := hm.bound e he
        simp only at hee
        exact absurd hee (Nat.ne_of_lt this)
      · have := hm.bound e' he'
        simp only at hee
        exact absurd hee.symm (Nat.ne_of_lt this)
      · rfl
    · simp only [List.map_append, List.map_cons, List.map_nil]
      exact List.Nodup.append hm.nodup (List.nodup_singleton k) (by simpa using hk)
    · simp [hm.size]

theorem WF_FindOrCreateAll (ctor : K → A → P) (calls : List (K × A)) :
    ∀ (m : PipelineManager K P), WF m → WF (FindOrCreateAll ctor m calls) := by
  induction calls with
  | nil => intro m h; exact h
  | cons c cs ih => intro m h; exact ih _ (WF_FindOrCreate ctor m c.1 c.2 h)

theorem keys_FindOrCreate (ctor : K → A → P) (m : PipelineManager K P) (k : K) (a : A)
    (x : K) : x ∈ (FindOrCreate ctor m k a).2.map.map Prod.fst ↔
      x ∈ m.map.map Prod.fst ∨ x = k := by
  cases h : m.find k with
  | some q =>
    rw [FindOrCreate_hit ctor m k a q h]
    have hq : k ∈ m.map.map Prod.fst := List.mem_map.mpr ⟨(k, q), find_eq_some_mem h, rfl⟩
    constructor
    · exact Or.inl
    · rintro (h1 | rfl)
      · exact h1
      · exact hq
  | none =>
    rw [FindOrCreate_miss ctor m k a h]
    simp

theorem keys_FindOrCreateAll (ctor : K → A → P) (calls : List (K × A)) :
    ∀ (m : PipelineManager K P) (x : K),
      x ∈ (FindOrCreateAll ctor m calls).map.map Prod.fst ↔
        x ∈ m.map.map Prod.fst ∨ x ∈ calls.map Prod.fst := by
  induction calls with
  | nil => intro m x; simp [FindOrCreateAll]
  | cons c cs ih =>
    intro m x
    simp only [FindOrCreateAll]
    rw [ih, keys_FindOrCreate]
    simp only [List.map_cons, List.mem_cons]
    tauto

/-- C2: on a manager reached from the empty one by any `FindOrCreate` calls, two
`FindOrCreate` calls with keys that are not structurally equal return distinct pipeline
instances, whatever calls are made in between. -/
theorem FindOrCreate_distinct_keys_distinct_instances (ctor : K → A → P)
    (before between : List (K × A)) (k₁ k₂ : K) (a₁ a₂ : A) (hk : k₁ ≠ k₂) :
    (FindOrCreate ctor (FindOrCreateAll ctor
        (FindOrCreate ctor (FindOrCreateAll ctor empty before) k₁ a₁).2
          between) k₂ a₂).1 ≠
      (FindOrCreate ctor (FindOrCreateAll ctor empty before) k₁ a₁).1 := by
  have hwf0 : WF (FindOrCreateAll ctor (empty : PipelineManager K P) before) :=
    WF_FindOrCreateAll ctor before _ WF_empty
  generalize FindOrCreateAll ctor (empty : PipelineManager K P) before = m at hwf0
  have h1 := find_FindOrCreate_self ctor m k₁ a₁
  have hwf1 := WF_FindOrCreate ctor m k₁ a₁ hwf0
  have h2 := find_FindOrCreateAll_of_find ctor between _ h1
  have hwf2 := WF_FindOrCreateAll ctor between _ hwf1
  generalize FindOrCreateAll ctor (FindOrCreate ctor m k₁ a₁).2 between = m₂ at h2 hwf2
  generalize (FindOrCreate ctor m k₁ a₁).1 = p₁ at h2
  have hmem := find_eq_some_mem h2
  cases h : m₂.find k₂ with
  | some q =>
    rw [FindOrCreate_hit ctor m₂ k₂ a₂ q h]
    intro hq
    exact hk (hwf2.inj _ hmem _ (find_eq_some_mem h) hq.symm)
  | none =>
    rw [FindOrCreate_miss ctor m₂ k₂ a₂ h]
    intro hq
    exact absurd hq.symm (Nat.ne_of_lt (hwf2.bound _ hmem))

/-- C3: `FindOrCreate` never evicts.  Every key mapped before the call is mapped to the same
pointer after it, the key of the call is mapped (to the returned pointer) afterwards, and both
the map and the store of constructed pipelines only grow at their end, so that the pipeline
at every address that was in use is the same object. -/
theorem FindOrCreate_never_evicts (ctor : K → A → P) (m : PipelineManager K P) (k : K) (a : A) :
    (∀ k' p, m.find k' = some p → (FindOrCreate ctor m k a).2.find k' = some p) ∧
      (FindOrCreate ctor m k a).2.find k = some (FindOrCreate ctor m k a).1 ∧
      m.map <+: (FindOrCreate ctor m k a).2.map ∧
      m.heap <+: (FindOrCreate ctor m k a).2.heap ∧
      (∀ p, p < m.heap.length → (FindOrCreate ctor m k a).2.heap[p]? = m.heap[p]?) := by
  refine ⟨fun k' p h => find_FindOrCreate_of_find ctor m k a h,
    find_FindOrCreate_self ctor m k a, ?_, ?_, ?_⟩
  · cases h : m.find k with
    | some q => rw [FindOrCreate_hit ctor m k a q h]
    | none => rw [FindOrCreate_miss ctor m k a h]; exact List.prefix_append _ _
  · cases h : m.find k with
    | some q => rw [FindOrCreate_hit ctor m k a q h]
    | none => rw [FindOrCreate_miss ctor m k a h]; exact List.prefix_append _ _
  · intro p hp
    cases h : m.find k with
    | some q => rw [FindOrCreate_hit ctor m k a q h]
    | none =>
      rw [FindOrCreate_miss ctor m k a h]
      exact List.getElem?_append_left hp

/-- C4: after any sequence of `FindOrCreate` calls on an empty manager the number of
pipelines constructed and the size of the map both equal the number of distinct keys of the
sequence; a hit returns the mapped pointer, constructs nothing and leaves the manager
unchanged, a miss constructs exactly one pipeline and adds exactly one entry. -/
theorem FindOrCreate_constructs_one_per_distinct_key (ctor : K → A → P)
    (calls : List (K × A)) :
    (FindOrCreateAll ctor (empty : PipelineManager K P) calls).heap.length =
        (calls.map Prod.fst).dedup.length ∧
      (FindOrCreateAll ctor (empty : PipelineManager K P) calls).map.length =
        (calls.map Prod.fst).dedup.length ∧
      (∀ (m : PipelineManager K P) k a p, m.find k = some p →
        FindOrCreate ctor m k a = (p, m)) ∧
      (∀ (m : PipelineManager K P) k a, m.find k = none →
        (FindOrCreate ctor m k a).2.heap = m.heap ++ [ctor k a] ∧
        (FindOrCreate ctor m k a).2.map = m.map ++ [(k, (FindOrCreate ctor m k a).1)]) := by
  have hwf : WF (FindOrCreateAll ctor (empty : PipelineManager K P) calls) :=
    WF_FindOrCreateAll ctor calls _ WF_empty
  have hkeys := keys_FindOrCreateAll ctor calls (empty : PipelineManager K P)
  have hlen : (FindOrCreateAll ctor (empty : PipelineManager K P) calls).map.length =
      (calls.map Prod.fst).dedup.length := by
    rw [← List.card_toFinset, ← List.length_map (FindOrCreateAll ctor empty calls).map Prod.fst,
      ← List.toFinset_card_of_nodup hwf.nodup]
    congr 1
    ext x
    simp only [List.mem_toFinset]
    rw [hkeys]
    simp [empty]
  refine ⟨hwf.size ▸ hlen, hlen, fun m k a p h => FindOrCreate_hit ctor m k a p h, ?_⟩
  intro m k a h
  rw [FindOrCreate_miss ctor m k a h]
  exact ⟨rfl, rfl⟩

end PipelineManager


namespace PipelineManager

/-- C2, witness: after the keys 1 and 2, the key 3 is looked up, then the key 1 again, then the
key 4. -/
theorem FindOrCreate_distinct_keys_distinct_instances_witness :
    (3 : Nat) ≠ 4 ∧
      (FindOrCreate (Prod.mk : Nat → Nat → Nat × Nat) (FindOrCreateAll Prod.mk
        (FindOrCreate Prod.mk (FindOrCreateAll Prod.mk empty [(1, 0), (2, 0)]) 3 10).2
          [(1, 5)]) 4 20).1 ≠
      (FindOrCreate (Prod.mk : Nat → Nat → Nat × Nat)
        (FindOrCreateAll Prod.mk empty [(1, 0), (2, 0)]) 3 10).1 :=
  ⟨by decide, FindOrCreate_distinct_keys_distinct_instances Prod.mk [(1, 0), (2, 0)] [(1, 5)]
    3 4 10 20 (by decide)⟩

end PipelineManager

/-! ## Properties of the deferred state updates -/

/-! ### The linked list in the allocator -/

theorem Linked.length_eq {arena : List CmdHolder} :
    ∀ {ps : List Nat} {start : Option Nat} {L : List (RecordFunc × Cmd)},
      Linked arena start ps L → ps.length = L.length
  | [], _, [], _ => rfl
  | _ :: ps, _, _ :: L, h => by
    obtain ⟨-, nx, -, h'⟩ := h
    simp [Linked.length_eq h']
  | _ :: _, _, [], h => h.elim
  | [], _, _ :: _, h => h.elim

theorem Linked.lt_length {arena : List CmdHolder} :
    ∀ {ps : List Nat} {start : Option Nat} {L : List (RecordFunc × Cmd)},
      Linked arena start ps L → ∀ p ∈ ps, p < arena.length
  | [], _, _, _ => by simp
  | q :: ps, _, _ :: L, h => by
    obtain ⟨-, nx, hq, h'⟩ := h
    intro p hp
    rcases List.mem_cons.mp hp with rfl | hp
    · by_contra hlt
      rw [List.getElem?_eq_none (Nat.le_of_not_lt hlt)] at hq
      cases hq
    · exact Linked.lt_length h' p hp
  | _ :: _, _, [], h => h.elim

/-- Holders outside the list may change freely. -/
theorem Linked.frame {arena arena' : List CmdHolder} :
    ∀ {ps : List Nat} {start : Option Nat} {L : List (RecordFunc × Cmd)},
      Linked arena start ps L → (∀ p ∈ ps, arena'[p]? = arena[p]?) →
      Linked arena' start ps L
  | [], _, [], h, _ => h
  | q :: ps, _, _ :: L, h, hf => by
    obtain ⟨hs, nx, hq, h'⟩ := h
    refine ⟨hs, nx, ?_, Linked.frame h' (fun p hp => hf p (List.mem_cons_of_mem _ hp))⟩
    rw [hf q (List.mem_cons_self _ _)]
    exact hq
  | _ :: _, _, [], h, _ => h.elim
  | [], _, _ :: _, h, _ => h.elim

/-- The effect of `AppendCmd` on a non-empty list: the `next` of the last holder is set. -/
theorem Linked.snoc {arena : List CmdHolder} {q : Nat} {r : RecordFunc} {c : Cmd}
    (hq : arena[q]? = some ⟨⟨none, r⟩, c⟩) :
    ∀ {ps : List Nat} {start : Option Nat} {L : List (RecordFunc × Cmd)} {t : Nat}
      {node : CmdHolder},
      Linked arena start ps L → ps.Nodup → q ∉ ps → ps.getLast? = some t →
      arena[t]? = some node →
      Linked (arena.set t { node with header := { node.header with next := some q } })
        start (ps ++ [q]) (L ++ [(r, c)])
  | [], _, _, _, _, _, _, _, hl, _ => by simp at hl
  | _ :: _, _, [], _, _, h, _, _, _, _ => h.elim
  | [p], start, [rc], t, node, h, _, hqp, hl, ht => by
    obtain ⟨hs, nx, hp, h'⟩ := h
    simp only [List.getLast?_singleton, Option.some.injEq] at hl
    subst hl
    have hne : q ≠ p := by simpa using hqp
    have hnx : nx = none := by cases nx <;> simp_all [Linked]
    rw [hp] at ht
    cases ht
    have hplt : p < arena.length := by
      by_contra hlt
      rw [List.getElem?_eq_none (Nat.le_of_not_lt hlt)] at hp
      cases hp
    refine ⟨hs, some q, ?_, rfl, none, ?_, rfl⟩
    · simp [List.getElem?_set, hplt]
    · rw [List.getElem?_set_ne (Ne.symm hne)]
      exact hq
  | [_], _, _ :: _ :: _, _, _, h, _, _, _, _ => by
    obtain ⟨-, nx, -, h'⟩ := h
    exact h'.elim
  | p :: p' :: ps, start, rc :: L, t, node, h, hnd, hqp, hl, ht => by
    obtain ⟨hs, nx, hp, h'⟩ := h
    have hl' : (p' :: ps).getLast? = some t := by simpa [List.getLast?_cons_cons] using hl
    have hnd' : (p' :: ps).Nodup := (List.nodup_cons.mp hnd).2
    have hpt : p ≠ t := by
      rintro rfl
      exact (List.nodup_cons.mp hnd).1 (List.mem_of_getLast?_eq_some hl')
    have hqp' : q ∉ p' :: ps := fun hm => hqp (List.mem_cons_of_mem _ hm)
    refine ⟨hs, nx, ?_, Linked.snoc hq h' hnd' hqp' hl' ht⟩
    rw [List.getElem?_set_ne (Ne.symm hpt)]
    exact hp

/-! ### The builder without addresses -/

theorem getLast?_append_singleton {α : Type} (l : List α) (x : α) :
    (l ++ [x]).getLast? = some x := by
  simp

namespace StateUpdateBuilder

/-- The effect of `AppendCmd` on a holder that is not yet in the list and has a null `next`. -/
theorem AppendCmd_spec {b : StateUpdateBuilder} {L : List (RecordFunc × Cmd)} {q : Nat}
    {r : RecordFunc} {c : Cmd} (hL : ListRep b L) (hq : q ∉ b.appended)
    (hn : b.allocator[q]? = some ⟨⟨none, r⟩, c⟩) :
    ∃ b', b.AppendCmd q = some b' ∧ ListRep b' (L ++ [(r, c)]) ∧
      b'.appended = b.appended ++ [q] ∧ b'.tail = some q ∧
      b'.allocator.length = b.allocator.length ∧
      (∀ p, p ∉ b.appended → b'.allocator[p]? = b.allocator[p]?) ∧
      b'.vertexBatchBind = b.vertexBatchBind ∧
      b'.vertexBatchBindNextBinding = b.vertexBatchBindNextBinding := by
  obtain ⟨hlink, htail, hnd⟩ := hL
  have hnd' : (b.appended ++ [q]).Nodup :=
    List.Nodup.append hnd (List.nodup_singleton q) (by simpa using hq)
  cases ht : b.tail with
  | none =>
    have hemp : b.appended = [] := by
      rw [ht] at htail
      exact List.getLast?_eq_none_iff.mp htail.symm
    rw [hemp] at hlink
    have hL0 : L = [] := by
      cases L with
      | nil => rfl
      | cons _ _ => exact hlink.elim
    subst hL0
    have hhead : b.head = none := hlink
    refine ⟨{ b with head := some q, tail := some q, appended := b.appended ++ [q] },
      by simp only [AppendCmd, ht], ⟨?_, ?_, hnd'⟩, rfl, rfl, rfl, fun _ _ => rfl, rfl, rfl⟩
    · simp only [hemp, List.nil_append]
      exact ⟨rfl, none, hn, rfl⟩
    · simp
  | some t =>
    have hlast : b.appended.getLast? = some t := by rw [← htail, ht]
    have htm : t ∈ b.appended := List.mem_of_getLast?_eq_some hlast
    have htlt : t < b.allocator.length := hlink.lt_length t htm
    obtain ⟨node, hnode⟩ : ∃ node, b.allocator[t]? = some node :=
      ⟨b.allocator[t], List.getElem?_eq_getElem htlt⟩
    refine ⟨{ b with
        allocator := b.allocator.set t { node with header := { node.header with next := some q } }
        tail := some q
        appended := b.appended ++ [q] },
      by simp only [AppendCmd, ht, hnode], ⟨?_, ?_, hnd'⟩, rfl, rfl, by simp, ?_, rfl, rfl⟩
    · exact Linked.snoc hn hlink hnd hq hlast hnode
    · simp
    · intro p hp
      have : t ≠ p := by
        rintro rfl
        exact hp htm
      simp [List.getElem?_set_ne this]

end StateUpdateBuilder

theorem Rep.vertexBatchBind_lt {b : StateUpdateBuilder} {a : Abs} (h : Rep b a) :
    b.vertexBatchBind < b.allocator.length := by
  by_contra hlt
  have := h.pending
  rw [List.getElem?_eq_none (Nat.le_of_not_lt hlt)] at this
  cases this

theorem Rep.vertexBatchBindCmd {b : StateUpdateBuilder} {a : Abs} (h : Rep b a) :
    b.vertexBatchBindCmd = some (⟨none, a.record⟩, a.pending) := by
  simp [StateUpdateBuilder.vertexBatchBindCmd, h.pending]

/-- A write through `vertexBatchBind` and to `vertexBatchBindNextBinding`. -/
theorem Rep.store {b : StateUpdateBuilder} {a : Abs} (h : Rep b a) (r : RecordFunc)
    (c : SetVertexBuffersDynamicCmdImpl) (n : Nat) :
    Rep { b.vertexBatchBindStore ⟨none, r⟩ c with vertexBatchBindNextBinding := n }
      { a with record := r, pending := c, next := n } := by
  refine ⟨⟨h.list.linked.frame ?_, h.list.tail, h.list.nodup⟩, h.fresh, ?_, rfl⟩
  · intro p hp
    have : b.vertexBatchBind ≠ p := by
      rintro rfl
      exact h.fresh hp
    simp [StateUpdateBuilder.vertexBatchBindStore, List.getElem?_set_ne this]
  · simp [StateUpdateBuilder.vertexBatchBindStore, List.getElem?_set, h.vertexBatchBind_lt]

namespace StateUpdateBuilder

/-- The effect of `AppendCmd<Cmd>(contents)`. -/
theorem AppendCmdNew_spec {b : StateUpdateBuilder} {a : Abs} (h : Rep b a) (r : RecordFunc)
    (c : Cmd) :
    ∃ b', b.AppendCmdNew r c = some b' ∧ Rep b' (a.append (r, c)) ∧
      b'.appended = b.appended ++ [b.allocator.length] ∧ b'.tail = some b.allocator.length ∧
      b'.allocator[b.allocator.length]? = some ⟨⟨none, r⟩, c⟩ := by
  have hlt : ∀ p ∈ b.appended, p < b.allocator.length := h.list.linked.lt_length
  have hq : b.allocator.length ∉ b.appended := fun hm => Nat.lt_irrefl _ (hlt _ hm)
  have hL1 : ListRep (b.EmplaceUntracked ⟨⟨none, r⟩, c⟩).2 a.list := by
    refine ⟨h.list.linked.frame ?_, h.list.tail, h.list.nodup⟩
    intro p hp
    exact List.getElem?_append_left (hlt p hp)
  have hn : (b.EmplaceUntracked ⟨⟨none, r⟩, c⟩).2.allocator[b.allocator.length]? =
      some ⟨⟨none, r⟩, c⟩ := by
    simp [EmplaceUntracked]
  obtain ⟨b', hb', hL', happ, htl, -, hfr, hvb, hnx⟩ := AppendCmd_spec hL1 hq hn
  simp only [EmplaceUntracked] at hfr hvb hnx happ
  refine ⟨b', hb', ⟨hL', ?_, ?_, ?_⟩, happ, htl, by rw [hfr _ hq]; simp⟩
  · rw [hvb, happ]
    simp only [List.mem_append, List.mem_singleton, not_or]
    exact ⟨h.fresh, Nat.ne_of_lt h.vertexBatchBind_lt⟩
  · rw [hvb, hfr _ h.fresh, List.getElem?_append_left h.vertexBatchBind_lt]
    exact h.pending
  · rw [hnx]
    exact h.next

/-- The effect of `FlushVertexBatchBind`. -/
theorem FlushVertexBatchBind_spec (N : Nat) {b : StateUpdateBuilder} {a : Abs} (h : Rep b a) :
    ∃ b', b.FlushVertexBatchBind N = some b' ∧ Rep b' (a.flush N) ∧
      b'.appended = b.appended ++
        (if a.pending.base.bindingCount ≠ 0 then [b.vertexBatchBind] else []) := by
  by_cases hc : a.pending.base.bindingCount = 0
  · refine ⟨b, ?_, ?_, ?_⟩
    · simp [FlushVertexBatchBind, h.vertexBatchBindCmd, hc]
    · simpa [Abs.flush, hc] using h
    · simp [hc]
  · obtain ⟨b₁, hb₁, hL₁, happ, -, hlen, -, -, hnx⟩ :=
      AppendCmd_spec h.list h.fresh h.pending
    have hlt : ∀ p ∈ b₁.appended, p < b₁.allocator.length := hL₁.linked.lt_length
    refine ⟨{ (b₁.EmplaceUntracked (SetVertexBuffersDynamicCmd N)).2 with
        vertexBatchBind := (b₁.EmplaceUntracked (SetVertexBuffersDynamicCmd N)).1 }, ?_, ?_, ?_⟩
    · simp [FlushVertexBatchBind, h.vertexBatchBindCmd, hc, hb₁]
    · simp only [Abs.flush, hc, ne_eq, not_false_eq_true, if_true]
      refine ⟨⟨hL₁.linked.frame ?_, hL₁.tail, hL₁.nodup⟩, ?_, ?_, ?_⟩
      · intro p hp
        exact List.getElem?_append_left (hlt p hp)
      · intro hm
        exact Nat.lt_irrefl _ (hlt _ hm)
      · simp [EmplaceUntracked, SetVertexBuffersDynamicCmd]
      · simp only [EmplaceUntracked]
        rw [hnx]
        exact h.next
    · simp [hc, EmplaceUntracked, happ]

/-- The effect of the body of the `if` of `SetVertexBuffer`. -/
theorem restartVertexBatch_spec (N : Nat) {b : StateUpdateBuilder} {a : Abs} (h : Rep b a)
    (r : RecordFunc) (index : Nat) :
    ∃ b', b.restartVertexBatch N r index = some b' ∧ Rep b' (a.restart N r index) := by
  obtain ⟨b₁, hb₁, h₁, -⟩ := FlushVertexBatchBind_spec N h
  refine ⟨_, ?_, h₁.store r _ index⟩
  simp [restartVertexBatch, hb₁, h₁.vertexBatchBindCmd]

theorem enter_spec (N : Nat) {b : StateUpdateBuilder} {a : Abs} (h : Rep b a)
    (r : RecordFunc) (index : Nat) :
    ∃ b', (if index ≠ b.vertexBatchBindNextBinding ∨ a.record ≠ r then
        b.restartVertexBatch N r index else some b) = some b' ∧ Rep b' (a.enter N r index) := by
  unfold Abs.enter
  rw [h.next]
  split
  · exact restartVertexBatch_spec N h r index
  · exact ⟨b, rfl, h⟩

/-- The builder method `SetVertexBuffer` for a direct binding acts as `Abs.SetVertexBuffer`. -/
theorem SetVertexBuffer_spec (N : Nat) {b : StateUpdateBuilder} {a : Abs} (h : Rep b a)
    (index : Nat) (binding : BufferBinding) :
    RepOpt (b.SetVertexBuffer N index binding) (a.SetVertexBuffer N index binding) := by
  obtain ⟨b₁, hb₁, h₁⟩ := enter_spec N h .SetVertexBuffersCmd index
  simp only [SetVertexBuffer, h.vertexBatchBindCmd, hb₁, h₁.vertexBatchBindCmd,
    Abs.SetVertexBuffer, h₁.next]
  split
  · exact h₁.store _ _ _
  · trivial

/-- The builder method `SetVertexBuffer` for a view acts as `Abs.SetVertexBufferView`. -/
theorem SetVertexBufferView_spec (N : Nat) {b : StateUpdateBuilder} {a : Abs} (h : Rep b a)
    (mem : Memory) (index : Nat) (view : BufferView) :
    RepOpt ((b.SetVertexBufferView N mem index view).map Prod.fst)
      (a.SetVertexBufferView N index view) := by
  obtain ⟨b₁, hb₁, h₁⟩ := enter_spec N h .SetVertexBuffersDynamicCmd index
  simp only [SetVertexBufferView, h.vertexBatchBindCmd, hb₁, h₁.vertexBatchBindCmd,
    Abs.SetVertexBufferView, h₁.next]
  split
  · exact h₁.store _ _ _
  · trivial

end StateUpdateBuilder

theorem length_le_of_nodup_lt {n : Nat} {ps : List Nat} (hnd : ps.Nodup)
    (hlt : ∀ p ∈ ps, p < n) : ps.length ≤ n := by
  have hsub : ps ⊆ List.range n := fun p hp => List.mem_range.mpr (hlt p hp)
  simpa using (hnd.subperm hsub).length_le

/-- Following `next` from the start of a linked list visits its addresses in order. -/
theorem Linked.walk_eq_addresses {arena : List CmdHolder} :
    ∀ {ps : List Nat} {start : Option Nat} {L : List (RecordFunc × Cmd)} {fuel : Nat},
      Linked arena start ps L → ps.length ≤ fuel → walk arena fuel start = ps
  | [], start, [], fuel, h, _ => by
    have : start = none := h
    subst this
    cases fuel <;> rfl
  | _ :: _, _, [], _, h, _ => h.elim
  | [], _, _ :: _, _, h, _ => h.elim
  | p :: ps, start, rc :: L, fuel, h, hf => by
    obtain ⟨hs, nx, hp, h'⟩ := h
    subst hs
    cases fuel with
    | zero => simp at hf
    | succ fuel =>
      have hf' : ps.length ≤ fuel := by simpa using hf
      simp [walk, hp, Linked.walk_eq_addresses h' hf']

/-- The record functions and commands found at the addresses of a linked list. -/
theorem Linked.contents_eq {arena : List CmdHolder} :
    ∀ {ps : List Nat} {start : Option Nat} {L : List (RecordFunc × Cmd)},
      Linked arena start ps L →
      (ps.filterMap (fun p => arena[p]?)).map (fun n => (n.header.record, n.cmd)) = L
  | [], _, [], _ => rfl
  | _ :: _, _, [], h => h.elim
  | [], _, _ :: _, h => h.elim
  | p :: ps, _, rc :: L, h => by
    obtain ⟨-, nx, hp, h'⟩ := h
    simp [List.filterMap_cons, hp, Linked.contents_eq h']

/-- The loop of `RecordAll` on a linked list calls the record function of each holder in list
order, and the passes do not run out when there are as many as the list is long. -/
theorem Linked.recordFrom_eq (N : Nat) :
    ∀ {ps : List Nat} {arena : List CmdHolder} {start : Option Nat}
      {L : List (RecordFunc × Cmd)} {fuel : Nat} (w : World),
      Linked arena start ps L → ps.Nodup → ps.length ≤ fuel →
      recordFrom N fuel start arena w = recordEach N ps arena w
  | [], arena, start, [], fuel, w, h, _, _ => by
    have : start = none := h
    subst this
    cases fuel <;> rfl
  | _ :: _, _, _, [], _, _, h, _, _ => h.elim
  | [], _, _, _ :: _, _, _, h, _, _ => h.elim
  | p :: ps, arena, start, rc :: L, fuel, w, h, hnd, hf => by
    obtain ⟨hs, nx, hp, h'⟩ := h
    subst hs
    cases fuel with
    | zero => simp at hf
    | succ fuel =>
      have hf' : ps.length ≤ fuel := by simpa using hf
      have hpn : p ∉ ps := (List.nodup_cons.mp hnd).1
      simp only [recordFrom, recordEach, hp]
      cases hr : rc.1.call N rc.2 w with
      | none => rfl
      | some r =>
        simp only
        refine Linked.recordFrom_eq N r.2 (h'.frame ?_) (List.nodup_cons.mp hnd).2 hf'
        intro q hq
        have : p ≠ q := by
          rintro rfl
          exact hpn hq
        exact List.getElem?_set_ne this

theorem Rep.length_le {b : StateUpdateBuilder} {a : Abs} (h : Rep b a) :
    b.appended.length ≤ b.allocator.length :=
  length_le_of_nodup_lt h.list.nodup h.list.linked.lt_length

theorem Rep.walk_eq_appended {b : StateUpdateBuilder} {a : Abs} (h : Rep b a) :
    walk b.allocator b.allocator.length b.head = b.appended :=
  h.list.linked.walk_eq_addresses h.length_le

theorem Rep.nodes_eq {b : StateUpdateBuilder} {a : Abs} (h : Rep b a) :
    ((⟨b.head⟩ : StateUpdater).nodes b.allocator).map (fun n => (n.header.record, n.cmd)) =
      a.list := by
  unfold StateUpdater.nodes
  rw [h.walk_eq_appended]
  exact h.list.linked.contents_eq

namespace StateUpdateBuilder

theorem Rep_new (N : Nat) : Rep (new N) (Abs.new N) := by
  refine ⟨⟨rfl, rfl, List.nodup_nil⟩, by simp [new], ?_, rfl⟩
  simp [new, Abs.new, SetVertexBuffersDynamicCmd]

theorem node_spec (N : Nat) (b : StateUpdateBuilder) (mem : Memory) (c : BuilderCall)
    (rc : RecordFunc × Cmd) (hc : c.node = some rc) :
    (call N (b, mem) c).map Prod.fst = b.AppendCmdNew rc.1 rc.2 := by
  cases c <;> simp only [BuilderCall.node, Option.some.injEq] at hc <;> try cases hc
  all_goals
    simp [call, SetIndexBuffer, SetIndexBufferView, SetTransformFeedbackBuffer,
      SetTransformFeedbackBufferView, SetViewport, SetScissor, SetLineWidth, SetDepthBias,
      SetBlendConstants, SetDepthBounds, SetBaseStencilState, SetDescriptorSetWithUpdate,
      SetPipeline, SetDescriptorSetWithPush, Option.map_map, Function.comp_def]

/-- Every call acts on the builder as it acts on what the builder holds. -/
theorem call_spec (N : Nat) {b : StateUpdateBuilder} {a : Abs} (h : Rep b a) (mem : Memory)
    (c : BuilderCall) : RepOpt ((call N (b, mem) c).map Prod.fst) (a.call N c) := by
  cases hn : c.node with
  | some rc =>
    rw [node_spec N b mem c rc hn]
    obtain ⟨b', hb', h', -⟩ := AppendCmdNew_spec h rc.1 rc.2
    rw [hb']
    cases c <;> simp only [BuilderCall.node] at hn <;> try cases hn
    all_goals
      simp only [Abs.call, BuilderCall.node]
      exact h'
  | none =>
    cases c <;> simp only [BuilderCall.node] at hn <;> try cases hn
    · simpa [call, Option.map_map, Function.comp_def, Abs.call] using
        SetVertexBuffer_spec N h _ _
    · simpa [call, Abs.call] using SetVertexBufferView_spec N h mem _ _

/-- A sequence of calls acts on the builder as it acts on what the builder holds. -/
theorem calls_spec (N : Nat) (cs : List BuilderCall) :
    ∀ {b : StateUpdateBuilder} {a : Abs} (mem : Memory), Rep b a →
      RepOpt ((calls N (b, mem) cs).map Prod.fst) (a.calls N cs) := by
  induction cs with
  | nil => intro b a mem h; exact h
  | cons c cs ih =>
    intro b a mem h
    have hc := call_spec N h mem c
    simp only [calls, Abs.calls]
    cases h1 : call N (b, mem) c with
    | none =>
      rw [h1] at hc
      cases h2 : a.call N c with
      | none => trivial
      | some a' => rw [h2] at hc; exact hc.elim
    | some s' =>
      rw [h1] at hc
      cases h2 : a.call N c with
      | none => rw [h2] at hc; exact hc.elim
      | some a' =>
        rw [h2] at hc
        exact ih s'.2 hc

/-- The effect of `Build`. -/
theorem Build_spec (N : Nat) {b : StateUpdateBuilder} {a : Abs} (h : Rep b a) :
    ∃ b', b.Build N = some (⟨b'.head⟩, b') ∧ Rep b' (a.flush N) ∧
      b'.appended = b.appended ++
        (if a.pending.base.bindingCount ≠ 0 then [b.vertexBatchBind] else []) := by
  obtain ⟨b', hb', h', happ⟩ := FlushVertexBatchBind_spec N h
  exact ⟨b', by simp [Build, hb'], h', happ⟩

end StateUpdateBuilder

theorem u32_of_lt {n : Nat} (h : n < 2 ^ 32) : u32 n = n := Nat.mod_eq_of_lt h

theorem Tracks_new (N : Nat) : Tracks N (Abs.new N) [] := by
  refine ⟨rfl, Nat.zero_le _, ?_, ?_, ?_, rfl, ?_⟩ <;>
    simp [Abs.new, SetVertexBuffersDynamicCmdImpl.new, batchBinds]

namespace Abs

@[simp] theorem enter_next (N : Nat) (a : Abs) (r : RecordFunc) (index : Nat) :
    (a.enter N r index).next = index := by
  unfold enter restart
  split
  · rfl
  · rename_i h
    simp only [ne_eq, not_or, not_not] at h
    exact h.1.symm

@[simp] theorem enter_record (N : Nat) (a : Abs) (r : RecordFunc) (index : Nat) :
    (a.enter N r index).record = r := by
  unfold enter restart
  split
  · rfl
  · rename_i h
    simp only [ne_eq, not_or, not_not] at h
    exact h.2

theorem holderOther_node {c : BuilderCall} {rc : RecordFunc × Cmd} (h : c.node = some rc) :
    holderOther rc = some rc ∧ holderBinds rc = [] ∧ c.vertexBind = none := by
  cases c <;> simp only [BuilderCall.node, Option.some.injEq] at h <;> try cases h
  all_goals
    simp [holderOther, holderBinds, BuilderCall.vertexBind]

end Abs

/-- After `enter` the batch is ready for the slot `index`, and the accounts are as before. -/
theorem Tracks.of_enter {N : Nat} {a : Abs} {pre : List BuilderCall} (h : Tracks N a pre)
    (r : RecordFunc) (index : Nat) (hidx : index < N) :
    Tracks N (a.enter N r index) pre ∧ a.list <+: (a.enter N r index).list := by
  unfold Abs.enter
  split
  · unfold Abs.restart Abs.flush
    split
    · refine ⟨⟨rfl, Nat.le_of_lt hidx, ?_, ?_, ?_, ?_, ?_⟩, List.prefix_append _ _⟩
      · simp [SetVertexBuffersDynamicCmdImpl.new]
      · simp [SetVertexBuffersDynamicCmdImpl.new]
      · simp [SetVertexBuffersDynamicCmdImpl.new]
      · simpa [holderOther] using h.others
      · simpa [holderBinds, batchBinds, SetVertexBuffersDynamicCmdImpl.new] using h.binds
    · rename_i hc
      simp only [ne_eq, not_not] at hc
      refine ⟨⟨by simp [hc], Nat.le_of_lt hidx, h.buffers, h.offsets, h.views, h.others, ?_⟩,
        List.prefix_refl _⟩
      have := h.binds
      simp only [batchBinds, hc, List.range'_zero, List.map_nil] at this ⊢
      exact this
  · exact ⟨h, List.prefix_refl _⟩

theorem batchBinds_snoc (r : RecordFunc) (c c' : SetVertexBuffersDynamicCmdImpl)
    (hf : c'.base.firstBinding = c.base.firstBinding)
    (hc : c'.base.bindingCount = c.base.bindingCount + 1)
    (hs : ∀ i, i < c.base.firstBinding + c.base.bindingCount →
      batchSlot r c' i = batchSlot r c i) :
    batchBinds r c' =
      batchBinds r c ++ [batchSlot r c' (c.base.firstBinding + c.base.bindingCount)] := by
  unfold batchBinds
  rw [hf, hc, List.range'_concat, List.map_append]
  simp only [List.map_cons, List.map_nil, Nat.one_mul]
  congr 1
  apply List.map_congr_left
  intro i hi
  have := (List.mem_range'_1.mp hi).2
  exact hs i this

theorem Tracks.of_writeDirect {N : Nat} {a : Abs} {pre : List BuilderCall} (h : Tracks N a pre)
    (hN : N < 2 ^ 32) (hlt : a.next < N) (hr : a.record = .SetVertexBuffersCmd)
    (binding : BufferBinding) :
    Tracks N (a.writeDirect binding) (pre ++ [.SetVertexBuffer a.next binding]) := by
  have hsum := h.sum
  have hle := h.le
  have h1 : u32 (a.next + 1) = a.next + 1 := u32_of_lt (by omega)
  have h2 : u32 (a.pending.base.bindingCount + 1) = a.pending.base.bindingCount + 1 :=
    u32_of_lt (by omega)
  refine ⟨?_, ?_, ?_, ?_, ?_, ?_, ?_⟩
  · simp only [Abs.writeDirect, h1, h2]; omega
  · simp only [Abs.writeDirect, h1]; omega
  · simp [Abs.writeDirect, h.buffers]
  · simp [Abs.writeDirect, h.offsets]
  · simp [Abs.writeDirect, h.views]
  · simpa [Abs.writeDirect, BuilderCall.node] using h.others
  · have e : batchBinds a.record (a.writeDirect binding).pending =
        batchBinds a.record a.pending ++
          [some ⟨a.next, .direct binding.buffer binding.offset⟩] := by
      rw [batchBinds_snoc a.record a.pending (a.writeDirect binding).pending rfl h2]
      · congr 1
        simp [Abs.writeDirect, hsum, hr, batchSlot, h.buffers, h.offsets, hlt]
      · intro i hi
        have hne : a.next ≠ i := by omega
        simp [Abs.writeDirect, hr, batchSlot, List.getElem?_set_ne hne]
    show a.list.flatMap holderBinds ++ batchBinds a.record (a.writeDirect binding).pending = _
    rw [e, ← List.append_assoc, h.binds]
    simp [BuilderCall.vertexBind]

theorem Tracks.of_writeView {N : Nat} {a : Abs} {pre : List BuilderCall} (h : Tracks N a pre)
    (hN : N < 2 ^ 32) (hlt : a.next < N) (hr : a.record = .SetVertexBuffersDynamicCmd)
    (view : BufferView) :
    Tracks N (a.writeView view) (pre ++ [.SetVertexBufferView a.next view]) := by
  have hsum := h.sum
  have hle := h.le
  have h1 : u32 (a.next + 1) = a.next + 1 := u32_of_lt (by omega)
  have h2 : u32 (a.pending.base.bindingCount + 1) = a.pending.base.bindingCount + 1 :=
    u32_of_lt (by omega)
  refine ⟨?_, ?_, ?_, ?_, ?_, ?_, ?_⟩
  · simp only [Abs.writeView, h1, h2]; omega
  · simp only [Abs.writeView, h1]; omega
  · simp [Abs.writeView, h.buffers]
  · simp [Abs.writeView, h.offsets]
  · simp [Abs.writeView, h.views]
  · simpa [Abs.writeView, BuilderCall.node] using h.others
  · have e : batchBinds a.record (a.writeView view).pending =
        batchBinds a.record a.pending ++ [some ⟨a.next, .view view⟩] := by
      rw [batchBinds_snoc a.record a.pending (a.writeView view).pending rfl h2]
      · congr 1
        simp [Abs.writeView, hsum, hr, batchSlot, h.views, hlt]
      · intro i hi
        have hne : a.next ≠ i := by omega
        simp [Abs.writeView, hr, batchSlot, List.getElem?_set_ne hne]
    show a.list.flatMap holderBinds ++ batchBinds a.record (a.writeView view).pending = _
    rw [e, ← List.append_assoc, h.binds]
    simp [BuilderCall.vertexBind]

/-- One call keeps the accounts, and the list only grows at its end. -/
theorem Tracks.of_call {N : Nat} {a : Abs} {pre : List BuilderCall} (h : Tracks N a pre)
    (hN : N < 2 ^ 32) (c : BuilderCall)
    (hidx : ∀ vb, c.vertexBind = some vb → vb.index < N) :
    ∃ a', a.call N c = some a' ∧ Tracks N a' (pre ++ [c]) ∧ a.list <+: a'.list := by
  cases hn : c.node with
  | some rc =>
    obtain ⟨ho, hb, hv⟩ := Abs.holderOther_node hn
    refine ⟨a.append rc, ?_, ⟨h.sum, h.le, h.buffers, h.offsets, h.views, ?_, ?_⟩,
      List.prefix_append _ _⟩
    · cases c <;> simp only [BuilderCall.node] at hn <;> try cases hn
      all_goals simp only [Abs.call, BuilderCall.node]
    · simp [Abs.append, h.others, ho, hn]
    · have := h.binds
      simp only [Abs.append, List.flatMap_append, List.flatMap_cons, List.flatMap_nil, hb,
        List.append_nil, List.filterMap_append, List.filterMap_cons, hv, List.filterMap_nil]
      exact this
  | none =>
    cases c <;> simp only [BuilderCall.node] at hn <;> try cases hn
    · rename_i index binding
      have hi : index < N := hidx _ rfl
      obtain ⟨he, hp⟩ := h.of_enter .SetVertexBuffersCmd index hi
      have hw := he.of_writeDirect hN (by simpa using hi) (by simp) binding
      simp only [Abs.enter_next] at hw
      exact ⟨_, by simp [Abs.call, Abs.SetVertexBuffer, hi], hw, by
        simpa [Abs.writeDirect] using hp⟩
    · rename_i index view
      have hi : index < N := hidx _ rfl
      obtain ⟨he, hp⟩ := h.of_enter .SetVertexBuffersDynamicCmd index hi
      have hw := he.of_writeView hN (by simpa using hi) (by simp) view
      simp only [Abs.enter_next] at hw
      exact ⟨_, by simp [Abs.call, Abs.SetVertexBufferView, hi], hw, by
        simpa [Abs.writeView] using hp⟩

/-- A sequence of calls keeps the accounts, and the list only grows at its end. -/
theorem Tracks.of_calls {N : Nat} (hN : N < 2 ^ 32) (cs : List BuilderCall) :
    ∀ {a : Abs} {pre : List BuilderCall}, Tracks N a pre →
      (∀ c ∈ cs, ∀ vb, c.vertexBind = some vb → vb.index < N) →
      ∃ a', a.calls N cs = some a' ∧ Tracks N a' (pre ++ cs) ∧ a.list <+: a'.list := by
  induction cs with
  | nil => intro a pre h _; exact ⟨a, rfl, by simpa using h, List.prefix_refl _⟩
  | cons c cs ih =>
    intro a pre h hidx
    obtain ⟨a₁, h₁, ht₁, hp₁⟩ := h.of_call hN c (hidx c (List.mem_cons_self _ _))
    obtain ⟨a', h', ht', hp'⟩ := ih ht₁ (fun c' hc' => hidx c' (List.mem_cons_of_mem _ hc'))
    exact ⟨a', by simp [Abs.calls, h₁, h'], by simpa using ht', hp₁.trans hp'⟩

theorem Abs.calls_append (N : Nat) (cs₁ cs₂ : List BuilderCall) :
    ∀ (a : Abs), a.calls N (cs₁ ++ cs₂) = (a.calls N cs₁).bind (fun a' => a'.calls N cs₂) := by
  induction cs₁ with
  | nil => intro a; rfl
  | cons c cs ih =>
    intro a
    simp only [List.cons_append, Abs.calls]
    cases Abs.call N a c with
    | none => rfl
    | some a' => exact ih a'

/-- After the flush of `Build` the list alone accounts for the calls. -/
theorem Tracks.of_flush {N : Nat} {a : Abs} {pre : List BuilderCall} (h : Tracks N a pre) :
    (a.flush N).list.filterMap holderOther = pre.filterMap BuilderCall.node ∧
      (a.flush N).list.flatMap holderBinds = (pre.filterMap BuilderCall.vertexBind).map some ∧
      a.list <+: (a.flush N).list := by
  unfold Abs.flush
  split
  · refine ⟨?_, ?_, List.prefix_append _ _⟩
    · simpa [holderOther] using h.others
    · simpa [holderBinds] using h.binds
  · rename_i hc
    simp only [ne_eq, not_not] at hc
    refine ⟨h.others, ?_, List.prefix_refl _⟩
    have := h.binds
    simpa [batchBinds, hc] using this

/-! ### Calls on a new builder -/

theorem BuilderCall.lt_of_indexInRange {N : Nat} {c : BuilderCall}
    (h : c.indexInRange N = true) : ∀ vb, c.vertexBind = some vb → vb.index < N := by
  intro vb hvb
  cases c <;> simp only [BuilderCall.vertexBind, Option.some.injEq] at hvb <;> try cases hvb
  all_goals
    simpa [BuilderCall.indexInRange] using h

theorem Abs.call_defined (N : Nat) (a : Abs) (c : BuilderCall) (h : c.indexInRange N = true) :
    ∃ a', a.call N c = some a' := by
  cases c
  case SetVertexBuffer index binding =>
    have : index < N := by simpa [BuilderCall.indexInRange] using h
    exact ⟨(a.enter N .SetVertexBuffersCmd index).writeDirect binding, by
      simp [Abs.call, Abs.SetVertexBuffer, this]⟩
  case SetVertexBufferView index view =>
    have : index < N := by simpa [BuilderCall.indexInRange] using h
    exact ⟨(a.enter N .SetVertexBuffersDynamicCmd index).writeView view, by
      simp [Abs.call, Abs.SetVertexBufferView, this]⟩
  all_goals exact ⟨_, rfl⟩

theorem Abs.calls_defined (N : Nat) (cs : List BuilderCall) :
    ∀ (a : Abs), (∀ c ∈ cs, c.indexInRange N = true) → ∃ a', a.calls N cs = some a' := by
  induction cs with
  | nil => intro a _; exact ⟨a, rfl⟩
  | cons c cs ih =>
    intro a h
    obtain ⟨a₁, h₁⟩ := Abs.call_defined N a c (h c (List.mem_cons_self _ _))
    obtain ⟨a', h'⟩ := ih a₁ (fun c' hc' => h c' (List.mem_cons_of_mem _ hc'))
    exact ⟨a', by simp [Abs.calls, h₁, h']⟩

namespace StateUpdateBuilder

/-- Calls with indices in range are defined on a new builder, and the builder they lead to
holds what the calls lead to. -/
theorem calls_rep (N : Nat) (mem : Memory) (cs : List BuilderCall)
    (hidx : ∀ c ∈ cs, c.indexInRange N = true) :
    ∃ b mem' a, calls N (new N, mem) cs = some (b, mem') ∧ Rep b a ∧
      Abs.calls N (Abs.new N) cs = some a := by
  obtain ⟨a, ha⟩ := Abs.calls_defined N cs (Abs.new N) hidx
  have h := calls_spec N cs mem (Rep_new N)
  rw [ha] at h
  cases hc : calls N (new N, mem) cs with
  | none => rw [hc] at h; exact h.elim
  | some s =>
    rw [hc] at h
    exact ⟨s.1, s.2, a, rfl, h, ha⟩

/-- Calls with indices in range followed by `Build` are defined on a new builder. -/
theorem buildAll_rep (N : Nat) (mem : Memory) (cs : List BuilderCall)
    (hidx : ∀ c ∈ cs, c.indexInRange N = true) :
    ∃ b mem' a, buildAll N mem cs = some (⟨b.head⟩, b, mem') ∧ Rep b (a.flush N) ∧
      Abs.calls N (Abs.new N) cs = some a := by
  obtain ⟨b₀, mem', a, hc, hr, ha⟩ := calls_rep N mem cs hidx
  obtain ⟨b, hb, hr', -⟩ := Build_spec N hr
  exact ⟨b, mem', a, by simp [buildAll, hc, hb], hr', ha⟩

/-! ### Replay order -/

end StateUpdateBuilder

/-- C5: for every sequence of builder calls on a new builder (vertex stream indices in range)
followed by `Build`, the list is produced, it holds no holder twice, following `next` from
`first` visits exactly the holders handed to `AppendCmd` in the order of the `AppendCmd` calls,
and `RecordAll`, given at least as many passes as the list is long, calls the record function
of each of these holders once, in that order, the first appended first. -/
theorem RecordAll_replays_in_append_order (N : Nat) (mem : Memory) (cs : List BuilderCall)
    (hidx : ∀ c ∈ cs, c.indexInRange N = true) :
    ∃ u b mem', StateUpdateBuilder.buildAll N mem cs = some (u, b, mem') ∧
      b.appended.Nodup ∧
      walk b.allocator b.allocator.length u.first = b.appended ∧
      ∀ (fuel : Nat) (w : World), b.appended.length ≤ fuel →
        u.RecordAll N fuel b.allocator w = recordEach N b.appended b.allocator w := by
  obtain ⟨b, mem', a, hb, hr, -⟩ := StateUpdateBuilder.buildAll_rep N mem cs hidx
  refine ⟨⟨b.head⟩, b, mem', hb, hr.list.nodup, hr.walk_eq_appended, ?_⟩
  intro fuel w hf
  exact hr.list.linked.recordFrom_eq N w hr.list.nodup hf

/-- C5, witness: a vertex buffer bind, a pipeline bind and a viewport on sixteen streams. -/
theorem RecordAll_replays_in_append_order_witness :
    (∀ c ∈ [BuilderCall.SetVertexBuffer 0 ⟨7, 0, 0⟩, .SetPipeline 5, .SetViewport 0 ⟨0, 0, 0, 0, 0, 0⟩],
        c.indexInRange 16 = true) ∧
      ∃ u b mem', StateUpdateBuilder.buildAll 16 Memory.example
          [.SetVertexBuffer 0 ⟨7, 0, 0⟩, .SetPipeline 5, .SetViewport 0 ⟨0, 0, 0, 0, 0, 0⟩] =
            some (u, b, mem') ∧
        b.appended.Nodup ∧
        walk b.allocator b.allocator.length u.first = b.appended ∧
        ∀ (fuel : Nat) (w : World), b.appended.length ≤ fuel →
          u.RecordAll 16 fuel b.allocator w = recordEach 16 b.appended b.allocator w :=
  ⟨by decide, RecordAll_replays_in_append_order 16 Memory.example _ (by decide)⟩

/-- The list after calls on a new builder followed by `Build`, and the accounts of its
contents. -/
theorem StateUpdateBuilder.buildAll_tracks (N : Nat) (hN : N < 2 ^ 32) (mem : Memory)
    (cs : List BuilderCall) (hidx : ∀ c ∈ cs, c.indexInRange N = true) :
    ∃ b mem' a, StateUpdateBuilder.buildAll N mem cs = some (⟨b.head⟩, b, mem') ∧
      Rep b (a.flush N) ∧ Abs.calls N (Abs.new N) cs = some a ∧ Tracks N a cs ∧
      (⟨b.head⟩ : StateUpdater).contents b.allocator = (a.flush N).list := by
  obtain ⟨b, mem', a, hb, hr, ha⟩ := StateUpdateBuilder.buildAll_rep N mem cs hidx
  obtain ⟨a', ha', ht, -⟩ := (Tracks_new N).of_calls hN cs
    (fun c hc => BuilderCall.lt_of_indexInRange (hidx c hc))
  rw [ha] at ha'
  cases ha'
  exact ⟨b, mem', a, hb, hr, ha, by simpa using ht, hr.nodes_eq⟩

/-- C6, counterexample: on sixteen streams a direct vertex buffer bind of buffer 7 to index 0
followed by `SetPipeline(5)` and `Build` is replayed by `RecordAll` as the pipeline bind
followed by the vertex buffer bind, not in the order of the calls: the state change of the
first call is replayed after that of the second. -/
theorem replay_order_differs_from_call_order :
    (StateUpdateBuilder.buildAll 16 Memory.example
        [.SetVertexBuffer 0 ⟨7, 0, 0⟩, .SetPipeline 5]).bind
      (fun r => (r.1.RecordAll 16 2 r.2.1.allocator World.example).map (fun x => x.2.calls)) =
        some [.bindPipeline eGraphics 5, .bindVertexBuffers 0 [7] [0]] ∧
      (StateUpdateBuilder.buildAll 16 Memory.example
        [.SetVertexBuffer 0 ⟨7, 0, 0⟩, .SetPipeline 5]).bind
      (fun r => (r.1.RecordAll 16 2 r.2.1.allocator World.example).map (fun x => x.2.calls)) ≠
        some [.bindVertexBuffers 0 [7] [0], .bindPipeline eGraphics 5] := by
  refine ⟨rfl, ?_⟩
  have h : (StateUpdateBuilder.buildAll 16 Memory.example
        [.SetVertexBuffer 0 ⟨7, 0, 0⟩, .SetPipeline 5]).bind
      (fun r => (r.1.RecordAll 16 2 r.2.1.allocator World.example).map (fun x => x.2.calls)) =
        some [.bindPipeline eGraphics 5, .bindVertexBuffers 0 [7] [0]] := rfl
  rw [h]
  decide

theorem Rep.appendsOne {b : StateUpdateBuilder} {a : Abs} (h : Rep b a) (r : RecordFunc)
    (c : Cmd) : AppendsOne b (b.AppendCmdNew r c) r c := by
  obtain ⟨b', hb', h', happ, htl, hnode⟩ := StateUpdateBuilder.AppendCmdNew_spec h r c
  refine ⟨b', hb', hnode, htl, ?_, ?_⟩
  · rw [h'.walk_eq_appended, h.walk_eq_appended, happ]
  · unfold StateUpdater.contents
    rw [h'.nodes_eq, h.nodes_eq]
    rfl

/-! ### The operations other than `SetVertexBuffer` -/

/-- C7: on a builder reached from a new one by any calls (vertex stream indices in range),
every operation other than `SetVertexBuffer` appends exactly one holder at the tail of the
list, the holder carries the arguments of the call (with the record function of its type and a
null `next`), and the holders already in the list keep their order and contents. -/
theorem operation_appends_one_holder (N : Nat) (mem : Memory) (cs : List BuilderCall)
    (hidx : ∀ c ∈ cs, c.indexInRange N = true) :
    ∃ b mem', StateUpdateBuilder.calls N (StateUpdateBuilder.new N, mem) cs = some (b, mem') ∧
      (∀ binding indexType, AppendsOne b (b.SetIndexBuffer binding indexType)
        .SetIndexBufferCmd (.SetIndexBuffer ⟨binding.buffer, binding.offset, indexType⟩)) ∧
      (∀ m view indexType, AppendsOne b ((b.SetIndexBufferView m view indexType).map Prod.fst)
        .SetIndexBufferDynamicCmd (.SetIndexBufferDynamic ⟨⟨0, 0, indexType⟩, view⟩)) ∧
      (∀ index binding, AppendsOne b (b.SetTransformFeedbackBuffer index binding)
        .SetTransformFeedbackBufferCmd
        (.SetTransformFeedbackBuffer ⟨index, binding.buffer, binding.offset, binding.size⟩)) ∧
      (∀ m index view,
        AppendsOne b ((b.SetTransformFeedbackBufferView m index view).map Prod.fst)
          .SetTransformFeedbackBufferDynamicCmd
          (.SetTransformFeedbackBufferDynamic ⟨⟨index, 0, 0, 0⟩, view⟩)) ∧
      (∀ index viewport, AppendsOne b (b.SetViewport index viewport)
        .SetViewportCmd (.SetViewport ⟨index, viewport⟩)) ∧
      (∀ index scissor, AppendsOne b (b.SetScissor index scissor)
        .SetScissorCmd (.SetScissor ⟨index, scissor⟩)) ∧
      (∀ lineWidth, AppendsOne b (b.SetLineWidth lineWidth)
        .SetLineWidthCmd (.SetLineWidth ⟨lineWidth⟩)) ∧
      (∀ factor clamp slope, AppendsOne b (b.SetDepthBias factor clamp slope)
        .SetDepthBiasCmd (.SetDepthBias ⟨factor, clamp, slope⟩)) ∧
      (∀ blendConstants, AppendsOne b (b.SetBlendConstants blendConstants)
        .SetBlendConstantsCmd (.SetBlendConstants ⟨blendConstants⟩)) ∧
      (∀ lo hi, AppendsOne b (b.SetDepthBounds lo hi)
        .SetDepthBoundsCmd (.SetDepthBounds ⟨lo, hi⟩)) ∧
      (∀ flags funcRef funcMask mask,
        AppendsOne b (b.SetBaseStencilState flags funcRef funcMask mask)
          .SetBaseStencilStateCmd (.SetBaseStencilState ⟨flags, funcRef, funcMask, mask⟩)) ∧
      (∀ updateInfo dstSet srcSet,
        AppendsOne b (b.SetDescriptorSetWithUpdate updateInfo dstSet srcSet)
          .SetDescriptorSetWithUpdateCmd (.SetDescriptorSet ⟨updateInfo, srcSet, dstSet⟩)) ∧
      (∀ updateInfo, AppendsOne b (b.SetDescriptorSetWithPush updateInfo)
        .SetDescriptorSetWithPushCmd (.SetDescriptorSet ⟨updateInfo, none, none⟩)) ∧
      (∀ pipeline, AppendsOne b (b.SetPipeline pipeline)
        .SetPipelineCmd (.SetPipeline ⟨pipeline⟩)) := by
  obtain ⟨b, mem', a, hc, hr, -⟩ := StateUpdateBuilder.calls_rep N mem cs hidx
  refine ⟨b, mem', hc, ?_, ?_, ?_, ?_, ?_, ?_, ?_, ?_, ?_, ?_, ?_, ?_, ?_, ?_⟩
  · intro binding indexType; exact hr.appendsOne _ _
  · intro m view indexType
    simpa [StateUpdateBuilder.SetIndexBufferView, Option.map_map, Function.comp_def] using
      hr.appendsOne .SetIndexBufferDynamicCmd (.SetIndexBufferDynamic ⟨⟨0, 0, indexType⟩, view⟩)
  · intro index binding; exact hr.appendsOne _ _
  · intro m index view
    simpa [StateUpdateBuilder.SetTransformFeedbackBufferView, Option.map_map,
      Function.comp_def] using
      hr.appendsOne .SetTransformFeedbackBufferDynamicCmd
        (.SetTransformFeedbackBufferDynamic ⟨⟨index, 0, 0, 0⟩, view⟩)
  · intro index viewport; exact hr.appendsOne _ _
  · intro index scissor; exact hr.appendsOne _ _
  · intro lineWidth; exact hr.appendsOne _ _
  · intro factor clamp slope; exact hr.appendsOne _ _
  · intro blendConstants; exact hr.appendsOne _ _
  · intro lo hi; exact hr.appendsOne _ _
  · intro flags funcRef funcMask mask; exact hr.appendsOne _ _
  · intro updateInfo dstSet srcSet; exact hr.appendsOne _ _
  · intro updateInfo; exact hr.appendsOne _ _
  · intro pipeline; exact hr.appendsOne _ _

/-- C7, witness: the builder after a vertex buffer bind and a pipeline bind on sixteen
streams. -/
theorem operation_appends_one_holder_witness :
    (∀ c ∈ [BuilderCall.SetVertexBuffer 0 ⟨7, 0, 0⟩, .SetPipeline 5], c.indexInRange 16 = true) ∧
    ∃ b mem', StateUpdateBuilder.calls 16 (StateUpdateBuilder.new 16, Memory.example)
        [.SetVertexBuffer 0 ⟨7, 0, 0⟩, .SetPipeline 5] = some (b, mem') ∧
      (∀ binding indexType, AppendsOne b (b.SetIndexBuffer binding indexType)
        .SetIndexBufferCmd (.SetIndexBuffer ⟨binding.buffer, binding.offset, indexType⟩)) ∧
      (∀ m view indexType, AppendsOne b ((b.SetIndexBufferView m view indexType).map Prod.fst)
        .SetIndexBufferDynamicCmd (.SetIndexBufferDynamic ⟨⟨0, 0, indexType⟩, view⟩)) ∧
      (∀ index binding, AppendsOne b (b.SetTransformFeedbackBuffer index binding)
        .SetTransformFeedbackBufferCmd
        (.SetTransformFeedbackBuffer ⟨index, binding.buffer, binding.offset, binding.size⟩)) ∧
      (∀ m index view,
        AppendsOne b ((b.SetTransformFeedbackBufferView m index view).map Prod.fst)
          .SetTransformFeedbackBufferDynamicCmd
          (.SetTransformFeedbackBufferDynamic ⟨⟨index, 0, 0, 0⟩, view⟩)) ∧
      (∀ index viewport, AppendsOne b (b.SetViewport index viewport)
        .SetViewportCmd (.SetViewport ⟨index, viewport⟩)) ∧
      (∀ index scissor, AppendsOne b (b.SetScissor index scissor)
        .SetScissorCmd (.SetScissor ⟨index, scissor⟩)) ∧
      (∀ lineWidth, AppendsOne b (b.SetLineWidth lineWidth)
        .SetLineWidthCmd (.SetLineWidth ⟨lineWidth⟩)) ∧
      (∀ factor clamp slope, AppendsOne b (b.SetDepthBias factor clamp slope)
        .SetDepthBiasCmd (.SetDepthBias ⟨factor, clamp, slope⟩)) ∧
      (∀ blendConstants, AppendsOne b (b.SetBlendConstants blendConstants)
        .SetBlendConstantsCmd (.SetBlendConstants ⟨blendConstants⟩)) ∧
      (∀ lo hi, AppendsOne b (b.SetDepthBounds lo hi)
        .SetDepthBoundsCmd (.SetDepthBounds ⟨lo, hi⟩)) ∧
      (∀ flags funcRef funcMask mask,
        AppendsOne b (b.SetBaseStencilState flags funcRef funcMask mask)
          .SetBaseStencilStateCmd (.SetBaseStencilState ⟨flags, funcRef, funcMask, mask⟩)) ∧
      (∀ updateInfo dstSet srcSet,
        AppendsOne b (b.SetDescriptorSetWithUpdate updateInfo dstSet srcSet)
          .SetDescriptorSetWithUpdateCmd (.SetDescriptorSet ⟨updateInfo, srcSet, dstSet⟩)) ∧
      (∀ updateInfo, AppendsOne b (b.SetDescriptorSetWithPush updateInfo)
        .SetDescriptorSetWithPushCmd (.SetDescriptorSet ⟨updateInfo, none, none⟩)) ∧
      (∀ pipeline, AppendsOne b (b.SetPipeline pipeline)
        .SetPipelineCmd (.SetPipeline ⟨pipeline⟩)) :=
  ⟨by decide, operation_appends_one_holder 16 Memory.example _ (by decide)⟩

/-! ### Coalescing of vertex buffer binds -/

/-- A bind that finds no pending binds starts a run, whatever its index and kind. -/
theorem OpenRun.start (N : Nat) {a : Abs} (hc : a.pending.base.bindingCount = 0)
    (hf : a.pending.base.firstBinding = a.next) (r : RecordFunc) (index : Nat) :
    OpenRun (a.enter N r index) r index 0 a.list := by
  unfold Abs.enter
  split
  · refine ⟨?_, rfl, rfl, ?_, rfl⟩ <;> simp [Abs.restart, Abs.flush, hc]
  · rename_i h
    simp only [ne_eq, not_or, not_not] at h
    exact ⟨rfl, h.2, by rw [hf, h.1], hc, by simp [h.1]⟩

/-- A bind of the same kind to the next binding goes to the pending batch. -/
theorem OpenRun.continue (N : Nat) {a : Abs} {r : RecordFunc} {f n : Nat}
    {L : List (RecordFunc × Cmd)} (h : OpenRun a r f n L) : a.enter N r (f + n) = a := by
  unfold Abs.enter
  rw [if_neg]
  simp [h.next, h.record]

/-- A bind of another kind or to another binding moves the pending batch to the list and
starts a run. -/
theorem OpenRun.break (N : Nat) {a : Abs} {r : RecordFunc} {f n : Nat}
    {L : List (RecordFunc × Cmd)} (h : OpenRun a r f n L) (hn : n ≠ 0) (r' : RecordFunc)
    (index : Nat) (hne : index ≠ f + n ∨ r ≠ r') :
    OpenRun (a.enter N r' index) r' index 0 (L ++ [(r, .SetVertexBuffersDynamic a.pending)]) := by
  have hc : a.pending.base.bindingCount ≠ 0 := by rw [h.count]; exact hn
  unfold Abs.enter
  rw [if_pos (by rw [h.next, h.record]; exact hne)]
  refine ⟨?_, rfl, rfl, ?_, rfl⟩
  · simp [Abs.restart, Abs.flush, hc, h.list, h.record]
  · simp [Abs.restart, Abs.flush, hc, SetVertexBuffersDynamicCmdImpl.new]

theorem OpenRun.succ_of_writeDirect {N : Nat} {a : Abs} {r : RecordFunc} {f n : Nat}
    {L : List (RecordFunc × Cmd)} (h : OpenRun a r f n L) (hN : N < 2 ^ 32) (hlt : f + n < N)
    (binding : BufferBinding) : OpenRun (a.writeDirect binding) r f (n + 1) L := by
  refine ⟨h.list, h.record, h.first, ?_, ?_⟩
  · simp only [Abs.writeDirect, h.count]
    exact u32_of_lt (by omega)
  · simp only [Abs.writeDirect, h.next]
    rw [u32_of_lt (by omega)]
    omega

theorem OpenRun.succ_of_writeView {N : Nat} {a : Abs} {r : RecordFunc} {f n : Nat}
    {L : List (RecordFunc × Cmd)} (h : OpenRun a r f n L) (hN : N < 2 ^ 32) (hlt : f + n < N)
    (view : BufferView) : OpenRun (a.writeView view) r f (n + 1) L := by
  refine ⟨h.list, h.record, h.first, ?_, ?_⟩
  · simp only [Abs.writeView, h.count]
    exact u32_of_lt (by omega)
  · simp only [Abs.writeView, h.next]
    rw [u32_of_lt (by omega)]
    omega

/-- The calls of `n + 1` direct binds to the bindings from `k` on leave one pending run. -/
theorem Abs.calls_contiguous_direct (N : Nat) (hN : N < 2 ^ 32) (k : Nat)
    (f : Nat → BufferBinding) :
    ∀ n, k + (n + 1) ≤ N → ∃ a,
      Abs.calls N (Abs.new N)
        ((List.range (n + 1)).map (fun i => BuilderCall.SetVertexBuffer (k + i) (f i))) =
          some a ∧
      OpenRun a .SetVertexBuffersCmd k (n + 1) [] := by
  intro n
  induction n with
  | zero =>
    intro hk
    have h0 : OpenRun (Abs.enter N (Abs.new N) .SetVertexBuffersCmd k) .SetVertexBuffersCmd
        k 0 [] := OpenRun.start N rfl rfl _ _
    refine ⟨_, ?_, h0.succ_of_writeDirect hN (by omega) (f 0)⟩
    have : k < N := by omega
    simp [Abs.calls, Abs.call, Abs.SetVertexBuffer, this]
  | succ n ih =>
    intro hk
    obtain ⟨a, ha, hr⟩ := ih (by omega)
    have he := hr.continue N
    refine ⟨_, ?_, hr.succ_of_writeDirect hN (by omega) (f (n + 1))⟩
    rw [List.range_succ, List.map_append, Abs.calls_append, ha]
    have : k + (n + 1) < N := by omega
    simp [Abs.calls, Abs.call, Abs.SetVertexBuffer, he, hr.next, this]

/-- The calls of `n + 1` view binds to the bindings from `k` on leave one pending run. -/
theorem Abs.calls_contiguous_view (N : Nat) (hN : N < 2 ^ 32) (k : Nat)
    (g : Nat → BufferView) :
    ∀ n, k + (n + 1) ≤ N → ∃ a,
      Abs.calls N (Abs.new N)
        ((List.range (n + 1)).map (fun i => BuilderCall.SetVertexBufferView (k + i) (g i))) =
          some a ∧
      OpenRun a .SetVertexBuffersDynamicCmd k (n + 1) [] := by
  intro n
  induction n with
  | zero =>
    intro hk
    have h0 : OpenRun (Abs.enter N (Abs.new N) .SetVertexBuffersDynamicCmd k)
        .SetVertexBuffersDynamicCmd k 0 [] := OpenRun.start N rfl rfl _ _
    refine ⟨_, ?_, h0.succ_of_writeView hN (by omega) (g 0)⟩
    have : k < N := by omega
    simp [Abs.calls, Abs.call, Abs.SetVertexBufferView, this]
  | succ n ih =>
    intro hk
    obtain ⟨a, ha, hr⟩ := ih (by omega)
    have he := hr.continue N
    refine ⟨_, ?_, hr.succ_of_writeView hN (by omega) (g (n + 1))⟩
    rw [List.range_succ, List.map_append, Abs.calls_append, ha]
    have : k + (n + 1) < N := by omega
    simp [Abs.calls, Abs.call, Abs.SetVertexBufferView, he, hr.next, this]

/-- After `Build` a pending run is the last holder of the list. -/
theorem OpenRun.list_of_flush (N : Nat) {a : Abs} {r : RecordFunc} {f n : Nat}
    {L : List (RecordFunc × Cmd)} (h : OpenRun a r f n L) (hn : n ≠ 0) :
    (a.flush N).list = L ++ [(r, .SetVertexBuffersDynamic a.pending)] := by
  have hc : a.pending.base.bindingCount ≠ 0 := by rw [h.count]; exact hn
  simp [Abs.flush, hc, h.list, h.record]

theorem filterMap_some_eq_map {α β : Type} (h : α → β) (l : List α) :
    l.filterMap (fun x => some (h x)) = l.map h := by
  induction l with
  | nil => rfl
  | cons x xs ih => simp [ih]

/-- C8: on a new builder (`VertexStreamCount` a `u32` constant), for every start index `k` and
length `n ≥ 1` with `k + n ≤ VertexStreamCount`, `n` vertex buffer binds of one variant to the
contiguous indices `k`, ..., `k + n - 1` followed by `Build` yield a list of exactly one holder, a
vertex batch with the record function of the variant, `firstBinding = k` and `bindingCount = n`,
whose slots are the `n` binds in order; this for direct binds (bindings `f 0`, `f 1`, ...) and for
view binds (views `g 0`, `g 1`, ...). -/
theorem contiguous_binds_yield_one_batch (N : Nat) (hN : N < 2 ^ 32) (mem : Memory) (k n : Nat)
    (hn : 1 ≤ n) (hk : k + n ≤ N) (f : Nat → BufferBinding) (g : Nat → BufferView) :
    (∃ u b mem' c, StateUpdateBuilder.buildAll N mem
          ((List.range n).map (fun i => BuilderCall.SetVertexBuffer (k + i) (f i))) =
        some (u, b, mem') ∧
      u.contents b.allocator = [(.SetVertexBuffersCmd, .SetVertexBuffersDynamic c)] ∧
      c.base.firstBinding = k ∧ c.base.bindingCount = n ∧
      batchBinds .SetVertexBuffersCmd c =
        (List.range n).map (fun i => some ⟨k + i, .direct (f i).buffer (f i).offset⟩)) ∧
    (∃ u b mem' c, StateUpdateBuilder.buildAll N mem
          ((List.range n).map (fun i => BuilderCall.SetVertexBufferView (k + i) (g i))) =
        some (u, b, mem') ∧
      u.contents b.allocator = [(.SetVertexBuffersDynamicCmd, .SetVertexBuffersDynamic c)] ∧
      c.base.firstBinding = k ∧ c.base.bindingCount = n ∧
      batchBinds .SetVertexBuffersDynamicCmd c =
        (List.range n).map (fun i => some ⟨k + i, .view (g i)⟩)) := by
  obtain ⟨m, rfl⟩ : ∃ m, n = m + 1 := ⟨n - 1, by omega⟩
  constructor
  · obtain ⟨a, ha, hr⟩ := Abs.calls_contiguous_direct N hN k f m hk
    have hidx : ∀ c ∈ (List.range (m + 1)).map
        (fun i => BuilderCall.SetVertexBuffer (k + i) (f i)), c.indexInRange N = true := by
      intro c hc
      obtain ⟨i, hi, rfl⟩ := List.mem_map.mp hc
      have := List.mem_range.mp hi
      simp only [BuilderCall.indexInRange, decide_eq_true_eq]
      omega
    obtain ⟨b, mem', a', hb, -, ha', ht, hcont⟩ :=
      StateUpdateBuilder.buildAll_tracks N hN mem _ hidx
    rw [ha] at ha'
    cases ha'
    have hfl := hr.list_of_flush N (Nat.succ_ne_zero m)
    refine ⟨⟨b.head⟩, b, mem', a.pending, hb, by rw [hcont, hfl]; rfl, hr.first, hr.count, ?_⟩
    have hbinds := ht.of_flush.2.1
    rw [hfl] at hbinds
    simpa [holderBinds, List.filterMap_map, Function.comp_def, BuilderCall.vertexBind,
      filterMap_some_eq_map, List.map_map] using hbinds
  · obtain ⟨a, ha, hr⟩ := Abs.calls_contiguous_view N hN k g m hk
    have hidx : ∀ c ∈ (List.range (m + 1)).map
        (fun i => BuilderCall.SetVertexBufferView (k + i) (g i)), c.indexInRange N = true := by
      intro c hc
      obtain ⟨i, hi, rfl⟩ := List.mem_map.mp hc
      have := List.mem_range.mp hi
      simp only [BuilderCall.indexInRange, decide_eq_true_eq]
      omega
    obtain ⟨b, mem', a', hb, -, ha', ht, hcont⟩ :=
      StateUpdateBuilder.buildAll_tracks N hN mem _ hidx
    rw [ha] at ha'
    cases ha'
    have hfl := hr.list_of_flush N (Nat.succ_ne_zero m)
    refine ⟨⟨b.head⟩, b, mem', a.pending, hb, by rw [hcont, hfl]; rfl, hr.first, hr.count, ?_⟩
    have hbinds := ht.of_flush.2.1
    rw [hfl] at hbinds
    simpa [holderBinds, List.filterMap_map, Function.comp_def, BuilderCall.vertexBind,
      filterMap_some_eq_map, List.map_map] using hbinds

/-- C8, witness: sixteen streams, the four indices 0, 1, 2, 3. -/
theorem contiguous_binds_yield_one_batch_witness :
    16 < 2 ^ 32 ∧ 1 ≤ 4 ∧ 0 + 4 ≤ 16 ∧
    (∃ u b mem' c, StateUpdateBuilder.buildAll 16 Memory.example
          ((List.range 4).map (fun i => BuilderCall.SetVertexBuffer (0 + i) ⟨7 + i, 0, 64⟩)) =
        some (u, b, mem') ∧
      u.contents b.allocator = [(.SetVertexBuffersCmd, .SetVertexBuffersDynamic c)] ∧
      c.base.firstBinding = 0 ∧ c.base.bindingCount = 4 ∧
      batchBinds .SetVertexBuffersCmd c =
        (List.range 4).map (fun i => some ⟨0 + i, .direct
          (⟨7 + i, 0, 64⟩ : BufferBinding).buffer (⟨7 + i, 0, 64⟩ : BufferBinding).offset⟩)) ∧
    (∃ u b mem' c, StateUpdateBuilder.buildAll 16 Memory.example
          ((List.range 4).map (fun i => BuilderCall.SetVertexBufferView (0 + i) ⟨i, 64⟩)) =
        some (u, b, mem') ∧
      u.contents b.allocator = [(.SetVertexBuffersDynamicCmd, .SetVertexBuffersDynamic c)] ∧
      c.base.firstBinding = 0 ∧ c.base.bindingCount = 4 ∧
      batchBinds .SetVertexBuffersDynamicCmd c =
        (List.range 4).map (fun i => some ⟨0 + i, .view ⟨i, 64⟩⟩)) :=
  ⟨by decide, by decide, by decide,
    contiguous_binds_yield_one_batch 16 (by decide) Memory.example 0 4 (by decide) (by decide)
      (fun i => ⟨7 + i, 0, 64⟩) (fun i => ⟨i, 64⟩)⟩

theorem ascendingRuns_snoc (x : Nat) : ∀ (l : List Nat), ascendingRuns (l ++ [x]) =
    match l.getLast? with
    | none => 1
    | some y => ascendingRuns l + (if x = y + 1 then 0 else 1)
  | [] => rfl
  | [i] => by simp [ascendingRuns, Nat.add_comm]
  | i :: j :: rest => by
    have ih := ascendingRuns_snoc x (j :: rest)
    show (if j = i + 1 then 0 else 1) + ascendingRuns ((j :: rest) ++ [x]) =
      match (i :: j :: rest).getLast? with
      | none => 1
      | some y => ((if j = i + 1 then 0 else 1) + ascendingRuns (j :: rest)) +
          (if x = y + 1 then 0 else 1)
    cases h : (j :: rest).getLast? with
    | none => simp at h
    | some y =>
      rw [h] at ih
      simp only at ih
      rw [ih, List.getLast?_cons_cons, h]
      exact (Nat.add_assoc _ _ _).symm

theorem RunCount_new (N : Nat) (r : RecordFunc) : RunCount N r (Abs.new N) [] :=
  ⟨rfl, Nat.zero_le _, fun _ => rfl, fun h => absurd rfl h, rfl⟩

/-- The batch that a bind of the kind `r` to `index` goes to, and the count of runs. -/
theorem RunCount.openRun_of_enter {N : Nat} {r : RecordFunc} {a : Abs} {idxs : List Nat}
    (h : RunCount N r a idxs) (index : Nat) :
    ∃ f n L, OpenRun (a.enter N r index) r f n L ∧ f + n = index ∧
      (L.filter holderIsBatch).length + 1 = ascendingRuns (idxs ++ [index]) := by
  by_cases hc : a.pending.base.bindingCount = 0
  · have hi := h.idle hc
    subst hi
    refine ⟨index, 0, a.list, OpenRun.start N hc (by have := h.sum; omega) r index, rfl, ?_⟩
    have := h.runs
    simp only [hc, if_true, ascendingRuns, Nat.add_zero] at this
    rw [this]
    rfl
  · obtain ⟨hr, hl, h1⟩ := h.running hc
    have hruns := h.runs
    simp only [hc, if_false] at hruns
    have hopen : OpenRun a r a.pending.base.firstBinding a.pending.base.bindingCount a.list :=
      ⟨rfl, hr, rfl, rfl, h.sum.symm⟩
    by_cases hi : index = a.next
    · refine ⟨_, _, a.list, ?_, by rw [h.sum, hi], ?_⟩
      · have := hopen.continue N
        rw [h.sum, ← hi] at this
        rw [this]
        exact hopen
      · rw [ascendingRuns_snoc, hl]
        simp only
        rw [if_pos (by omega)]
        omega
    · refine ⟨index, 0, _, hopen.break N hc r index (Or.inl (by rw [h.sum]; exact hi)), rfl, ?_⟩
      rw [ascendingRuns_snoc, hl]
      simp only
      rw [if_neg (by omega)]
      simp [List.filter_append, holderIsBatch]
      omega

theorem RunCount.of_openRun {N : Nat} {r : RecordFunc} {a : Abs} {f n : Nat}
    {L : List (RecordFunc × Cmd)} {idxs : List Nat} {index : Nat}
    (h : OpenRun a r f (n + 1) L) (hfn : f + n = index) (hi : index < N)
    (hruns : (L.filter holderIsBatch).length + 1 = ascendingRuns (idxs ++ [index])) :
    RunCount N r a (idxs ++ [index]) := by
  have hc : a.pending.base.bindingCount ≠ 0 := by rw [h.count]; exact Nat.succ_ne_zero n
  refine ⟨?_, ?_, fun h0 => absurd h0 hc, fun _ => ⟨h.record, ?_, ?_⟩, ?_⟩
  · rw [h.first, h.count, h.next]
  · rw [h.next]; omega
  · rw [h.next, getLast?_append_singleton]
    congr 1
    omega
  · rw [h.next]; omega
  · rw [h.list, if_neg hc]
    exact hruns

/-- Direct binds keep the count of runs. -/
theorem RunCount.calls_direct {N : Nat} (hN : N < 2 ^ 32) :
    ∀ (l : List (Nat × BufferBinding)) {a : Abs} {idxs : List Nat},
      RunCount N .SetVertexBuffersCmd a idxs → (∀ x ∈ l, x.1 < N) →
      ∃ a', a.calls N (l.map (fun x => BuilderCall.SetVertexBuffer x.1 x.2)) = some a' ∧
        RunCount N .SetVertexBuffersCmd a' (idxs ++ l.map Prod.fst)
  | [], a, idxs, h, _ => ⟨a, rfl, by simpa using h⟩
  | x :: l, a, idxs, h, hl => by
    have hx : x.1 < N := hl x (List.mem_cons_self _ _)
    obtain ⟨f, n, L, ho, hfn, hruns⟩ := h.openRun_of_enter x.1
    have hw := ho.succ_of_writeDirect hN (by omega) x.2
    have h₁ := RunCount.of_openRun hw hfn hx hruns
    obtain ⟨a', ha', h'⟩ := RunCount.calls_direct hN l h₁
      (fun y hy => hl y (List.mem_cons_of_mem _ hy))
    refine ⟨a', ?_, by simpa using h'⟩
    simp [Abs.calls, Abs.call, Abs.SetVertexBuffer, hx, ha']

/-- View binds keep the count of runs. -/
theorem RunCount.calls_view {N : Nat} (hN : N < 2 ^ 32) :
    ∀ (l : List (Nat × BufferView)) {a : Abs} {idxs : List Nat},
      RunCount N .SetVertexBuffersDynamicCmd a idxs → (∀ x ∈ l, x.1 < N) →
      ∃ a', a.calls N (l.map (fun x => BuilderCall.SetVertexBufferView x.1 x.2)) = some a' ∧
        RunCount N .SetVertexBuffersDynamicCmd a' (idxs ++ l.map Prod.fst)
  | [], a, idxs, h, _ => ⟨a, rfl, by simpa using h⟩
  | x :: l, a, idxs, h, hl => by
    have hx : x.1 < N := hl x (List.mem_cons_self _ _)
    obtain ⟨f, n, L, ho, hfn, hruns⟩ := h.openRun_of_enter x.1
    have hw := ho.succ_of_writeView hN (by omega) x.2
    have h₁ := RunCount.of_openRun hw hfn hx hruns
    obtain ⟨a', ha', h'⟩ := RunCount.calls_view hN l h₁
      (fun y hy => hl y (List.mem_cons_of_mem _ hy))
    refine ⟨a', ?_, by simpa using h'⟩
    simp [Abs.calls, Abs.call, Abs.SetVertexBufferView, hx, ha']

/-- After `Build` the vertex batches of the list are as many as the runs. -/
theorem RunCount.length_of_flush {N : Nat} {r : RecordFunc} {a : Abs} {idxs : List Nat}
    (h : RunCount N r a idxs) :
    ((a.flush N).list.filter holderIsBatch).length = ascendingRuns idxs := by
  have := h.runs
  unfold Abs.flush
  by_cases hc : a.pending.base.bindingCount = 0
  · simpa [hc] using this
  · simp only [hc, if_false] at this
    simp [hc, List.filter_append, holderIsBatch, this]

theorem StateUpdater.filter_isVertexBatch (u : StateUpdater) (arena : List CmdHolder) :
    ((u.nodes arena).filter CmdHolder.isVertexBatch).length =
      ((u.contents arena).filter holderIsBatch).length := by
  unfold StateUpdater.contents
  rw [List.filter_map, List.length_map]
  rfl

/-- C9: for every sequence of `SetVertexBuffer` calls of one variant on a new builder (indices
below `VertexStreamCount`, a `u32` constant) followed by `Build`, the number of vertex batch
holders of the list equals the number of maximal runs of consecutive ascending indices of the
sequence; this for a sequence `l₁` of direct binds and for a sequence `l₂` of view binds. -/
theorem batch_count_eq_ascending_runs (N : Nat) (hN : N < 2 ^ 32) (mem : Memory)
    (l₁ : List (Nat × BufferBinding)) (l₂ : List (Nat × BufferView))
    (h₁ : ∀ x ∈ l₁, x.1 < N) (h₂ : ∀ x ∈ l₂, x.1 < N) :
    (∃ u b mem', StateUpdateBuilder.buildAll N mem
          (l₁.map (fun x => BuilderCall.SetVertexBuffer x.1 x.2)) = some (u, b, mem') ∧
      ((u.nodes b.allocator).filter CmdHolder.isVertexBatch).length =
        ascendingRuns (l₁.map Prod.fst)) ∧
    (∃ u b mem', StateUpdateBuilder.buildAll N mem
          (l₂.map (fun x => BuilderCall.SetVertexBufferView x.1 x.2)) = some (u, b, mem') ∧
      ((u.nodes b.allocator).filter CmdHolder.isVertexBatch).length =
        ascendingRuns (l₂.map Prod.fst)) := by
  constructor
  · obtain ⟨a, ha, hr⟩ := RunCount.calls_direct hN l₁ (RunCount_new N _) h₁
    have hidx : ∀ c ∈ l₁.map (fun x => BuilderCall.SetVertexBuffer x.1 x.2),
        c.indexInRange N = true := by
      intro c hc
      obtain ⟨x, hx, rfl⟩ := List.mem_map.mp hc
      simpa [BuilderCall.indexInRange] using h₁ x hx
    obtain ⟨b, mem', a', hb, hrep, ha'⟩ := StateUpdateBuilder.buildAll_rep N mem _ hidx
    rw [ha] at ha'
    cases ha'
    refine ⟨⟨b.head⟩, b, mem', hb, ?_⟩
    rw [StateUpdater.filter_isVertexBatch]
    unfold StateUpdater.contents
    rw [hrep.nodes_eq]
    simpa using hr.length_of_flush
  · obtain ⟨a, ha, hr⟩ := RunCount.calls_view hN l₂ (RunCount_new N _) h₂
    have hidx : ∀ c ∈ l₂.map (fun x => BuilderCall.SetVertexBufferView x.1 x.2),
        c.indexInRange N = true := by
      intro c hc
      obtain ⟨x, hx, rfl⟩ := List.mem_map.mp hc
      simpa [BuilderCall.indexInRange] using h₂ x hx
    obtain ⟨b, mem', a', hb, hrep, ha'⟩ := StateUpdateBuilder.buildAll_rep N mem _ hidx
    rw [ha] at ha'
    cases ha'
    refine ⟨⟨b.head⟩, b, mem', hb, ?_⟩
    rw [StateUpdater.filter_isVertexBatch]
    unfold StateUpdater.contents
    rw [hrep.nodes_eq]
    simpa using hr.length_of_flush

/-- C9, witness: on sixteen streams, direct binds to the indices 0 and 2 give two batches, and
view binds to the indices 0 and 0 give two batches. -/
theorem batch_count_eq_ascending_runs_witness :
    16 < 2 ^ 32 ∧
    (∀ x ∈ [((0 : Nat), (⟨7, 0, 64⟩ : BufferBinding)), (2, ⟨8, 0, 64⟩)], x.1 < 16) ∧
    (∀ x ∈ [((0 : Nat), (⟨1, 64⟩ : BufferView)), (0, ⟨2, 64⟩)], x.1 < 16) ∧
    (∃ u b mem', StateUpdateBuilder.buildAll 16 Memory.example
          ([((0 : Nat), (⟨7, 0, 64⟩ : BufferBinding)), (2, ⟨8, 0, 64⟩)].map
            (fun x => BuilderCall.SetVertexBuffer x.1 x.2)) = some (u, b, mem') ∧
      ((u.nodes b.allocator).filter CmdHolder.isVertexBatch).length = 2) ∧
    (∃ u b mem', StateUpdateBuilder.buildAll 16 Memory.example
          ([((0 : Nat), (⟨1, 64⟩ : BufferView)), (0, ⟨2, 64⟩)].map
            (fun x => BuilderCall.SetVertexBufferView x.1 x.2)) = some (u, b, mem') ∧
      ((u.nodes b.allocator).filter CmdHolder.isVertexBatch).length = 2) :=
  ⟨by decide, by decide, by decide,
    batch_count_eq_ascending_runs 16 (by decide) Memory.example
      [(0, ⟨7, 0, 64⟩), (2, ⟨8, 0, 64⟩)] [(0, ⟨1, 64⟩), (0, ⟨2, 64⟩)] (by decide) (by decide)⟩

theorem Abs.call_other (N : Nat) (a : Abs) (c : BuilderCall) (h : c.vertexBind = none) :
    ∃ rc, c.node = some rc ∧ a.call N c = some (a.append rc) ∧ holderIsBatch rc = false := by
  cases c <;> simp only [BuilderCall.vertexBind] at h <;> try cases h
  all_goals exact ⟨_, rfl, rfl, rfl⟩

/-- Calls other than `SetVertexBuffer` only add their holders to the list. -/
theorem Abs.calls_others (N : Nat) :
    ∀ (cs : List BuilderCall) (a : Abs), (∀ c ∈ cs, c.vertexBind = none) →
      a.calls N cs = some { a with list := a.list ++ cs.filterMap BuilderCall.node } ∧
      ∀ rc ∈ cs.filterMap BuilderCall.node, holderIsBatch rc = false
  | [], a, _ => ⟨by simp [Abs.calls], by simp⟩
  | c :: cs, a, h => by
    obtain ⟨rc, hn, hc, hb⟩ := Abs.call_other N a c (h c (List.mem_cons_self _ _))
    obtain ⟨ih, ihb⟩ := Abs.calls_others N cs (a.append rc)
      (fun c' hc' => h c' (List.mem_cons_of_mem _ hc'))
    refine ⟨?_, ?_⟩
    · simp only [Abs.calls, hc, ih, List.filterMap_cons, hn]
      simp [Abs.append]
    · intro rc' hrc'
      simp only [List.filterMap_cons, hn, List.mem_cons] at hrc'
      rcases hrc' with rfl | hrc'
      · exact hb
      · exact ihb rc' hrc'

/-! ### Finalization -/

/-- C10: for every sequence of builder calls on a new builder (vertex stream indices in range,
`VertexStreamCount` a `u32` constant), `Build` is defined and returns the head of the list. It
appends the pending vertex batch as the last holder of the list if its `bindingCount` is not zero
and leaves the builder as it is if the count is zero. The slots of the vertex batches of the list
that `RecordAll` replays, taken in list order, are exactly the `SetVertexBuffer` calls made, in
call order, so each call is held by exactly one slot of one holder. If no call is a
`SetVertexBuffer` call the list holds no vertex batch, and with no calls at all `Build` returns
the empty list. -/
theorem Build_flushes_pending_batch (N : Nat) (hN : N < 2 ^ 32) (mem : Memory)
    (cs : List BuilderCall) (hidx : ∀ c ∈ cs, c.indexInRange N = true) :
    (∃ b₀ mem' u b header c,
      StateUpdateBuilder.calls N (StateUpdateBuilder.new N, mem) cs = some (b₀, mem') ∧
      b₀.Build N = some (u, b) ∧ u.first = b.head ∧
      b₀.vertexBatchBindCmd = some (header, c) ∧
      (c.base.bindingCount ≠ 0 →
        walk b.allocator b.allocator.length u.first =
          walk b₀.allocator b₀.allocator.length b₀.head ++ [b₀.vertexBatchBind] ∧
        u.contents b.allocator = (⟨b₀.head⟩ : StateUpdater).contents b₀.allocator ++
          [(header.record, .SetVertexBuffersDynamic c)] ∧
        b.tail = some b₀.vertexBatchBind) ∧
      (c.base.bindingCount = 0 → b = b₀) ∧
      (u.contents b.allocator).flatMap holderBinds =
        (cs.filterMap BuilderCall.vertexBind).map some ∧
      ((∀ c ∈ cs, c.vertexBind = none) →
        ∀ rc ∈ u.contents b.allocator, holderIsBatch rc = false)) ∧
    StateUpdateBuilder.buildAll N mem [] = some (⟨none⟩, StateUpdateBuilder.new N, mem) ∧
    (⟨none⟩ : StateUpdater).nodes (StateUpdateBuilder.new N).allocator = [] := by
  refine ⟨?_, ?_, ?_⟩
  · obtain ⟨b₀, mem', a, hc, hr, ha⟩ := StateUpdateBuilder.calls_rep N mem cs hidx
    obtain ⟨b, hb, hr', happ⟩ := StateUpdateBuilder.Build_spec N hr
    obtain ⟨a', ha', ht, -⟩ := (Tracks_new N).of_calls hN cs
      (fun c hc => BuilderCall.lt_of_indexInRange (hidx c hc))
    rw [ha] at ha'
    cases ha'
    have hcont : (⟨b.head⟩ : StateUpdater).contents b.allocator = (a.flush N).list :=
      hr'.nodes_eq
    refine ⟨b₀, mem', ⟨b.head⟩, b, ⟨none, a.record⟩, a.pending, hc, hb, rfl,
      hr.vertexBatchBindCmd, ?_, ?_, ?_, ?_⟩
    · intro hne
      simp only [hne, ne_eq, not_false_eq_true, if_true] at happ
      refine ⟨?_, ?_, ?_⟩
      · rw [hr'.walk_eq_appended, hr.walk_eq_appended, happ]
      · rw [hcont]
        unfold StateUpdater.contents
        rw [hr.nodes_eq]
        simp [Abs.flush, hne]
      · rw [hr'.list.tail, happ]
        simp
    · intro h0
      have : b₀.Build N = some (⟨b₀.head⟩, b₀) := by
        simp [StateUpdateBuilder.Build, StateUpdateBuilder.FlushVertexBatchBind,
          hr.vertexBatchBindCmd, h0]
      rw [this] at hb
      simp only [Option.some.injEq, Prod.mk.injEq] at hb
      exact hb.2.symm
    · rw [hcont]
      exact ht.of_flush.2.1
    · intro hnone
      obtain ⟨hcalls, hbatch⟩ := Abs.calls_others N cs (Abs.new N) hnone
      rw [ha] at hcalls
      simp only [Option.some.injEq] at hcalls
      rw [hcont, hcalls]
      intro rc hrc
      apply hbatch
      simpa [Abs.flush, Abs.new, SetVertexBuffersDynamicCmdImpl.new] using hrc
  · rfl
  · rfl

/-- C10, witness: two contiguous view binds and a pipeline bind on sixteen streams. -/
theorem Build_flushes_pending_batch_witness :
    16 < 2 ^ 32 ∧
    (∀ c ∈ [BuilderCall.SetVertexBufferView 0 ⟨1, 64⟩, .SetVertexBufferView 1 ⟨2, 64⟩,
        .SetPipeline 5], c.indexInRange 16 = true) ∧
    ((∃ b₀ mem' u b header c,
      StateUpdateBuilder.calls 16 (StateUpdateBuilder.new 16, Memory.example)
          [.SetVertexBufferView 0 ⟨1, 64⟩, .SetVertexBufferView 1 ⟨2, 64⟩, .SetPipeline 5] =
        some (b₀, mem') ∧
      b₀.Build 16 = some (u, b) ∧ u.first = b.head ∧
      b₀.vertexBatchBindCmd = some (header, c) ∧
      (c.base.bindingCount ≠ 0 →
        walk b.allocator b.allocator.length u.first =
          walk b₀.allocator b₀.allocator.length b₀.head ++ [b₀.vertexBatchBind] ∧
        u.contents b.allocator = (⟨b₀.head⟩ : StateUpdater).contents b₀.allocator ++
          [(header.record, .SetVertexBuffersDynamic c)] ∧
        b.tail = some b₀.vertexBatchBind) ∧
      (c.base.bindingCount = 0 → b = b₀) ∧
      (u.contents b.allocator).flatMap holderBinds =
        (([.SetVertexBufferView 0 ⟨1, 64⟩, .SetVertexBufferView 1 ⟨2, 64⟩,
          .SetPipeline 5] : List BuilderCall).filterMap BuilderCall.vertexBind).map some ∧
      ((∀ c ∈ ([.SetVertexBufferView 0 ⟨1, 64⟩, .SetVertexBufferView 1 ⟨2, 64⟩,
          .SetPipeline 5] : List BuilderCall), c.vertexBind = none) →
        ∀ rc ∈ u.contents b.allocator, holderIsBatch rc = false)) ∧
    StateUpdateBuilder.buildAll 16 Memory.example [] =
      some (⟨none⟩, StateUpdateBuilder.new 16, Memory.example) ∧
    (⟨none⟩ : StateUpdater).nodes (StateUpdateBuilder.new 16).allocator = []) :=
  ⟨by decide, by decide,
    Build_flushes_pending_batch 16 (by decide) Memory.example _ (by decide)⟩

/-! ### Blocking of sequenced writes -/

/-- Recording a command leaves the memory subsystem as it is. -/
theorem RecordFunc.memory_eq (N : Nat) (r : RecordFunc) (cmd : Cmd) (w : World)
    (res : Cmd × World) (h : r.call N cmd w = some res) : res.2.memory = w.memory := by
  cases r <;> cases cmd <;> simp only [RecordFunc.call] at h <;> try cases h
  all_goals try rfl
  · rename_i c
    simp only [SetVertexBuffersCmdImpl.Record, Option.map_eq_some'] at h
    obtain ⟨w', hw, rfl⟩ := h
    split at hw
    · cases hw; rfl
    · cases hw
  · rename_i c
    simp only [SetVertexBuffersDynamicCmdImpl.Record, Option.map_eq_some'] at h
    obtain ⟨r', hr, rfl⟩ := h
    split at hr
    · simp only [SetVertexBuffersCmdImpl.Record, Option.map_eq_some'] at hr
      obtain ⟨w', hw, rfl⟩ := hr
      split at hw
      · cases hw; rfl
      · cases hw
    · cases hr
  · rename_i c
    simp only [Option.map_eq_some'] at h
    obtain ⟨w', hw, rfl⟩ := h
    unfold SetDescriptorSetCmdImpl.Record at hw
    split at hw
    · split at hw
      · cases hw
      · simp only [Bool.false_eq_true, if_false] at hw
        split at hw
        · cases hw
        · split at hw
          · cases hw
          · cases hw
            simp only [World.emit]
            split <;> split <;> rfl
    · cases hw
  · rename_i c
    simp only [Option.map_eq_some'] at h
    obtain ⟨w', hw, rfl⟩ := h
    unfold SetDescriptorSetCmdImpl.Record at hw
    split at hw
    · split at hw
      · cases hw
      · simp only [if_true] at hw
        cases hw
        rfl
    · cases hw

/-- The loop of `RecordAll` leaves the memory subsystem as it is. -/
theorem recordFrom_memory (N : Nat) :
    ∀ (fuel : Nat) (cmd : Option Nat) (arena : List CmdHolder) (w : World)
      (res : List CmdHolder × World),
      recordFrom N fuel cmd arena w = some res → res.2.memory = w.memory
  | _, none, _, _, res, h => by
    simp only [recordFrom, Option.some.injEq] at h
    subst h
    rfl
  | 0, some _, _, _, _, h => by simp [recordFrom] at h
  | fuel + 1, some p, arena, w, res, h => by
    simp only [recordFrom] at h
    split at h
    · cases h
    · rename_i node hnode
      split at h
      · cases h
      · rename_i r hr
        rw [recordFrom_memory N fuel _ _ _ res h]
        exact RecordFunc.memory_eq N _ _ _ _ hr

namespace StateUpdateBuilder

theorem SetVertexBufferView_memory {N : Nat} {b : StateUpdateBuilder} {mem : Memory}
    {index : Nat} {view : BufferView} {res : StateUpdateBuilder × Memory}
    (h : b.SetVertexBufferView N mem index view = some res) :
    res.2 = mem.BlockSequencedCpuBackingWrites (view.GetBuffer mem) := by
  unfold SetVertexBufferView at h
  split at h
  · cases h
  · split at h
    · cases h
    · split at h
      · cases h
      · split at h
        · cases h; rfl
        · cases h

/-- What a call does to the memory subsystem: it marks the buffer of `BuilderCall.blocks`, if
there is one, and nothing else. -/
theorem call_memory {N : Nat} {b : StateUpdateBuilder} {mem : Memory} {c : BuilderCall}
    {res : StateUpdateBuilder × Memory} (h : call N (b, mem) c = some res) :
    res.2 = match c.blocks mem with
      | some buffer => mem.BlockSequencedCpuBackingWrites buffer
      | none => mem := by
  cases c
  case SetVertexBufferView index view => exact SetVertexBufferView_memory h
  case SetIndexBufferView view indexType =>
    simp only [call, SetIndexBufferView, Option.map_eq_some'] at h
    obtain ⟨b', -, rfl⟩ := h
    rfl
  case SetTransformFeedbackBufferView index view =>
    simp only [call, SetTransformFeedbackBufferView, Option.map_eq_some'] at h
    obtain ⟨b', -, rfl⟩ := h
    rfl
  all_goals
    simp only [call, Option.map_eq_some'] at h
    obtain ⟨b', -, rfl⟩ := h
    rfl

/-- What a sequence of calls does to the memory subsystem. -/
theorem calls_memory {N : Nat} :
    ∀ (cs : List BuilderCall) {b : StateUpdateBuilder} {mem : Memory}
      {res : StateUpdateBuilder × Memory}, calls N (b, mem) cs = some res →
      res.2 = { mem with
        blocked := (cs.filterMap (BuilderCall.blocks mem)).reverse ++ mem.blocked }
  | [], b, mem, res, h => by
    simp only [calls, Option.some.injEq] at h
    subst h
    rfl
  | c :: cs, b, mem, res, h => by
    simp only [calls] at h
    split at h
    · cases h
    · rename_i s hs
      have h₁ := call_memory hs
      have h₂ := @calls_memory N cs s.1 s.2 res h
      rw [h₂, h₁]
      cases hb : c.blocks mem with
      | none =>
        simp only [List.filterMap_cons, hb]
      | some buffer =>
        have hblocks : ∀ l : List Nat,
            BuilderCall.blocks ⟨mem.viewBuffer, mem.viewOffset, mem.backing, l⟩ =
              BuilderCall.blocks mem := by
          intro l
          funext c'
          cases c' <;> rfl
        simp only [List.filterMap_cons, hb, hblocks, Memory.BlockSequencedCpuBackingWrites,
          List.reverse_cons, List.append_assoc, List.singleton_append]

end StateUpdateBuilder

/-- C11: a view bind marks the buffer of its view as blocked for sequenced CPU backing writes
during the builder call.  After any calls on a new builder (vertex stream indices in range) the
blocked buffers are exactly those of the view overloads called, the latest first, whether or
not the list is ever replayed.  On the builder so reached `SetVertexBuffer(index, view)`,
`SetIndexBuffer(view, type)` and `SetTransformFeedbackBuffer(index, view)` return with the
buffer of the view marked, the `BufferBinding` overloads return with the memory subsystem
unchanged, and `RecordAll`, on any list and in any world, leaves the memory subsystem as it
finds it. -/
theorem view_binds_block_during_builder_call (N : Nat) (mem : Memory) (cs : List BuilderCall)
    (hidx : ∀ c ∈ cs, c.indexInRange N = true) :
    ∃ b mem', StateUpdateBuilder.calls N (StateUpdateBuilder.new N, mem) cs = some (b, mem') ∧
      mem' = { mem with
        blocked := (cs.filterMap (BuilderCall.blocks mem)).reverse ++ mem.blocked } ∧
      (∀ index view, index < N → ∃ b₁, b.SetVertexBufferView N mem' index view =
        some (b₁, mem'.BlockSequencedCpuBackingWrites (view.GetBuffer mem'))) ∧
      (∀ view indexType, ∃ b₁, b.SetIndexBufferView mem' view indexType =
        some (b₁, mem'.BlockSequencedCpuBackingWrites (view.GetBuffer mem'))) ∧
      (∀ index view, ∃ b₁, b.SetTransformFeedbackBufferView mem' index view =
        some (b₁, mem'.BlockSequencedCpuBackingWrites (view.GetBuffer mem'))) ∧
      (∀ index binding, index < N → ∃ b₁,
        StateUpdateBuilder.call N (b, mem') (.SetVertexBuffer index binding) =
          some (b₁, mem')) ∧
      (∀ binding indexType, ∃ b₁,
        StateUpdateBuilder.call N (b, mem') (.SetIndexBuffer binding indexType) =
          some (b₁, mem')) ∧
      (∀ index binding, ∃ b₁,
        StateUpdateBuilder.call N (b, mem') (.SetTransformFeedbackBuffer index binding) =
          some (b₁, mem')) ∧
      (∀ (u : StateUpdater) fuel arena w res, u.RecordAll N fuel arena w = some res →
        res.2.memory = w.memory) := by
  obtain ⟨b, mem', a, hc, hr, -⟩ := StateUpdateBuilder.calls_rep N mem cs hidx
  have defined : ∀ c : BuilderCall, c.indexInRange N = true →
      ∃ s, StateUpdateBuilder.call N (b, mem') c = some s := by
    intro c hc'
    obtain ⟨a', ha'⟩ := Abs.call_defined N a c hc'
    have := StateUpdateBuilder.call_spec N hr mem' c
    rw [ha'] at this
    cases h : StateUpdateBuilder.call N (b, mem') c with
    | none => rw [h] at this; exact this.elim
    | some s => exact ⟨s, rfl⟩
  refine ⟨b, mem', hc, StateUpdateBuilder.calls_memory cs hc, ?_, ?_, ?_, ?_, ?_, ?_, ?_⟩
  · intro index view hi
    obtain ⟨s, hs⟩ := defined (.SetVertexBufferView index view)
      (by simpa [BuilderCall.indexInRange] using hi)
    have hm := StateUpdateBuilder.call_memory hs
    rw [show s = (s.1, mem'.BlockSequencedCpuBackingWrites (view.GetBuffer mem')) from
      Prod.ext rfl hm] at hs
    exact ⟨s.1, hs⟩
  · intro view indexType
    obtain ⟨s, hs⟩ := defined (.SetIndexBufferView view indexType) rfl
    have hm := StateUpdateBuilder.call_memory hs
    rw [show s = (s.1, mem'.BlockSequencedCpuBackingWrites (view.GetBuffer mem')) from
      Prod.ext rfl hm] at hs
    exact ⟨s.1, hs⟩
  · intro index view
    obtain ⟨s, hs⟩ := defined (.SetTransformFeedbackBufferView index view) rfl
    have hm := StateUpdateBuilder.call_memory hs
    rw [show s = (s.1, mem'.BlockSequencedCpuBackingWrites (view.GetBuffer mem')) from
      Prod.ext rfl hm] at hs
    exact ⟨s.1, hs⟩
  · intro index binding hi
    obtain ⟨s, hs⟩ := defined (.SetVertexBuffer index binding)
      (by simpa [BuilderCall.indexInRange] using hi)
    have hm := StateUpdateBuilder.call_memory hs
    rw [show s = (s.1, mem') from Prod.ext rfl hm] at hs
    exact ⟨s.1, hs⟩
  · intro binding indexType
    obtain ⟨s, hs⟩ := defined (.SetIndexBuffer binding indexType) rfl
    have hm := StateUpdateBuilder.call_memory hs
    rw [show s = (s.1, mem') from Prod.ext rfl hm] at hs
    exact ⟨s.1, hs⟩
  · intro index binding
    obtain ⟨s, hs⟩ := defined (.SetTransformFeedbackBuffer index binding) rfl
    have hm := StateUpdateBuilder.call_memory hs
    rw [show s = (s.1, mem') from Prod.ext rfl hm] at hs
    exact ⟨s.1, hs⟩
  · intro u fuel arena w res h
    exact recordFrom_memory N fuel u.first arena w res h

/-! ### Replay of a vertex batch -/

theorem drop_take_succ {α : Type} {l : List α} {f : Nat} {x : α} (h : l[f]? = some x)
    (n : Nat) : (l.drop f).take (n + 1) = x :: (l.drop (f + 1)).take n := by
  obtain ⟨hlt, rfl⟩ := List.getElem?_eq_some.mp h
  rw [List.drop_eq_getElem_cons hlt, List.take_succ_cons]

theorem map_some_eq_cons {β : Type} {x : Option β} {xs : List (Option β)} {bs : List β}
    (h : x :: xs = bs.map some) : ∃ b bs', bs = b :: bs' ∧ x = some b ∧ xs = bs'.map some := by
  cases bs with
  | nil => simp at h
  | cons b bs' =>
    simp only [List.map_cons, List.cons.injEq] at h
    exact ⟨b, bs', rfl, h.1, h.2⟩

/-- The sub-spans that `SetVertexBuffersCmdImpl::Record` passes on are the locations that the
slots of the batch hold. -/
theorem direct_slots (mem : Memory) (c : SetVertexBuffersDynamicCmdImpl) :
    ∀ (n f : Nat) (bs : List VertexBind),
      (List.range' f n).map (batchSlot .SetVertexBuffersCmd c) = bs.map some →
      (c.base.buffers.drop f).take n = bs.map (VertexBind.buffer mem) ∧
        (c.base.offsets.drop f).take n = bs.map (VertexBind.offset mem)
  | 0, f, bs, h => by
    cases bs with
    | nil => simp
    | cons b bs' => simp at h
  | n + 1, f, bs, h => by
    rw [List.range'_succ, List.map_cons] at h
    obtain ⟨b, bs', rfl, hb, hrest⟩ := map_some_eq_cons h
    obtain ⟨ih₁, ih₂⟩ := direct_slots mem c n (f + 1) bs' hrest
    simp only [batchSlot] at hb
    split at hb
    · rename_i buffer offset hbuf hoff
      simp only [Option.some.injEq] at hb
      subst hb
      rw [drop_take_succ hbuf, drop_take_succ hoff, ih₁, ih₂]
      exact ⟨rfl, rfl⟩
    · cases hb

/-- The loop of `SetVertexBuffersDynamicCmdImpl::Record` over the bindings `f`, ..., `f + n - 1`
of a batch whose slots there hold the views `bs`: it is defined, it writes the backing handles
and offsets of these views, as the memory subsystem gives them, into the slots of the base, and
it changes nothing else. -/
theorem view_slots (N : Nat) (mem : Memory) :
    ∀ (n f : Nat) (c : SetVertexBuffersDynamicCmdImpl) (bs : List VertexBind),
      f + n ≤ N → c.base.buffers.length = N → c.base.offsets.length = N →
      (List.range' f n).map (batchSlot .SetVertexBuffersDynamicCmd c) = bs.map some →
      ∃ c', (List.range' f n).foldlM (SetVertexBuffersDynamicCmdImpl.resolve N mem) c = some c' ∧
        c'.views = c.views ∧ c'.base.firstBinding = c.base.firstBinding ∧
        c'.base.bindingCount = c.base.bindingCount ∧
        c'.base.buffers.length = N ∧ c'.base.offsets.length = N ∧
        (c'.base.buffers.drop f).take n = bs.map (VertexBind.buffer mem) ∧
        (c'.base.offsets.drop f).take n = bs.map (VertexBind.offset mem) ∧
        (∀ i, i < f → c'.base.buffers[i]? = c.base.buffers[i]? ∧
          c'.base.offsets[i]? = c.base.offsets[i]?)
  | 0, f, c, bs, _, hb, ho, h => by
    cases bs with
    | nil => exact ⟨c, rfl, rfl, rfl, rfl, hb, ho, by simp, by simp, fun _ _ => ⟨rfl, rfl⟩⟩
    | cons b bs' => simp at h
  | n + 1, f, c, bs, hle, hb, ho, h => by
    rw [List.range'_succ, List.map_cons] at h
    obtain ⟨b, bs', rfl, hslot, hrest⟩ := map_some_eq_cons h
    simp only [batchSlot] at hslot
    split at hslot
    · rename_i v hv
      simp only [Option.some.injEq] at hslot
      subst hslot
      have hf : f < N := by omega
      obtain ⟨c₁, hc₁⟩ : ∃ c₁ : SetVertexBuffersDynamicCmdImpl, c₁ = { c with base := { c.base with
          buffers := c.base.buffers.set f (mem.GetBacking (v.GetBuffer mem))
          offsets := c.base.offsets.set f (v.GetOffset mem) } } := ⟨_, rfl⟩
      have hres : SetVertexBuffersDynamicCmdImpl.resolve N mem c f = some c₁ := by
        simp [SetVertexBuffersDynamicCmdImpl.resolve, hf, hv, hc₁]
      have hslots : ∀ i, batchSlot .SetVertexBuffersDynamicCmd c₁ i =
          batchSlot .SetVertexBuffersDynamicCmd c i := by
        intro i
        simp [batchSlot, hc₁]
      obtain ⟨c', hc', hviews, hfirst, hcount, hb', ho', hbufs, hoffs, hframe⟩ :=
        view_slots N mem n (f + 1) c₁ bs' (by omega) (by simp [hc₁, hb]) (by simp [hc₁, ho])
          (by
            have e : batchSlot .SetVertexBuffersDynamicCmd c₁ =
                batchSlot .SetVertexBuffersDynamicCmd c := funext hslots
            rw [e]
            exact hrest)
      have hc₁f : c₁.base.buffers[f]? = some (mem.GetBacking (v.GetBuffer mem)) ∧
          c₁.base.offsets[f]? = some (v.GetOffset mem) := by
        simp [hc₁, List.getElem?_set, hb, ho, hf]
      refine ⟨c', ?_, by rw [hviews, hc₁], by rw [hfirst, hc₁], by rw [hcount, hc₁], hb', ho',
        ?_, ?_, ?_⟩
      · rw [List.range'_succ, List.foldlM_cons, hres]
        exact hc'
      · have := (hframe f (Nat.lt_succ_self f)).1
        rw [hc₁f.1] at this
        rw [drop_take_succ this, hbufs]
        rfl
      · have := (hframe f (Nat.lt_succ_self f)).2
        rw [hc₁f.2] at this
        rw [drop_take_succ this, hoffs]
        rfl
      · intro i hi
        have h1 := hframe i (Nat.lt_succ_of_lt hi)
        have hne : f ≠ i := Nat.ne_of_gt hi
        simp only [hc₁, List.getElem?_set_ne hne] at h1
        exact h1
    · cases hslot

/-- The replay of a well formed vertex batch whose slots hold the binds `bs`: one call of
`bindVertexBuffers` that binds, from `firstBinding` on, the buffers and offsets that the binds
stand for in the memory subsystem of the world of the replay. -/
theorem BatchOK.record_call {N : Nat} {r : RecordFunc} {c : SetVertexBuffersDynamicCmdImpl}
    (h : BatchOK N r c) (hN : N < 2 ^ 32) {bs : List VertexBind}
    (hbs : batchBinds r c = bs.map some) (w : World) :
    ∃ cmd', r.call N (.SetVertexBuffersDynamic c) w =
      some (cmd', w.emit (.bindVertexBuffers c.base.firstBinding
        (bs.map (VertexBind.buffer w.memory)) (bs.map (VertexBind.offset w.memory)))) := by
  rcases h.record with rfl | rfl
  · obtain ⟨h₁, h₂⟩ := direct_slots w.memory c _ _ bs hbs
    refine ⟨.SetVertexBuffersDynamic c, ?_⟩
    simp [RecordFunc.call, SetVertexBuffersCmdImpl.Record, h.le, h₁, h₂]
  · obtain ⟨c', hc', -, hfirst, hcount, -, -, h₁, h₂, -⟩ :=
      view_slots N w.memory _ _ c bs h.le h.buffers h.offsets hbs
    refine ⟨.SetVertexBuffersDynamic c', ?_⟩
    have hu : u32 (c.base.firstBinding + c.base.bindingCount) - c.base.firstBinding =
        c.base.bindingCount := by
      rw [u32_of_lt (by have := h.le; omega)]
      omega
    have hle' : c'.base.firstBinding + c'.base.bindingCount ≤ N := by
      rw [hfirst, hcount]; exact h.le
    simp [RecordFunc.call, SetVertexBuffersDynamicCmdImpl.Record, hu, hc',
      SetVertexBuffersCmdImpl.Record, hfirst, hcount, h₁, h₂, h.le]

/-! ### The vertex batches of the list -/

theorem Batched_new (N : Nat) : Batched N (Abs.new N) :=
  ⟨Or.inr rfl, by simp [Abs.new]⟩

theorem Batched.enter_ok {N : Nat} {a : Abs} {pre : List BuilderCall} (h : Batched N a)
    (ht : Tracks N a pre) (r : RecordFunc)
    (hr : r = .SetVertexBuffersCmd ∨ r = .SetVertexBuffersDynamicCmd) (index : Nat) :
    Batched N (a.enter N r index) := by
  unfold Abs.enter
  split
  · unfold Abs.restart Abs.flush
    split
    · rename_i hc
      refine ⟨hr, ?_⟩
      intro rc hrc c hcmd
      simp only [List.mem_append, List.mem_singleton] at hrc
      rcases hrc with hrc | rfl
      · exact h.list rc hrc c hcmd
      · simp only [Cmd.SetVertexBuffersDynamic.injEq] at hcmd
        subst hcmd
        exact ⟨h.record, hc, by rw [ht.sum]; exact ht.le, ht.buffers, ht.offsets⟩
    · exact ⟨hr, h.list⟩
  · exact h

theorem Batched.call_ok {N : Nat} {a a' : Abs} {pre : List BuilderCall} (h : Batched N a)
    (ht : Tracks N a pre) (c : BuilderCall) (hc : a.call N c = some a') : Batched N a' := by
  cases hn : c.node with
  | some rc =>
    obtain ⟨ho, -, -⟩ := Abs.holderOther_node hn
    have : a.call N c = some (a.append rc) := by
      cases c <;> simp only [BuilderCall.node] at hn <;> try cases hn
      all_goals rfl
    rw [this] at hc
    cases hc
    refine ⟨h.record, ?_⟩
    intro rc' hrc' c' hcmd
    simp only [Abs.append, List.mem_append, List.mem_singleton] at hrc'
    rcases hrc' with hrc' | rfl
    · exact h.list rc' hrc' c' hcmd
    · simp [holderOther, hcmd] at ho
  | none =>
    cases c <;> simp only [BuilderCall.node] at hn <;> try cases hn
    · rename_i index binding
      simp only [Abs.call, Abs.SetVertexBuffer] at hc
      split at hc
      · cases hc
        have := h.enter_ok ht .SetVertexBuffersCmd (Or.inl rfl) index
        exact ⟨this.record, this.list⟩
      · cases hc
    · rename_i index view
      simp only [Abs.call, Abs.SetVertexBufferView] at hc
      split at hc
      · cases hc
        have := h.enter_ok ht .SetVertexBuffersDynamicCmd (Or.inr rfl) index
        exact ⟨this.record, this.list⟩
      · cases hc

theorem Batched.calls_ok {N : Nat} (hN : N < 2 ^ 32) :
    ∀ (cs : List BuilderCall) {a a' : Abs} {pre : List BuilderCall}, Batched N a →
      Tracks N a pre → (∀ c ∈ cs, c.indexInRange N = true) → a.calls N cs = some a' →
      Batched N a'
  | [], a, a', pre, h, _, _, hc => by
    simp only [Abs.calls, Option.some.injEq] at hc
    subst hc
    exact h
  | c :: cs, a, a', pre, h, ht, hidx, hc => by
    simp only [Abs.calls] at hc
    split at hc
    · cases hc
    · rename_i a₁ ha₁
      obtain ⟨a₂, ha₂, ht₂, -⟩ := ht.of_call hN c
        (BuilderCall.lt_of_indexInRange (hidx c (List.mem_cons_self _ _)))
      rw [ha₁] at ha₂
      cases ha₂
      exact Batched.calls_ok hN cs (h.call_ok ht c ha₁) ht₂
        (fun c' hc' => hidx c' (List.mem_cons_of_mem _ hc')) hc

theorem Batched.flush_ok {N : Nat} {a : Abs} {pre : List BuilderCall} (h : Batched N a)
    (ht : Tracks N a pre) :
    ∀ rc ∈ (a.flush N).list, ∀ c, rc.2 = .SetVertexBuffersDynamic c → BatchOK N rc.1 c := by
  unfold Abs.flush
  split
  · rename_i hc
    intro rc hrc c hcmd
    simp only [List.mem_append, List.mem_singleton] at hrc
    rcases hrc with hrc | rfl
    · exact h.list rc hrc c hcmd
    · simp only [Cmd.SetVertexBuffersDynamic.injEq] at hcmd
      subst hcmd
      exact ⟨h.record, hc, by rw [ht.sum]; exact ht.le, ht.buffers, ht.offsets⟩
  · exact h.list

theorem map_some_filterMap_id {β : Type} :
    ∀ (l : List (Option β)), (∀ x ∈ l, ∃ b, x = some b) → (l.filterMap id).map some = l
  | [], _ => rfl
  | x :: l, h => by
    obtain ⟨b, rfl⟩ := h x (List.mem_cons_self _ _)
    simp [map_some_filterMap_id l (fun y hy => h y (List.mem_cons_of_mem _ hy))]

theorem batchSlot_index {r : RecordFunc} {c : SetVertexBuffersDynamicCmdImpl} {i : Nat}
    {vb : VertexBind} (h : batchSlot r c i = some vb) : vb.index = i := by
  unfold batchSlot at h
  split at h
  · split at h
    · cases h; rfl
    · cases h
  · split at h
    · cases h; rfl
    · cases h
  · cases h

/-- The binds in the slots of a batch are binds to its bindings, in ascending order. -/
theorem slots_index {r : RecordFunc} {c : SetVertexBuffersDynamicCmdImpl} :
    ∀ (n f : Nat) (run : List VertexBind),
      (List.range' f n).map (batchSlot r c) = run.map some →
      run.map VertexBind.index = List.range' f n
  | 0, f, run, h => by
    cases run with
    | nil => rfl
    | cons b bs => simp at h
  | n + 1, f, run, h => by
    rw [List.range'_succ, List.map_cons] at h
    obtain ⟨b, bs', rfl, hb, hrest⟩ := map_some_eq_cons h
    rw [List.range'_succ, List.map_cons, batchSlot_index hb, slots_index n (f + 1) bs' hrest]

/-- The worlds that the replay of a linked list goes through: each record function is called
in the world that the one before it left. -/
theorem Linked.recordEach_world (N : Nat) :
    ∀ {ps : List Nat} {arena : List CmdHolder} {start : Option Nat}
      {L : List (RecordFunc × Cmd)} (w : World),
      Linked arena start ps L → ps.Nodup →
      (recordEach N ps arena w).map Prod.snd = L.foldlM (holderRecord N) w
  | [], _, _, [], _, _, _ => rfl
  | _ :: _, _, _, [], _, h, _ => h.elim
  | [], _, _, _ :: _, _, h, _ => h.elim
  | p :: ps, arena, start, rc :: L, w, h, hnd => by
    obtain ⟨-, nx, hp, h'⟩ := h
    have hpn : p ∉ ps := (List.nodup_cons.mp hnd).1
    simp only [recordEach, hp, List.foldlM_cons, holderRecord]
    cases hr : rc.1.call N rc.2 w with
    | none => rfl
    | some r =>
      simp only [Option.map_some', Option.some_bind]
      refine Linked.recordEach_world N r.2 (h'.frame ?_) (List.nodup_cons.mp hnd).2
      intro q hq
      have : p ≠ q := by
        rintro rfl
        exact hpn hq
      exact List.getElem?_set_ne this

/-! ### The vertex batches after `Build` -/

theorem flatMap_holderRun :
    ∀ (L : List (RecordFunc × Cmd)), (∀ rc ∈ L, (holderRun rc).map some = holderBinds rc) →
      (L.flatMap holderRun).map some = L.flatMap holderBinds
  | [], _ => rfl
  | rc :: L, h => by
    simp only [List.flatMap_cons, List.map_append]
    rw [h rc (List.mem_cons_self _ _),
      flatMap_holderRun L (fun rc' hrc' => h rc' (List.mem_cons_of_mem _ hrc'))]

/-- The list after calls on a new builder followed by `Build`: its holders other than vertex
batches are those of the calls other than `SetVertexBuffer`, every vertex batch is well formed
and each of its slots holds a bind, the binds of the batches, in list order, are the
`SetVertexBuffer` calls, and `RecordAll` calls the record function of each holder in the world
that the one before left. -/
theorem StateUpdateBuilder.buildAll_batches (N : Nat) (hN : N < 2 ^ 32) (mem : Memory)
    (cs : List BuilderCall) (hidx : ∀ c ∈ cs, c.indexInRange N = true) :
    ∃ u b mem', StateUpdateBuilder.buildAll N mem cs = some (u, b, mem') ∧
      (u.contents b.allocator).filterMap holderOther = cs.filterMap BuilderCall.node ∧
      (u.contents b.allocator).flatMap holderRun = cs.filterMap BuilderCall.vertexBind ∧
      (∀ rc ∈ u.contents b.allocator, ∀ c, rc.2 = .SetVertexBuffersDynamic c →
        BatchOK N rc.1 c ∧ batchBinds rc.1 c = (holderRun rc).map some) ∧
      ∀ (fuel : Nat) (w : World), b.appended.length ≤ fuel →
        (u.RecordAll N fuel b.allocator w).map Prod.snd =
          (u.contents b.allocator).foldlM (holderRecord N) w := by
  obtain ⟨b, mem', a, hb, hr, ha, ht, hcont⟩ :=
    StateUpdateBuilder.buildAll_tracks N hN mem cs hidx
  have hbat := ((Batched_new N).calls_ok hN cs (Tracks_new N) hidx ha).flush_ok ht
  obtain ⟨hoth, hbinds, -⟩ := ht.of_flush
  have hsome : ∀ rc ∈ (a.flush N).list, (holderRun rc).map some = holderBinds rc := by
    intro rc hrc
    refine map_some_filterMap_id _ ?_
    intro x hx
    have : x ∈ (a.flush N).list.flatMap holderBinds := List.mem_flatMap.mpr ⟨rc, hrc, hx⟩
    rw [hbinds] at this
    obtain ⟨vb, -, rfl⟩ := List.mem_map.mp this
    exact ⟨vb, rfl⟩
  refine ⟨⟨b.head⟩, b, mem', hb, ?_, ?_, ?_, ?_⟩
  · rw [hcont]
    exact hoth
  · rw [hcont]
    have := flatMap_holderRun _ hsome
    rw [hbinds] at this
    exact List.map_injective_iff.mpr (Option.some_injective _) this
  · rw [hcont]
    intro rc hrc c hcmd
    refine ⟨hbat rc hrc c hcmd, ?_⟩
    rw [hsome rc hrc]
    simp [holderBinds, hcmd]
  · intro fuel w hf
    rw [hcont]
    have h₁ : (⟨b.head⟩ : StateUpdater).RecordAll N fuel b.allocator w =
        recordEach N b.appended b.allocator w :=
      hr.list.linked.recordFrom_eq N w hr.list.nodup hf
    rw [h₁]
    exact hr.list.linked.recordEach_world N w hr.list.nodup

/-- C11, witness: a view bind of a vertex buffer, a direct index buffer bind and a view bind of
an index buffer on sixteen streams. -/
theorem view_binds_block_during_builder_call_witness :
    (∀ c ∈ [BuilderCall.SetVertexBufferView 2 ⟨7, 0⟩, .SetIndexBuffer ⟨3, 0, 0⟩ 1,
        .SetIndexBufferView ⟨9, 0⟩ 1], c.indexInRange 16 = true) ∧
    ∃ b mem', StateUpdateBuilder.calls 16 (StateUpdateBuilder.new 16, Memory.example)
        [.SetVertexBufferView 2 ⟨7, 0⟩, .SetIndexBuffer ⟨3, 0, 0⟩ 1,
          .SetIndexBufferView ⟨9, 0⟩ 1] = some (b, mem') ∧
      mem' = { Memory.example with
        blocked := ([BuilderCall.SetVertexBufferView 2 ⟨7, 0⟩, .SetIndexBuffer ⟨3, 0, 0⟩ 1,
          .SetIndexBufferView ⟨9, 0⟩ 1].filterMap (BuilderCall.blocks Memory.example)).reverse ++
            Memory.example.blocked } ∧
      (∀ index view, index < 16 → ∃ b₁, b.SetVertexBufferView 16 mem' index view =
        some (b₁, mem'.BlockSequencedCpuBackingWrites (view.GetBuffer mem'))) ∧
      (∀ view indexType, ∃ b₁, b.SetIndexBufferView mem' view indexType =
        some (b₁, mem'.BlockSequencedCpuBackingWrites (view.GetBuffer mem'))) ∧
      (∀ index view, ∃ b₁, b.SetTransformFeedbackBufferView mem' index view =
        some (b₁, mem'.BlockSequencedCpuBackingWrites (view.GetBuffer mem'))) ∧
      (∀ index binding, index < 16 → ∃ b₁,
        StateUpdateBuilder.call 16 (b, mem') (.SetVertexBuffer index binding) =
          some (b₁, mem')) ∧
      (∀ binding indexType, ∃ b₁,
        StateUpdateBuilder.call 16 (b, mem') (.SetIndexBuffer binding indexType) =
          some (b₁, mem')) ∧
      (∀ index binding, ∃ b₁,
        StateUpdateBuilder.call 16 (b, mem') (.SetTransformFeedbackBuffer index binding) =
          some (b₁, mem')) ∧
      (∀ (u : StateUpdater) fuel arena w res, u.RecordAll 16 fuel arena w = some res →
        res.2.memory = w.memory) :=
  ⟨by decide, view_binds_block_during_builder_call 16 Memory.example _ (by decide)⟩

/-- C20: for every sequence of builder calls on a new builder (vertex stream indices below
`VertexStreamCount`, a `u32` constant) followed by `Build`, the list is produced and the
`SetVertexBuffer` calls, in call order, split into consecutive runs, one for each vertex batch
of the list, in list order.  A batch with `firstBinding` f and `bindingCount` n has n at least
one and f + n at most `VertexStreamCount`, its run has n calls, to the indices f, f + 1, ...,
f + n - 1 in this order, slot i of the batch (`buffers[i]` and `offsets[i]` for a batch of direct
binds, `views[i]` for a batch of view binds) holds the binding of the call of the run for the
index i, and in every world the record function of the batch makes one call of
`bindVertexBuffers` that binds, from the binding f on, the n buffers and offsets of the run. -/
theorem batch_holds_what_was_bound (N : Nat) (hN : N < 2 ^ 32) (mem : Memory)
    (cs : List BuilderCall) (hidx : ∀ c ∈ cs, c.indexInRange N = true) :
    ∃ u b mem', StateUpdateBuilder.buildAll N mem cs = some (u, b, mem') ∧
      (u.contents b.allocator).flatMap holderRun = cs.filterMap BuilderCall.vertexBind ∧
      ∀ rc ∈ u.contents b.allocator, ∀ c, rc.2 = .SetVertexBuffersDynamic c →
        c.base.bindingCount ≠ 0 ∧ c.base.firstBinding + c.base.bindingCount ≤ N ∧
        (holderRun rc).length = c.base.bindingCount ∧
        (holderRun rc).map VertexBind.index =
          List.range' c.base.firstBinding c.base.bindingCount ∧
        (List.range' c.base.firstBinding c.base.bindingCount).map (batchSlot rc.1 c) =
          (holderRun rc).map some ∧
        ∀ w : World, ∃ cmd', rc.1.call N rc.2 w =
          some (cmd', w.emit (.bindVertexBuffers c.base.firstBinding
            ((holderRun rc).map (VertexBind.buffer w.memory))
            ((holderRun rc).map (VertexBind.offset w.memory)))) := by
  obtain ⟨u, b, mem', hb, -, hruns, hbat, -⟩ :=
    StateUpdateBuilder.buildAll_batches N hN mem cs hidx
  refine ⟨u, b, mem', hb, hruns, ?_⟩
  intro rc hrc c hcmd
  obtain ⟨hok, hslots⟩ := hbat rc hrc c hcmd
  have hidxs := slots_index _ _ _ hslots
  refine ⟨hok.count, hok.le, ?_, hidxs, hslots, ?_⟩
  · have := congrArg List.length hidxs
    simpa using this
  · intro w
    rw [hcmd]
    exact hok.record_call hN hslots w

/-- C20, witness: direct binds to the indices 2 and 3, a view bind to the index 4 and a direct
bind to the index 1 on sixteen streams. -/
theorem batch_holds_what_was_bound_witness :
    16 < 2 ^ 32 ∧
    (∀ c ∈ [BuilderCall.SetVertexBuffer 2 ⟨7, 0, 0⟩, .SetVertexBuffer 3 ⟨8, 4, 0⟩,
        .SetVertexBufferView 4 ⟨9, 0⟩, .SetVertexBuffer 1 ⟨6, 0, 0⟩],
      c.indexInRange 16 = true) ∧
    ∃ u b mem', StateUpdateBuilder.buildAll 16 Memory.example
        [.SetVertexBuffer 2 ⟨7, 0, 0⟩, .SetVertexBuffer 3 ⟨8, 4, 0⟩,
          .SetVertexBufferView 4 ⟨9, 0⟩, .SetVertexBuffer 1 ⟨6, 0, 0⟩] = some (u, b, mem') ∧
      (u.contents b.allocator).flatMap holderRun =
        [BuilderCall.SetVertexBuffer 2 ⟨7, 0, 0⟩, .SetVertexBuffer 3 ⟨8, 4, 0⟩,
          .SetVertexBufferView 4 ⟨9, 0⟩,
          .SetVertexBuffer 1 ⟨6, 0, 0⟩].filterMap BuilderCall.vertexBind ∧
      ∀ rc ∈ u.contents b.allocator, ∀ c, rc.2 = .SetVertexBuffersDynamic c →
        c.base.bindingCount ≠ 0 ∧ c.base.firstBinding + c.base.bindingCount ≤ 16 ∧
        (holderRun rc).length = c.base.bindingCount ∧
        (holderRun rc).map VertexBind.index =
          List.range' c.base.firstBinding c.base.bindingCount ∧
        (List.range' c.base.firstBinding c.base.bindingCount).map (batchSlot rc.1 c) =
          (holderRun rc).map some ∧
        ∀ w : World, ∃ cmd', rc.1.call 16 rc.2 w =
          some (cmd', w.emit (.bindVertexBuffers c.base.firstBinding
            ((holderRun rc).map (VertexBind.buffer w.memory))
            ((holderRun rc).map (VertexBind.offset w.memory)))) :=
  ⟨by decide, by decide, batch_holds_what_was_bound 16 (by decide) Memory.example _
    (by decide)⟩

/-! ### Replay of view binds -/

/-- The slots of a batch of view binds hold views, and what its binds stand for in a memory
subsystem are the backings and the offsets of these views there. -/
theorem view_run {c : SetVertexBuffersDynamicCmdImpl} :
    ∀ (n f : Nat) (run : List VertexBind),
      (List.range' f n).map (batchSlot .SetVertexBuffersDynamicCmd c) = run.map some →
      ∃ vs : List BufferView, vs.length = n ∧ run = viewRun f vs ∧
        (∀ mem : Memory, run.map (VertexBind.buffer mem) =
          vs.map (fun v => mem.GetBacking (v.GetBuffer mem))) ∧
        ∀ mem : Memory, run.map (VertexBind.offset mem) = vs.map (fun v => v.GetOffset mem)
  | 0, f, run, h => by
    cases run with
    | nil => exact ⟨[], rfl, rfl, fun _ => rfl, fun _ => rfl⟩
    | cons b bs => simp at h
  | n + 1, f, run, h => by
    rw [List.range'_succ, List.map_cons] at h
    obtain ⟨b, bs', rfl, hb, hrest⟩ := map_some_eq_cons h
    obtain ⟨vs, hlen, hrun, hbuf, hoff⟩ := view_run n (f + 1) bs' hrest
    have hv : ∃ v, b = ⟨f, .view v⟩ := by
      unfold batchSlot at hb
      simp only at hb
      split at hb
      · rename_i v _
        exact ⟨v, by cases hb; rfl⟩
      · cases hb
    obtain ⟨v, rfl⟩ := hv
    refine ⟨v :: vs, by simp [hlen], ?_, ?_, ?_⟩
    · simp only [viewRun, List.length_cons, List.range'_succ, List.zipWith_cons_cons]
      rw [hrun]
      rfl
    · intro mem
      simp only [List.map_cons, hbuf mem]
      rfl
    · intro mem
      simp only [List.map_cons, hoff mem]
      rfl

/-- C12: view binds resolve their backing when they are replayed.  For every sequence of
builder calls on a new builder (vertex stream indices in range, `VertexStreamCount` a `u32`
constant), made with any memory subsystem, followed by `Build`: the list is produced, it holds
the holders of the calls other than `SetVertexBuffer` and vertex batches whose slots are the
`SetVertexBuffer` calls, and `RecordAll`, given at least as many passes as the list is long,
calls the record function of each holder in the world that the one before left.  In a world `w`
the record function of the holder of `SetIndexBuffer(view, type)` binds the backing of the
buffer of the view and the offset of the view as they are in `w`, with the index type given to
the builder; that of `SetTransformFeedbackBuffer(index, view)` binds them, and the size of the
view, to the binding `index`; and that of a batch of view binds holds views in its slots and
binds, from its first binding on, the backings and offsets of these views as they are in `w`. -/
theorem view_binds_resolve_at_replay (N : Nat) (hN : N < 2 ^ 32) (mem : Memory)
    (cs : List BuilderCall) (hidx : ∀ c ∈ cs, c.indexInRange N = true) :
    ∃ u b mem', StateUpdateBuilder.buildAll N mem cs = some (u, b, mem') ∧
      (u.contents b.allocator).filterMap holderOther = cs.filterMap BuilderCall.node ∧
      (u.contents b.allocator).flatMap holderRun = cs.filterMap BuilderCall.vertexBind ∧
      (∀ (fuel : Nat) (w : World), b.appended.length ≤ fuel →
        (u.RecordAll N fuel b.allocator w).map Prod.snd =
          (u.contents b.allocator).foldlM (holderRecord N) w) ∧
      (∀ (view : BufferView) (indexType : Nat) (w : World),
        (BuilderCall.node (.SetIndexBufferView view indexType)).bind (holderRecord N w) =
          some (w.emit (.bindIndexBuffer (w.memory.GetBacking (view.GetBuffer w.memory))
            (view.GetOffset w.memory) indexType))) ∧
      (∀ (index : Nat) (view : BufferView) (w : World),
        (BuilderCall.node (.SetTransformFeedbackBufferView index view)).bind
            (holderRecord N w) =
          some (w.emit (.bindTransformFeedbackBuffersEXT index
            (w.memory.GetBacking (view.GetBuffer w.memory)) (view.GetOffset w.memory)
            view.size))) ∧
      ∀ rc ∈ u.contents b.allocator, ∀ c,
        rc = (.SetVertexBuffersDynamicCmd, .SetVertexBuffersDynamic c) →
        ∃ vs : List BufferView, vs.length = c.base.bindingCount ∧
          holderRun rc = viewRun c.base.firstBinding vs ∧
          ∀ w : World, holderRecord N w rc =
            some (w.emit (.bindVertexBuffers c.base.firstBinding
              (vs.map (fun v => w.memory.GetBacking (v.GetBuffer w.memory)))
              (vs.map (fun v => v.GetOffset w.memory)))) := by
  obtain ⟨u, b, mem', hb, hoth, hruns, hbat, hrec⟩ :=
    StateUpdateBuilder.buildAll_batches N hN mem cs hidx
  refine ⟨u, b, mem', hb, hoth, hruns, hrec, fun _ _ _ => rfl, fun _ _ _ => rfl, ?_⟩
  intro rc hrc c hcmd
  obtain ⟨hok, hslots⟩ := hbat rc hrc c (by rw [hcmd])
  subst hcmd
  obtain ⟨vs, hlen, hrun, hbuf, hoff⟩ := view_run _ _ _ hslots
  refine ⟨vs, hlen, hrun, ?_⟩
  intro w
  obtain ⟨cmd', hcall⟩ := hok.record_call hN hslots w
  simp only [holderRecord, hcall, Option.map_some', hbuf, hoff]

/-- C12, witness: view binds of an index buffer, of vertex buffers to the indices 2 and 3 and of
a transform feedback buffer on sixteen streams. -/
theorem view_binds_resolve_at_replay_witness :
    16 < 2 ^ 32 ∧
    (∀ c ∈ [BuilderCall.SetIndexBufferView ⟨5, 0⟩ 1, .SetVertexBufferView 2 ⟨7, 0⟩,
        .SetVertexBufferView 3 ⟨8, 0⟩, .SetTransformFeedbackBufferView 1 ⟨9, 64⟩],
      c.indexInRange 16 = true) ∧
    ∃ u b mem', StateUpdateBuilder.buildAll 16 Memory.example
        [.SetIndexBufferView ⟨5, 0⟩ 1, .SetVertexBufferView 2 ⟨7, 0⟩,
          .SetVertexBufferView 3 ⟨8, 0⟩, .SetTransformFeedbackBufferView 1 ⟨9, 64⟩] =
          some (u, b, mem') ∧
      (u.contents b.allocator).filterMap holderOther =
        [BuilderCall.SetIndexBufferView ⟨5, 0⟩ 1, .SetVertexBufferView 2 ⟨7, 0⟩,
          .SetVertexBufferView 3 ⟨8, 0⟩,
          .SetTransformFeedbackBufferView 1 ⟨9, 64⟩].filterMap BuilderCall.node ∧
      (u.contents b.allocator).flatMap holderRun =
        [BuilderCall.SetIndexBufferView ⟨5, 0⟩ 1, .SetVertexBufferView 2 ⟨7, 0⟩,
          .SetVertexBufferView 3 ⟨8, 0⟩,
          .SetTransformFeedbackBufferView 1 ⟨9, 64⟩].filterMap BuilderCall.vertexBind ∧
      (∀ (fuel : Nat) (w : World), b.appended.length ≤ fuel →
        (u.RecordAll 16 fuel b.allocator w).map Prod.snd =
          (u.contents b.allocator).foldlM (holderRecord 16) w) ∧
      (∀ (view : BufferView) (indexType : Nat) (w : World),
        (BuilderCall.node (.SetIndexBufferView view indexType)).bind (holderRecord 16 w) =
          some (w.emit (.bindIndexBuffer (w.memory.GetBacking (view.GetBuffer w.memory))
            (view.GetOffset w.memory) indexType))) ∧
      (∀ (index : Nat) (view : BufferView) (w : World),
        (BuilderCall.node (.SetTransformFeedbackBufferView index view)).bind
            (holderRecord 16 w) =
          some (w.emit (.bindTransformFeedbackBuffersEXT index
            (w.memory.GetBacking (view.GetBuffer w.memory)) (view.GetOffset w.memory)
            view.size))) ∧
      ∀ rc ∈ u.contents b.allocator, ∀ c,
        rc = (.SetVertexBuffersDynamicCmd, .SetVertexBuffersDynamic c) →
        ∃ vs : List BufferView, vs.length = c.base.bindingCount ∧
          holderRun rc = viewRun c.base.firstBinding vs ∧
          ∀ w : World, holderRecord 16 w rc =
            some (w.emit (.bindVertexBuffers c.base.firstBinding
              (vs.map (fun v => w.memory.GetBacking (v.GetBuffer w.memory)))
              (vs.map (fun v => v.GetOffset w.memory)))) :=
  ⟨by decide, by decide, view_binds_resolve_at_replay 16 (by decide) Memory.example _
    (by decide)⟩

/-! ### Replay of descriptor set commands -/

/-- C18: replay of a descriptor set command whose `updateInfo` points to `info` and whose
dynamic bindings resolve to the buffer descriptors `descs`.  Without push descriptors, when
`dstSet` points to the handle `dst` and, if there are copies, `srcSet` points to the handle
`src`: `Record` is defined, its calls are, in this order, `updateDescriptorSets` with no
writes and the copies, made only if there are copies, `updateDescriptorSets` with the writes
and no copies, made only if there are writes, and `bindDescriptorSets` of `dst`; every write of
these calls has `dstSet` set to `dst` and every copy `dstSet` set to `dst` and `srcSet` set to
`src`, and is otherwise as in `info`.  With push descriptors `Record` is defined whatever
`dstSet` and `srcSet` are and makes one call, `pushDescriptorSetKHR` with the writes of `info`
unchanged. -/
theorem descriptor_set_replay_copies_first (c : SetDescriptorSetCmdImpl) (w : World)
    (ptr : Nat) (info : DescriptorUpdateInfo) (descs : List DescriptorBufferInfo)
    (hptr : c.updateInfo = some ptr) (hinfo : w.updateInfos[ptr]? = some info)
    (hdescs : resolveDynamicBindings w.memory 0 info.bufferDescDynamicBindings
      info.bufferDescs = some descs) :
    (∀ dst src : Nat, deref w.descriptorSets c.dstSet = some dst →
      (info.copies ≠ [] → deref w.descriptorSets c.srcSet = some src) →
      ∃ w', c.Record false w = some w' ∧
        w'.calls = w.calls ++
          (if info.copies = [] then []
            else [VkCall.updateDescriptorSets []
              (info.copies.map (fun copy => { copy with dstSet := dst, srcSet := src }))
              descs]) ++
          (if info.writes = [] then []
            else [VkCall.updateDescriptorSets
              (info.writes.map (fun write => { write with dstSet := dst })) [] descs]) ++
          [VkCall.bindDescriptorSets info.bindPoint info.pipelineLayout
            info.descriptorSetIndex dst]) ∧
      ∃ w', c.Record true w = some w' ∧
        w'.calls = w.calls ++ [VkCall.pushDescriptorSetKHR info.bindPoint info.pipelineLayout
          info.descriptorSetIndex info.writes descs] := by
  constructor
  · intro dst src hdst hsrc
    unfold deref at hdst hsrc
    cases hc : info.copies with
    | nil =>
      cases hw : info.writes with
      | nil =>
        simp [SetDescriptorSetCmdImpl.Record, hptr, deref, hinfo, hdescs, hc, hw, World.emit,
          hdst]
      | cons wr wrs =>
        simp [SetDescriptorSetCmdImpl.Record, hptr, deref, hinfo, hdescs, hc, hw, World.emit,
          hdst]
    | cons cp cps =>
      have hsrc' := hsrc (by simp [hc])
      cases hw : info.writes with
      | nil =>
        simp [SetDescriptorSetCmdImpl.Record, hptr, deref, hinfo, hdescs, hc, hw, World.emit,
          hdst, hsrc']
      | cons wr wrs =>
        simp [SetDescriptorSetCmdImpl.Record, hptr, deref, hinfo, hdescs, hc, hw, World.emit,
          hdst, hsrc']
  · simp [SetDescriptorSetCmdImpl.Record, hptr, deref, hinfo, hdescs, World.emit]

/-- C18, witness: a command with all three pointers set, in a world whose update info has one
copy, one write and one view to resolve. -/
theorem descriptor_set_replay_copies_first_witness :
    (⟨some 0, some 1, some 0⟩ : SetDescriptorSetCmdImpl).updateInfo = some 0 ∧
    World.descriptorExample.updateInfos[0]? = some DescriptorUpdateInfo.example ∧
    resolveDynamicBindings World.descriptorExample.memory 0
      DescriptorUpdateInfo.example.bufferDescDynamicBindings
      DescriptorUpdateInfo.example.bufferDescs = some [⟨7, 0, 4⟩] ∧
    (∀ dst src : Nat,
      deref World.descriptorExample.descriptorSets
        (⟨some 0, some 1, some 0⟩ : SetDescriptorSetCmdImpl).dstSet = some dst →
      (DescriptorUpdateInfo.example.copies ≠ [] →
        deref World.descriptorExample.descriptorSets
          (⟨some 0, some 1, some 0⟩ : SetDescriptorSetCmdImpl).srcSet = some src) →
      ∃ w', (⟨some 0, some 1, some 0⟩ : SetDescriptorSetCmdImpl).Record false
          World.descriptorExample = some w' ∧
        w'.calls = World.descriptorExample.calls ++
          (if DescriptorUpdateInfo.example.copies = [] then []
            else [VkCall.updateDescriptorSets []
              (DescriptorUpdateInfo.example.copies.map
                (fun copy => { copy with dstSet := dst, srcSet := src }))
              [⟨7, 0, 4⟩]]) ++
          (if DescriptorUpdateInfo.example.writes = [] then []
            else [VkCall.updateDescriptorSets
              (DescriptorUpdateInfo.example.writes.map
                (fun write => { write with dstSet := dst })) [] [⟨7, 0, 4⟩]]) ++
          [VkCall.bindDescriptorSets DescriptorUpdateInfo.example.bindPoint
            DescriptorUpdateInfo.example.pipelineLayout
            DescriptorUpdateInfo.example.descriptorSetIndex dst]) ∧
      ∃ w', (⟨some 0, some 1, some 0⟩ : SetDescriptorSetCmdImpl).Record true
          World.descriptorExample = some w' ∧
        w'.calls = World.descriptorExample.calls ++
          [VkCall.pushDescriptorSetKHR DescriptorUpdateInfo.example.bindPoint
            DescriptorUpdateInfo.example.pipelineLayout
            DescriptorUpdateInfo.example.descriptorSetIndex
            DescriptorUpdateInfo.example.writes [⟨7, 0, 4⟩]] :=
  ⟨rfl, rfl, rfl, descriptor_set_replay_copies_first ⟨some 0, some 1, some 0⟩
    World.descriptorExample 0 DescriptorUpdateInfo.example [⟨7, 0, 4⟩] rfl rfl rfl⟩

/-! ### `Nvdec::ProcessMethod` -/

/-- C19: `ProcessMethod(method, argument)`, for `u32` arguments with `method` within
`reg_array` and distinct register indices of `set_codec_id` and `execute` (they are case labels
of one `switch`), is defined; afterwards `reg_array[method]` is `argument << 8` as a 64-bit
value, which is `argument * 256`, every other register is as before, `Execute` was called if
and only if `method` is the index of `execute`, `SetTargetCodec` was called, with `argument`,
if and only if `method` is the index of `set_codec_id`, and no other call was made apart from
what `Execute` calls. -/
theorem ProcessMethod_writes_and_dispatches {C : Type} (m : CodecMethods C)
    (set_codec_id execute : Nat) (n : Nvdec C) (method argument : Nat)
    (hdistinct : set_codec_id ≠ execute) (hmethod : method < 2 ^ 32)
    (hargument : argument < 2 ^ 32) (hrange : method < n.reg_array.length) :
    ∃ n', n.ProcessMethod m set_codec_id execute method argument = some n' ∧
      n'.reg_array.length = n.reg_array.length ∧
      n'.reg_array[method]? = some (argument * 256) ∧
      (∀ i, i ≠ method → n'.reg_array[i]? = n.reg_array[i]?) ∧
      (∃ calls, n'.trace = n.trace ++ calls ∧
        (NvdecCall.Execute ∈ calls ↔ method = execute) ∧
        (∀ codec, NvdecCall.SetTargetCodec codec ∈ calls ↔
          method = set_codec_id ∧ codec = argument) ∧
        (method ≠ execute → NvdecCall.Decode ∉ calls ∧ NvdecCall.Unimplemented ∉ calls)) ∧
      (method = set_codec_id → n'.codec = m.SetTargetCodec n.codec argument) ∧
      (method ≠ set_codec_id → method ≠ execute → n'.codec = n.codec) := by
  have hm : u32 method = method := Nat.mod_eq_of_lt hmethod
  have ha : u32 argument = argument := Nat.mod_eq_of_lt hargument
  have hv : argument * 2 ^ 8 % 2 ^ 64 = argument * 256 := by
    apply Nat.mod_eq_of_lt
    omega
  unfold Nvdec.ProcessMethod
  simp only [hm, ha, hrange, if_true, hv]
  by_cases h₁ : method = set_codec_id
  · subst h₁
    refine ⟨_, by rw [if_pos rfl], by simp, by simp [hrange], ?_, ?_, ?_, ?_⟩
    · intro i hi
      simp [List.getElem?_set_ne (Ne.symm hi)]
    · exact ⟨[.SetTargetCodec argument], rfl, by simpa using hdistinct, by simp,
        by simp⟩
    · intro _
      rfl
    · intro h
      exact absurd rfl h
  · rw [if_neg h₁]
    by_cases h₂ : method = execute
    · subst h₂
      rw [if_pos rfl]
      refine ⟨_, rfl, ?_, ?_, ?_, ?_, ?_, ?_⟩
      · unfold Nvdec.Execute
        split <;> simp
      · unfold Nvdec.Execute
        split <;> simp [hrange]
      · intro i hi
        unfold Nvdec.Execute
        split <;> simp [List.getElem?_set_ne (Ne.symm hi)]
      · unfold Nvdec.Execute
        split
        · exact ⟨[.Execute, .Decode], rfl, by simp, by simp [h₁], by simp⟩
        · exact ⟨[.Execute, .Unimplemented], rfl, by simp, by simp [h₁], by simp⟩
      · intro h
        exact absurd h h₁
      · intro _ h
        exact absurd rfl h
    · rw [if_neg h₂]
      refine ⟨_, rfl, by simp, by simp [hrange], ?_, ?_, ?_, ?_⟩
      · intro i hi
        simp [List.getElem?_set_ne (Ne.symm hi)]
      · exact ⟨[], by simp, by simp [h₂], by simp [h₁], by simp⟩
      · intro h
        exact absurd h h₁
      · intro _ _
        rfl

/-- C19, witness: four registers, `set_codec_id` at the index 1 and `execute` at the index 2,
the method 2 with the argument 5. -/
theorem ProcessMethod_writes_and_dispatches_witness :
    (1 : Nat) ≠ 2 ∧ 2 < 2 ^ 32 ∧ 5 < 2 ^ 32 ∧
    2 < (⟨[0, 0, 0, 0], 3, []⟩ : Nvdec Nat).reg_array.length ∧
    ∃ n', (⟨[0, 0, 0, 0], 3, []⟩ : Nvdec Nat).ProcessMethod CodecMethods.example 1 2 2 5 =
        some n' ∧
      n'.reg_array.length = (⟨[0, 0, 0, 0], 3, []⟩ : Nvdec Nat).reg_array.length ∧
      n'.reg_array[2]? = some (5 * 256) ∧
      (∀ i, i ≠ 2 → n'.reg_array[i]? = (⟨[0, 0, 0, 0], 3, []⟩ : Nvdec Nat).reg_array[i]?) ∧
      (∃ calls, n'.trace = (⟨[0, 0, 0, 0], 3, []⟩ : Nvdec Nat).trace ++ calls ∧
        (NvdecCall.Execute ∈ calls ↔ 2 = 2) ∧
        (∀ codec, NvdecCall.SetTargetCodec codec ∈ calls ↔ 2 = 1 ∧ codec = 5) ∧
        (2 ≠ 2 → NvdecCall.Decode ∉ calls ∧ NvdecCall.Unimplemented ∉ calls)) ∧
      (2 = 1 → n'.codec = CodecMethods.example.SetTargetCodec
        (⟨[0, 0, 0, 0], 3, []⟩ : Nvdec Nat).codec 5) ∧
      (2 ≠ 1 → 2 ≠ 2 → n'.codec = (⟨[0, 0, 0, 0], 3, []⟩ : Nvdec Nat).codec) :=
  ⟨by decide, by decide, by decide, by decide,
    ProcessMethod_writes_and_dispatches CodecMethods.example 1 2 ⟨[0, 0, 0, 0], 3, []⟩ 2 5
      (by decide) (by decide) (by decide) (by decide)⟩

/-! ### `ShaderStage::BindingsEqual` -/

theorem ShaderStage.BindingsEqual_iff {D : Type} [DecidableEq D] (a b : ShaderStage D) :
    a.BindingsEqual b = true ↔
      a.info.constant_buffer_descriptors = b.info.constant_buffer_descriptors ∧
      a.info.storage_buffers_descriptors = b.info.storage_buffers_descriptors ∧
      a.info.texture_buffer_descriptors = b.info.texture_buffer_descriptors ∧
      a.info.image_buffer_descriptors = b.info.image_buffer_descriptors ∧
      a.info.texture_descriptors = b.info.texture_descriptors ∧
      a.info.image_descriptors = b.info.image_descriptors := by
  simp [ShaderStage.BindingsEqual, and_assoc]

theorem ShaderStage.BindingsEqual_comm {D : Type} [DecidableEq D] (a b : ShaderStage D) :
    a.BindingsEqual b = b.BindingsEqual a := by
  rw [Bool.eq_iff_iff, ShaderStage.BindingsEqual_iff, ShaderStage.BindingsEqual_iff]
  constructor <;>
  · rintro ⟨h₁, h₂, h₃, h₄, h₅, h₆⟩
    exact ⟨h₁.symm, h₂.symm, h₃.symm, h₄.symm, h₅.symm, h₆.symm⟩

/-- C25: `BindingsEqual` is reflexive, symmetric and transitive, and it holds of two stages if
and only if they agree on the six descriptor lists of their info (constant buffer, storage
buffer, texture buffer, image buffer, texture and image descriptors); hence stages that agree
on these lists are equal under it whatever their stage flag, module and other info members
are.  The descriptor types are compared with an equality that is decidable. -/
theorem BindingsEqual_equivalence_on_descriptor_lists {D : Type} [DecidableEq D] :
    (∀ a : ShaderStage D, a.BindingsEqual a = true) ∧
    (∀ a b : ShaderStage D, a.BindingsEqual b = true → b.BindingsEqual a = true) ∧
    (∀ a b c : ShaderStage D, a.BindingsEqual b = true → b.BindingsEqual c = true →
      a.BindingsEqual c = true) ∧
    (∀ a b : ShaderStage D, a.BindingsEqual b = true ↔
      a.info.constant_buffer_descriptors = b.info.constant_buffer_descriptors ∧
      a.info.storage_buffers_descriptors = b.info.storage_buffers_descriptors ∧
      a.info.texture_buffer_descriptors = b.info.texture_buffer_descriptors ∧
      a.info.image_buffer_descriptors = b.info.image_buffer_descriptors ∧
      a.info.texture_descriptors = b.info.texture_descriptors ∧
      a.info.image_descriptors = b.info.image_descriptors) ∧
    (∀ (stage module rest stage' module' rest' : Nat) (l₁ l₂ l₃ l₄ l₅ l₆ : List D),
      (⟨stage, module, ⟨l₁, l₂, l₃, l₄, l₅, l₆, rest⟩⟩ : ShaderStage D).BindingsEqual
        ⟨stage', module', ⟨l₁, l₂, l₃, l₄, l₅, l₆, rest'⟩⟩ = true) := by
  refine ⟨?_, ?_, ?_, ShaderStage.BindingsEqual_iff, ?_⟩
  · intro a
    simp [ShaderStage.BindingsEqual]
  · intro a b h
    rw [ShaderStage.BindingsEqual_comm]
    exact h
  · intro a b c hab hbc
    rw [ShaderStage.BindingsEqual_iff] at hab hbc ⊢
    obtain ⟨h₁, h₂, h₃, h₄, h₅, h₆⟩ := hab
    obtain ⟨g₁, g₂, g₃, g₄, g₅, g₆⟩ := hbc
    exact ⟨h₁.trans g₁, h₂.trans g₂, h₃.trans g₃, h₄.trans g₄, h₅.trans g₅, h₆.trans g₆⟩
  · intros
    simp [ShaderStage.BindingsEqual]

/-! ### `Pipeline::CheckBindingMatch` -/

theorem zipWith_all_comm {D : Type} [DecidableEq D] :
    ∀ (l₁ l₂ : List (ShaderStage D)),
      (List.zipWith ShaderStage.BindingsEqual l₁ l₂).all id =
        (List.zipWith ShaderStage.BindingsEqual l₂ l₁).all id
  | [], [] => rfl
  | [], _ :: _ => rfl
  | _ :: _, [] => rfl
  | a :: l₁, b :: l₂ => by
    simp only [List.zipWith_cons_cons, List.all_cons, id]
    rw [ShaderStage.BindingsEqual_comm a b, zipWith_all_comm l₁ l₂]

theorem zipWith_all_iff {D : Type} [DecidableEq D] :
    ∀ (l₁ l₂ : List (ShaderStage D)),
      (List.zipWith ShaderStage.BindingsEqual l₁ l₂).all id = true ↔
        ∀ (i : Nat) (s t : ShaderStage D), l₁[i]? = some s → l₂[i]? = some t →
          s.BindingsEqual t = true
  | [], l₂ => by simp
  | _ :: _, [] => by simp
  | a :: l₁, b :: l₂ => by
    simp only [List.zipWith_cons_cons, List.all_cons, id, Bool.and_eq_true,
      zipWith_all_iff l₁ l₂]
    constructor
    · rintro ⟨h₀, h⟩ i s t hs ht
      cases i with
      | zero =>
        simp only [List.getElem?_cons_zero, Option.some.injEq] at hs ht
        subst hs ht
        exact h₀
      | succ i =>
        simp only [List.getElem?_cons_succ] at hs ht
        exact h i s t hs ht
    · intro h
      exact ⟨h 0 a b (by simp) (by simp), fun i s t hs ht => h (i + 1) s t (by simpa using hs)
        (by simpa using ht)⟩

theorem Pipeline.stagesMatch_comm {D K : Type} [DecidableEq D] (p q : Pipeline D K) :
    p.stagesMatch q = q.stagesMatch p :=
  zipWith_all_comm _ _

theorem Pipeline.stagesMatch_congr {D K : Type} [DecidableEq D] {p p' q q' : Pipeline D K}
    (hp : p'.shaderStages = p.shaderStages) (hq : q'.shaderStages = q.shaderStages) :
    p'.stagesMatch q' = p.stagesMatch q := by
  unfold Pipeline.stagesMatch
  rw [hp, hq]

theorem lookup_mem {α β : Type} [BEq α] [LawfulBEq α] :
    ∀ (l : List (α × β)) (k : α) (v : β), l.lookup k = some v → (k, v) ∈ l
  | [], _, _, h => by simp at h
  | (k', v') :: l, k, v, h => by
    rw [List.lookup_cons] at h
    by_cases hk : k == k'
    · rw [hk] at h
      simp only [Option.some.injEq] at h
      subst h
      rw [eq_of_beq hk]
      exact List.mem_cons_self _ _
    · simp only [hk] at h
      exact List.mem_cons_of_mem _ (lookup_mem l k v h)

theorem MatchCacheOK_of_empty {D K : Type} [DecidableEq D] (heap : List (Pipeline D K))
    (h : ∀ p ∈ heap, p.bindingMatchCache = []) : MatchCacheOK heap := by
  intro a p hp b r hbr
  rw [h p (List.getElem?_mem hp)] at hbr
  simp at hbr

theorem SameStages.get {D K : Type} {heap heap' : List (Pipeline D K)}
    (h : SameStages heap heap') {x : Nat} {p : Pipeline D K} (hp : heap[x]? = some p) :
    ∃ p', heap'[x]? = some p' ∧ p'.shaderStages = p.shaderStages := by
  have := h x
  rw [hp] at this
  cases h' : heap'[x]? with
  | none => simp [h'] at this
  | some p' =>
    rw [h'] at this
    exact ⟨p', rfl, by simpa using this⟩

/-- A call answered from the memoization table. -/
theorem Pipeline.CheckBindingMatch_hit {D K : Type} [DecidableEq D]
    {heap : List (Pipeline D K)} {a b : PipelinePtr} {r : Bool} {q : Pipeline D K}
    (hm : Memo heap a b r) (hq : heap[b]? = some q) :
    Pipeline.CheckBindingMatch heap a b = some (r, heap) := by
  obtain ⟨p, hp, hl⟩ := hm
  simp [Pipeline.CheckBindingMatch, hp, hq, hl]

/-- What a call of `CheckBindingMatch` does on a heap whose memoized results are right. -/
theorem Pipeline.CheckBindingMatch_spec {D K : Type} [DecidableEq D]
    {heap : List (Pipeline D K)} {a b : PipelinePtr} {pa pb : Pipeline D K}
    (hok : MatchCacheOK heap) (ha : heap[a]? = some pa) (hb : heap[b]? = some pb) :
    ∃ heap', Pipeline.CheckBindingMatch heap a b = some (pa.stagesMatch pb, heap') ∧
      MatchCacheOK heap' ∧ Memo heap' a b (pa.stagesMatch pb) ∧
      (∀ x c r, Memo heap x c r → Memo heap' x c r) ∧ SameStages heap heap' := by
  cases hl : pa.bindingMatchCache.lookup b with
  | some r =>
    obtain ⟨q, hq, hr⟩ := hok a pa ha b r (lookup_mem _ _ _ hl)
    rw [hb] at hq
    cases hq
    subst hr
    exact ⟨heap, Pipeline.CheckBindingMatch_hit ⟨pa, ha, hl⟩ hb, hok, ⟨pa, ha, hl⟩,
      fun _ _ _ h => h, fun _ => rfl⟩
  | none =>
    have hlt : a < heap.length := (List.getElem?_eq_some_iff.mp ha).1
    have hst : SameStages heap (heap.set a { pa with
        bindingMatchCache := (b, pa.stagesMatch pb) :: pa.bindingMatchCache }) := by
      intro x
      by_cases hx : a = x
      · subst hx
        simp [List.getElem?_set_self hlt, ha]
      · rw [List.getElem?_set_ne hx]
    refine ⟨_, by simp [Pipeline.CheckBindingMatch, ha, hb, hl], ?_, ?_, ?_, hst⟩
    · intro x p hp c r hcr
      by_cases hx : a = x
      · subst hx
        rw [List.getElem?_set_self hlt] at hp
        cases hp
        simp only [List.mem_cons, Prod.mk.injEq] at hcr
        rcases hcr with ⟨rfl, rfl⟩ | hcr
        · obtain ⟨q', hq', hs⟩ := hst.get hb
          exact ⟨q', hq', Pipeline.stagesMatch_congr rfl hs.symm ▸ rfl⟩
        · obtain ⟨q, hq, hr⟩ := hok a pa ha c r hcr
          obtain ⟨q', hq', hs⟩ := hst.get hq
          refine ⟨q', hq', ?_⟩
          rw [hr]
          exact (Pipeline.stagesMatch_congr rfl hs).symm
      · rw [List.getElem?_set_ne hx] at hp
        obtain ⟨q, hq, hr⟩ := hok x p hp c r hcr
        obtain ⟨q', hq', hs⟩ := hst.get hq
        refine ⟨q', hq', ?_⟩
        rw [hr]
        exact (Pipeline.stagesMatch_congr rfl hs).symm
    · exact ⟨_, List.getElem?_set_self hlt, by simp⟩
    · rintro x c r ⟨p, hp, hpl⟩
      by_cases hx : a = x
      · subst hx
        rw [ha] at hp
        cases hp
        refine ⟨_, List.getElem?_set_self hlt, ?_⟩
        have hcb : c ≠ b := by
          rintro rfl
          rw [hl] at hpl
          cases hpl
        have hcb' : (c == b) = false := by simpa using hcb
        simpa [List.lookup_cons, hcb'] using hpl
      · exact ⟨p, by rw [List.getElem?_set_ne hx]; exact hp, hpl⟩

theorem Pipeline.CheckBindingMatchAll_ok {D K : Type} [DecidableEq D] :
    ∀ (calls : List (PipelinePtr × PipelinePtr)) (heap heap' : List (Pipeline D K)),
      MatchCacheOK heap → Pipeline.CheckBindingMatchAll heap calls = some heap' →
      MatchCacheOK heap'
  | [], heap, heap', hok, h => by
    simp only [Pipeline.CheckBindingMatchAll, Option.some.injEq] at h
    subst h
    exact hok
  | c :: cs, heap, heap', hok, h => by
    simp only [Pipeline.CheckBindingMatchAll] at h
    split at h
    · cases h
    · rename_i r hr
      refine Pipeline.CheckBindingMatchAll_ok cs r.2 heap' ?_ h
      unfold Pipeline.CheckBindingMatch at hr
      split at hr
      · rename_i p q hp hq
        obtain ⟨heap₁, h₁, hok₁, -⟩ := Pipeline.CheckBindingMatch_spec hok hp hq
        have : Pipeline.CheckBindingMatch heap c.1 c.2 = some r := by
          unfold Pipeline.CheckBindingMatch
          rw [hp, hq]
          exact hr
        rw [h₁] at this
        cases this
        exact hok₁
      · cases hr

/-- C13: on a heap of pipelines reached from one with empty binding match caches by any calls of
`CheckBindingMatch`, for pipelines A at `a` and B at `b`: `CheckBindingMatch(A, B)` and then
`CheckBindingMatch(B, A)` return the same value; the calls repeated afterwards return this
value again and leave the heap as it is, being answered from the memoization table; and the
value is true exactly when every shader stage of A has bindings equal, by `BindingsEqual`, to
the same stage of B. -/
theorem CheckBindingMatch_symmetric_and_stable {D K : Type} [DecidableEq D]
    (heap₀ heap : List (Pipeline D K)) (calls : List (PipelinePtr × PipelinePtr))
    (a b : PipelinePtr) (pa pb : Pipeline D K)
    (hempty : ∀ p ∈ heap₀, p.bindingMatchCache = [])
    (hcalls : Pipeline.CheckBindingMatchAll heap₀ calls = some heap)
    (ha : heap[a]? = some pa) (hb : heap[b]? = some pb) :
    ∃ heap₁ heap₂,
      Pipeline.CheckBindingMatch heap a b = some (pa.stagesMatch pb, heap₁) ∧
      Pipeline.CheckBindingMatch heap₁ b a = some (pa.stagesMatch pb, heap₂) ∧
      Pipeline.CheckBindingMatch heap₂ a b = some (pa.stagesMatch pb, heap₂) ∧
      Pipeline.CheckBindingMatch heap₂ b a = some (pa.stagesMatch pb, heap₂) ∧
      (pa.stagesMatch pb = true ↔
        ∀ (i : Nat) (s t : ShaderStage D), pa.shaderStages[i]? = some s →
          pb.shaderStages[i]? = some t → s.BindingsEqual t = true) := by
  have hok := Pipeline.CheckBindingMatchAll_ok calls heap₀ heap
    (MatchCacheOK_of_empty heap₀ hempty) hcalls
  obtain ⟨heap₁, h₁, hok₁, hm₁, -, hs₁⟩ := Pipeline.CheckBindingMatch_spec hok ha hb
  obtain ⟨pa₁, ha₁, hsa₁⟩ := hs₁.get ha
  obtain ⟨pb₁, hb₁, hsb₁⟩ := hs₁.get hb
  obtain ⟨heap₂, h₂, -, hm₂, hmono₂, hs₂⟩ := Pipeline.CheckBindingMatch_spec hok₁ hb₁ ha₁
  have hr : pb₁.stagesMatch pa₁ = pa.stagesMatch pb := by
    rw [Pipeline.stagesMatch_congr hsb₁ hsa₁, Pipeline.stagesMatch_comm]
  rw [hr] at h₂ hm₂
  obtain ⟨pa₂, ha₂, -⟩ := hs₂.get ha₁
  obtain ⟨pb₂, hb₂, -⟩ := hs₂.get hb₁
  exact ⟨heap₁, heap₂, h₁, h₂, Pipeline.CheckBindingMatch_hit (hmono₂ _ _ _ hm₁) hb₂,
    Pipeline.CheckBindingMatch_hit hm₂ ha₂, zipWith_all_iff _ _⟩

/-- C13, witness: three pipelines with empty caches, one call made before, and the calls on the
first and the third pipeline, whose stages have equal bindings. -/
theorem CheckBindingMatch_symmetric_and_stable_witness :
    (∀ p ∈ [Pipeline.example [1, 2], Pipeline.example [3], Pipeline.example [1, 2]],
      p.bindingMatchCache = []) ∧
    Pipeline.CheckBindingMatchAll
      [Pipeline.example [1, 2], Pipeline.example [3], Pipeline.example [1, 2]] [(1, 0)] =
      some ([Pipeline.example [1, 2], Pipeline.example [3], Pipeline.example [1, 2]].set 1
        { Pipeline.example [3] with bindingMatchCache := [(0, false)] }) ∧
    ([Pipeline.example [1, 2], Pipeline.example [3], Pipeline.example [1, 2]].set 1
      { Pipeline.example [3] with bindingMatchCache := [(0, false)] })[0]? =
      some (Pipeline.example [1, 2]) ∧
    ([Pipeline.example [1, 2], Pipeline.example [3], Pipeline.example [1, 2]].set 1
      { Pipeline.example [3] with bindingMatchCache := [(0, false)] })[2]? =
      some (Pipeline.example [1, 2]) ∧
    ∃ heap₁ heap₂,
      Pipeline.CheckBindingMatch
        ([Pipeline.example [1, 2], Pipeline.example [3], Pipeline.example [1, 2]].set 1
          { Pipeline.example [3] with bindingMatchCache := [(0, false)] }) 0 2 =
        some ((Pipeline.example [1, 2]).stagesMatch (Pipeline.example [1, 2]), heap₁) ∧
      Pipeline.CheckBindingMatch heap₁ 2 0 =
        some ((Pipeline.example [1, 2]).stagesMatch (Pipeline.example [1, 2]), heap₂) ∧
      Pipeline.CheckBindingMatch heap₂ 0 2 =
        some ((Pipeline.example [1, 2]).stagesMatch (Pipeline.example [1, 2]), heap₂) ∧
      Pipeline.CheckBindingMatch heap₂ 2 0 =
        some ((Pipeline.example [1, 2]).stagesMatch (Pipeline.example [1, 2]), heap₂) ∧
      ((Pipeline.example [1, 2]).stagesMatch (Pipeline.example [1, 2]) = true ↔
        ∀ (i : Nat) (s t : ShaderStage Nat), (Pipeline.example [1, 2]).shaderStages[i]? = some s →
          (Pipeline.example [1, 2]).shaderStages[i]? = some t → s.BindingsEqual t = true) :=
  ⟨by decide, rfl, rfl, rfl,
    CheckBindingMatch_symmetric_and_stable
      [Pipeline.example [1, 2], Pipeline.example [3], Pipeline.example [1, 2]] _ [(1, 0)] 0 2
      (Pipeline.example [1, 2]) (Pipeline.example [1, 2]) (by decide) rfl rfl rfl⟩

/-! ### The transition cache -/

theorem scanTransitionCache_congr {D K : Type} [DecidableEq K] {heap heap' : List (Pipeline D K)}
    (h : SameKeys heap heap') (k : K) :
    ∀ cache, scanTransitionCache heap' k cache = scanTransitionCache heap k cache
  | [] => rfl
  | none :: rest => by
    simp only [scanTransitionCache]
    exact scanTransitionCache_congr h k rest
  | some q :: rest => by
    simp only [scanTransitionCache]
    have := h q
    cases h₁ : heap[q]? with
    | none =>
      rw [h₁] at this
      cases h₂ : heap'[q]? with
      | none => rfl
      | some t => simp [h₂] at this
    | some t =>
      rw [h₁] at this
      cases h₂ : heap'[q]? with
      | none => simp [h₂] at this
      | some t' =>
        rw [h₂] at this
        simp only [Option.map_some', Option.some.injEq] at this
        simp only [this, scanTransitionCache_congr h k rest]

theorem Pipeline.AddTransitions_spec {D K : Type} (self : PipelinePtr) :
    ∀ (ts : List PipelinePtr) (heap : List (Pipeline D K)) (p : Pipeline D K),
      heap[self]? = some p → p.transitionCacheNextIdx < p.transitionCache.length →
      ∃ heap' p', Pipeline.AddTransitions self heap ts = some heap' ∧
        heap'[self]? = some p' ∧
        (p'.transitionCache, p'.transitionCacheNextIdx) =
          ts.foldl ringAdd (p.transitionCache, p.transitionCacheNextIdx) ∧
        SameKeys heap heap'
  | [], heap, p, hp, _ => ⟨heap, p, rfl, hp, rfl, fun _ => rfl⟩
  | t :: ts, heap, p, hp, hidx => by
    have hlt : self < heap.length := (List.getElem?_eq_some_iff.mp hp).1
    have hpos : 0 < p.transitionCache.length := by omega
    obtain ⟨heap', p', h', hp', hring, hkeys⟩ := Pipeline.AddTransitions_spec self ts
      (heap.set self { p with
        transitionCache := p.transitionCache.set p.transitionCacheNextIdx (some t)
        transitionCacheNextIdx := (p.transitionCacheNextIdx + 1) % p.transitionCache.length })
      _ (List.getElem?_set_self hlt) (by simpa using Nat.mod_lt _ hpos)
    refine ⟨heap', p', ?_, hp', ?_, ?_⟩
    · simp only [Pipeline.AddTransitions, Pipeline.AddTransition, hp, hidx, if_true]
      exact h'
    · rw [hring]
      rfl
    · intro x
      rw [hkeys x]
      by_cases hx : self = x
      · subst hx
        simp [List.getElem?_set_self hlt, hp]
      · rw [List.getElem?_set_ne hx]

theorem Pipeline.LookupNext_eq {D K : Type} [DecidableEq K] {heap heap' : List (Pipeline D K)}
    {self : PipelinePtr} {p' : Pipeline D K} (hp' : heap'[self]? = some p')
    (hkeys : SameKeys heap heap') (k : K) :
    Pipeline.LookupNext heap' self k =
      (scanTransitionCache heap k p'.transitionCache).map (fun r => (r, heap')) := by
  simp only [Pipeline.LookupNext, hp', scanTransitionCache_congr hkeys]

/-- C14: the transition cache is a ring of four entries in which the oldest entry is replaced.
On a pipeline whose ring has four entries and a next index within them, after `AddTransition`
with five pipelines of pairwise distinct source states, in sequence: `LookupNext` with the
source state of the first one returns null, `LookupNext` with the source state of each of the
four later ones returns that pipeline, and every one of these calls leaves the heap, so the
ring and its next index, as it is.  Hence a further `AddTransition` after the hits replaces the
second pipeline, the oldest in the ring, although it was hit. -/
theorem transition_cache_is_four_entry_ring {D K : Type} [DecidableEq K]
    (heap : List (Pipeline D K)) (self : PipelinePtr) (p : Pipeline D K)
    (t₁ t₂ t₃ t₄ t₅ : PipelinePtr) (q₁ q₂ q₃ q₄ q₅ : Pipeline D K)
    (hself : heap[self]? = some p) (hlen : p.transitionCache.length = 4)
    (hidx : p.transitionCacheNextIdx < 4)
    (h₁ : heap[t₁]? = some q₁) (h₂ : heap[t₂]? = some q₂) (h₃ : heap[t₃]? = some q₃)
    (h₄ : heap[t₄]? = some q₄) (h₅ : heap[t₅]? = some q₅)
    (hkeys : [q₁.sourcePackedState, q₂.sourcePackedState, q₃.sourcePackedState,
      q₄.sourcePackedState, q₅.sourcePackedState].Nodup) :
    ∃ heap', Pipeline.AddTransitions self heap [t₁, t₂, t₃, t₄, t₅] = some heap' ∧
      Pipeline.LookupNext heap' self q₁.sourcePackedState = some (none, heap') ∧
      Pipeline.LookupNext heap' self q₂.sourcePackedState = some (some t₂, heap') ∧
      Pipeline.LookupNext heap' self q₃.sourcePackedState = some (some t₃, heap') ∧
      Pipeline.LookupNext heap' self q₄.sourcePackedState = some (some t₄, heap') ∧
      Pipeline.LookupNext heap' self q₅.sourcePackedState = some (some t₅, heap') ∧
      ∃ heap'', Pipeline.AddTransition heap' self t₁ = some heap'' ∧
        Pipeline.LookupNext heap'' self q₂.sourcePackedState = some (none, heap'') ∧
        Pipeline.LookupNext heap'' self q₁.sourcePackedState = some (some t₁, heap'') := by
  obtain ⟨heap', p', hadd, hp', hring, hk⟩ := Pipeline.AddTransitions_spec self
    [t₁, t₂, t₃, t₄, t₅] heap p hself (by omega)
  have hidx' : p'.transitionCacheNextIdx < p'.transitionCache.length := by
    have h₁ := congrArg (fun r => r.1.length) hring
    have h₂ := congrArg Prod.snd hring
    simp only [List.foldl_cons, List.foldl_nil, ringAdd, List.length_set] at h₁ h₂
    rw [h₁, h₂, hlen]
    exact Nat.mod_lt _ (by decide)
  obtain ⟨heap'', p'', hadd', hp'', hring', hk'⟩ := Pipeline.AddTransitions_spec self
    [t₁] heap' p' hp' hidx'
  have hk'' : SameKeys heap heap'' := fun x => (hk' x).trans (hk x)
  have hadd'' : Pipeline.AddTransition heap' self t₁ = some heap'' := by
    simp only [Pipeline.AddTransitions] at hadd'
    split at hadd'
    · cases hadd'
    · rename_i h _ hh
      simp only [Option.some.injEq] at hadd'
      rw [hh, hadd']
  simp only [Prod.ext_iff] at hring hring'
  obtain ⟨hc, hi⟩ := hring
  obtain ⟨hc', -⟩ := hring'
  simp only [List.foldl_cons, List.foldl_nil] at hc hi hc'
  rw [hc, hi] at hc'
  simp only [List.nodup_cons, List.mem_cons, List.mem_singleton, not_or, List.not_mem_nil,
    not_false_eq_true, List.nodup_nil, and_true] at hkeys
  obtain ⟨⟨k₁₂, k₁₃, k₁₄, k₁₅⟩, ⟨k₂₃, k₂₄, k₂₅⟩, ⟨k₃₄, k₃₅⟩, k₄₅⟩ := hkeys
  refine ⟨heap', hadd, ?_, ?_, ?_, ?_, ?_, heap'', hadd'', ?_, ?_⟩
  all_goals
    first
    | rw [Pipeline.LookupNext_eq hp' hk, hc]
    | rw [Pipeline.LookupNext_eq hp'' hk'', hc']
  all_goals
    match hcache : p.transitionCache, hlen with
    | [c₀, c₁, c₂, c₃], _ =>
      have hcases : p.transitionCacheNextIdx = 0 ∨ p.transitionCacheNextIdx = 1 ∨
          p.transitionCacheNextIdx = 2 ∨ p.transitionCacheNextIdx = 3 := by omega
      rcases hcases with h | h | h | h <;> rw [h] <;>
      simp [ringAdd, scanTransitionCache, h₁, h₂, h₃, h₄, h₅, k₁₂, k₁₃, k₁₄, k₁₅, k₂₃, k₂₄,
        k₂₅, k₃₄, k₃₅, k₄₅, Ne.symm k₁₂, Ne.symm k₁₃, Ne.symm k₁₄, Ne.symm k₁₅, Ne.symm k₂₃,
        Ne.symm k₂₄, Ne.symm k₂₅, Ne.symm k₃₄, Ne.symm k₃₅, Ne.symm k₄₅]

/-- C14, witness: transitions from the pipeline at the address 0 to the pipelines at the
addresses 1 to 5. -/
theorem transition_cache_is_four_entry_ring_witness :
    Pipeline.exampleHeap[0]? = some (Pipeline.withKey 0) ∧
    (Pipeline.withKey 0).transitionCache.length = 4 ∧
    (Pipeline.withKey 0).transitionCacheNextIdx < 4 ∧
    Pipeline.exampleHeap[1]? = some (Pipeline.withKey 1) ∧
    Pipeline.exampleHeap[2]? = some (Pipeline.withKey 2) ∧
    Pipeline.exampleHeap[3]? = some (Pipeline.withKey 3) ∧
    Pipeline.exampleHeap[4]? = some (Pipeline.withKey 4) ∧
    Pipeline.exampleHeap[5]? = some (Pipeline.withKey 5) ∧
    [(Pipeline.withKey 1).sourcePackedState, (Pipeline.withKey 2).sourcePackedState,
      (Pipeline.withKey 3).sourcePackedState, (Pipeline.withKey 4).sourcePackedState,
      (Pipeline.withKey 5).sourcePackedState].Nodup ∧
    ∃ heap', Pipeline.AddTransitions 0 Pipeline.exampleHeap [1, 2, 3, 4, 5] = some heap' ∧
      Pipeline.LookupNext heap' 0 (Pipeline.withKey 1).sourcePackedState = some (none, heap') ∧
      Pipeline.LookupNext heap' 0 (Pipeline.withKey 2).sourcePackedState =
        some (some 2, heap') ∧
      Pipeline.LookupNext heap' 0 (Pipeline.withKey 3).sourcePackedState =
        some (some 3, heap') ∧
      Pipeline.LookupNext heap' 0 (Pipeline.withKey 4).sourcePackedState =
        some (some 4, heap') ∧
      Pipeline.LookupNext heap' 0 (Pipeline.withKey 5).sourcePackedState =
        some (some 5, heap') ∧
      ∃ heap'', Pipeline.AddTransition heap' 0 1 = some heap'' ∧
        Pipeline.LookupNext heap'' 0 (Pipeline.withKey 2).sourcePackedState =
          some (none, heap'') ∧
        Pipeline.LookupNext heap'' 0 (Pipeline.withKey 1).sourcePackedState =
          some (some 1, heap'') :=
  ⟨rfl, rfl, by decide, rfl, rfl, rfl, rfl, rfl, by decide,
    transition_cache_is_four_entry_ring Pipeline.exampleHeap 0 (Pipeline.withKey 0) 1 2 3 4 5
      (Pipeline.withKey 1) (Pipeline.withKey 2) (Pipeline.withKey 3) (Pipeline.withKey 4)
      (Pipeline.withKey 5) rfl rfl (by decide) rfl rfl rfl rfl rfl (by decide)⟩

/-! ### Resolution of the dynamic bindings -/

theorem resolveDynamicBindings_spec (mem : Memory) :
    ∀ (bindings : List DynamicBufferBinding) (i : Nat) (descs : List DescriptorBufferInfo),
      i + bindings.length ≤ descs.length →
      ∃ descs', resolveDynamicBindings mem i bindings descs = some descs' ∧
        descs'.length = descs.length ∧
        ∀ j, descs'[j]? =
          if j < i then descs[j]? else
            match bindings[j - i]? with
            | some (.view v) => some ⟨mem.GetBacking (v.GetBuffer mem), v.GetOffset mem, v.size⟩
            | some (.binding b) => some ⟨b.buffer, b.offset, b.size⟩
            | _ => descs[j]?
  | [], i, descs, _ => ⟨descs, rfl, rfl, fun j => by simp⟩
  | e :: rest, i, descs, h => by
    have hi : i < descs.length := by
      simp only [List.length_cons] at h
      omega
    have step : ∀ descs₁ : List DescriptorBufferInfo, descs₁.length = descs.length →
        (∀ j, j ≠ i → descs₁[j]? = descs[j]?) →
        (descs₁[i]? = match e with
          | .view v => some ⟨mem.GetBacking (v.GetBuffer mem), v.GetOffset mem, v.size⟩
          | .binding b => some ⟨b.buffer, b.offset, b.size⟩
          | .other => descs[i]?) →
        ∃ descs', resolveDynamicBindings mem (i + 1) rest descs₁ = some descs' ∧
          descs'.length = descs.length ∧
          ∀ j, descs'[j]? =
            if j < i then descs[j]? else
              match (e :: rest)[j - i]? with
              | some (.view v) =>
                some ⟨mem.GetBacking (v.GetBuffer mem), v.GetOffset mem, v.size⟩
              | some (.binding b) => some ⟨b.buffer, b.offset, b.size⟩
              | _ => descs[j]? := by
      intro descs₁ hlen hne hat
      obtain ⟨descs', hres, hlen', hget⟩ := resolveDynamicBindings_spec mem rest (i + 1) descs₁
        (by simp only [List.length_cons] at h; omega)
      refine ⟨descs', hres, hlen'.trans hlen, ?_⟩
      intro j
      rw [hget j]
      by_cases hji : j < i
      · rw [if_pos (by omega), if_pos hji, hne j (by omega)]
      · rw [if_neg hji]
        by_cases hji' : j = i
        · subst hji'
          rw [if_pos (by omega), hat]
          simp only [Nat.sub_self, List.getElem?_cons_zero]
          cases e <;> rfl
        · rw [if_neg (by omega)]
          have : j - i = (j - (i + 1)) + 1 := by omega
          rw [this, List.getElem?_cons_succ, hne j hji']
    cases e with
    | view v =>
      obtain ⟨descs', hres, rest'⟩ := step (descs.set i _) (by simp)
        (fun j hj => List.getElem?_set_ne (Ne.symm hj)) (List.getElem?_set_self hi)
      exact ⟨descs', by simp only [resolveDynamicBindings, hi, if_true]; exact hres, rest'⟩
    | binding b =>
      obtain ⟨descs', hres, rest'⟩ := step (descs.set i _) (by simp)
        (fun j hj => List.getElem?_set_ne (Ne.symm hj)) (List.getElem?_set_self hi)
      exact ⟨descs', by simp only [resolveDynamicBindings, hi, if_true]; exact hres, rest'⟩
    | other =>
      obtain ⟨descs', hres, rest'⟩ := step descs rfl (fun _ _ => rfl) rfl
      exact ⟨descs', by simp only [resolveDynamicBindings]; exact hres, rest'⟩

/-- C21: replay of a descriptor set command whose `updateInfo` points to `info`, when
`bufferDescs` has an element for every dynamic binding.  The first loop is defined and leaves
`bufferDescs` with its length and with, at every index `j`, the backing, offset and size of the
view as they are in the world of the replay if entry `j` of the dynamic bindings is a view, the
buffer, offset and size of the binding if it is a binding, and the element as it was
otherwise.  The push, or the updates and the bind, come after it: every descriptor call that
`Record` makes, with or without push descriptors, finds `bufferDescs` resolved, and so the
`updateInfo` is left. -/
theorem dynamic_bindings_resolved_at_replay (c : SetDescriptorSetCmdImpl) (w : World)
    (ptr : Nat) (info : DescriptorUpdateInfo)
    (hptr : c.updateInfo = some ptr) (hinfo : w.updateInfos[ptr]? = some info)
    (hlen : info.bufferDescDynamicBindings.length ≤ info.bufferDescs.length) :
    ∃ descs, resolveDynamicBindings w.memory 0 info.bufferDescDynamicBindings
        info.bufferDescs = some descs ∧
      descs.length = info.bufferDescs.length ∧
      (∀ j, descs[j]? =
        resolvedDesc w.memory info.bufferDescDynamicBindings info.bufferDescs j) ∧
      (∃ w', c.Record true w = some w' ∧
        (w'.updateInfos[ptr]?).map (fun i => i.bufferDescs) = some descs ∧
        ∃ calls, w'.calls = w.calls ++ calls ∧ calls ≠ [] ∧
          ∀ call ∈ calls, ∀ d, call.bufferDescs? = some d → d = descs) ∧
      ∀ dst src : Nat, deref w.descriptorSets c.dstSet = some dst →
        (info.copies ≠ [] → deref w.descriptorSets c.srcSet = some src) →
        ∃ w', c.Record false w = some w' ∧
          (w'.updateInfos[ptr]?).map (fun i => i.bufferDescs) = some descs ∧
          ∃ calls, w'.calls = w.calls ++ calls ∧ calls ≠ [] ∧
            ∀ call ∈ calls, ∀ d, call.bufferDescs? = some d → d = descs := by
  obtain ⟨descs, hdescs, hl, hget⟩ := resolveDynamicBindings_spec w.memory
    info.bufferDescDynamicBindings 0 info.bufferDescs (by omega)
  have hlt : ptr < w.updateInfos.length := (List.getElem?_eq_some_iff.mp hinfo).1
  refine ⟨descs, hdescs, hl, ?_, ?_, ?_⟩
  · intro j
    rw [hget j]
    simp [resolvedDesc]
  · simp only [SetDescriptorSetCmdImpl.Record, hptr, deref, hinfo, hdescs, if_true]
    refine ⟨_, rfl, ?_, [_], rfl, by simp, ?_⟩
    · simp [World.emit, List.getElem?_set_self hlt]
    · intro call hcall d hd
      simp only [List.mem_singleton] at hcall
      subst hcall
      simpa [VkCall.bufferDescs?] using hd.symm
  · intro dst src hdst hsrc
    unfold deref at hdst hsrc
    have key : ∀ copies : List CopyDescriptorSet,
        (if info.copies.isEmpty = true then some []
          else Option.map (fun src => List.map
              (fun copy => { copy with dstSet := dst, srcSet := src }) info.copies)
            (deref w.descriptorSets c.srcSet)) = some copies →
        ∃ w', c.Record false w = some w' ∧
          (w'.updateInfos[ptr]?).map (fun i => i.bufferDescs) = some descs ∧
          ∃ calls, w'.calls = w.calls ++ calls ∧ calls ≠ [] ∧
            ∀ call ∈ calls, ∀ d, call.bufferDescs? = some d → d = descs := by
      intro copies hcopies
      simp only [SetDescriptorSetCmdImpl.Record, hptr, deref, hinfo, hdescs, hdst,
        Bool.false_eq_true, if_false]
      simp only [deref] at hcopies
      rw [hcopies]
      simp only
      refine ⟨_, rfl, ?_, ?_⟩
      · by_cases h₁ : copies.isEmpty = true <;>
        by_cases h₂ : (info.writes.map
            (fun write => { write with dstSet := dst })).isEmpty = true <;>
        simp [h₁, h₂, World.emit, List.getElem?_set_self hlt]
      · by_cases h₁ : copies.isEmpty = true <;>
        by_cases h₂ : (info.writes.map
            (fun write => { write with dstSet := dst })).isEmpty = true
        all_goals
          simp only [h₁, h₂, World.emit, if_true, if_false, Bool.false_eq_true,
            List.append_assoc]
          refine ⟨_, rfl, by simp, ?_⟩
          intro call hcall d hd
          simp only [List.mem_append, List.mem_singleton, List.mem_cons, List.not_mem_nil,
            or_false] at hcall
          rcases hcall with rfl | rfl | rfl <;> first
            | exact (Option.some.inj hd).symm
            | cases hd
    cases hc : info.copies with
    | nil => exact key [] (by simp [hc])
    | cons cp cps =>
      have hs := hsrc (by simp [hc])
      exact key (info.copies.map (fun copy => { copy with dstSet := dst, srcSet := src }))
        (by simp [hc, deref, hs])

/-- C21, witness: a command with all three pointers set, in a world whose update info has one
dynamic binding, a view, and one buffer descriptor. -/
theorem dynamic_bindings_resolved_at_replay_witness :
    (⟨some 0, some 1, some 0⟩ : SetDescriptorSetCmdImpl).updateInfo = some 0 ∧
    World.descriptorExample.updateInfos[0]? = some DescriptorUpdateInfo.example ∧
    DescriptorUpdateInfo.example.bufferDescDynamicBindings.length ≤
      DescriptorUpdateInfo.example.bufferDescs.length ∧
    ∃ descs, resolveDynamicBindings World.descriptorExample.memory 0
        DescriptorUpdateInfo.example.bufferDescDynamicBindings
        DescriptorUpdateInfo.example.bufferDescs = some descs ∧
      descs.length = DescriptorUpdateInfo.example.bufferDescs.length ∧
      (∀ j, descs[j]? =
        resolvedDesc World.descriptorExample.memory
          DescriptorUpdateInfo.example.bufferDescDynamicBindings
          DescriptorUpdateInfo.example.bufferDescs j) ∧
      (∃ w', (⟨some 0, some 1, some 0⟩ : SetDescriptorSetCmdImpl).Record true
          World.descriptorExample = some w' ∧
        (w'.updateInfos[0]?).map (fun i => i.bufferDescs) = some descs ∧
        ∃ calls, w'.calls = World.descriptorExample.calls ++ calls ∧ calls ≠ [] ∧
          ∀ call ∈ calls, ∀ d, call.bufferDescs? = some d → d = descs) ∧
      ∀ dst src : Nat,
        deref World.descriptorExample.descriptorSets
          (⟨some 0, some 1, some 0⟩ : SetDescriptorSetCmdImpl).dstSet = some dst →
        (DescriptorUpdateInfo.example.copies ≠ [] →
          deref World.descriptorExample.descriptorSets
            (⟨some 0, some 1, some 0⟩ : SetDescriptorSetCmdImpl).srcSet = some src) →
        ∃ w', (⟨some 0, some 1, some 0⟩ : SetDescriptorSetCmdImpl).Record false
            World.descriptorExample = some w' ∧
          (w'.updateInfos[0]?).map (fun i => i.bufferDescs) = some descs ∧
          ∃ calls, w'.calls = World.descriptorExample.calls ++ calls ∧ calls ≠ [] ∧
            ∀ call ∈ calls, ∀ d, call.bufferDescs? = some d → d = descs :=
  ⟨rfl, rfl, by decide, dynamic_bindings_resolved_at_replay ⟨some 0, some 1, some 0⟩
    World.descriptorExample 0 DescriptorUpdateInfo.example rfl rfl (by decide)⟩

/-! ### A change of the bind variant -/

/-- A direct bind followed by a view bind to the next index: two batches. -/
theorem Abs.calls_direct_then_view (N : Nat) (hN : N < 2 ^ 32) (i : Nat) (hi : i + 1 < N)
    (binding : BufferBinding) (view : BufferView) :
    ∃ a c₁, Abs.calls N (Abs.new N)
        [.SetVertexBuffer i binding, .SetVertexBufferView (i + 1) view] = some a ∧
      c₁.base.firstBinding = i ∧ c₁.base.bindingCount = 1 ∧
      OpenRun a .SetVertexBuffersDynamicCmd (i + 1) 1
        [(.SetVertexBuffersCmd, .SetVertexBuffersDynamic c₁)] := by
  have h₀ : OpenRun ((Abs.new N).enter N .SetVertexBuffersCmd i) .SetVertexBuffersCmd i 0 [] :=
    OpenRun.start N rfl rfl _ _
  have h₁ := h₀.succ_of_writeDirect hN (by omega) binding
  have h₂ := h₁.break N (Nat.succ_ne_zero 0) .SetVertexBuffersDynamicCmd (i + 1)
    (Or.inr (by decide))
  have h₃ := h₂.succ_of_writeView hN (by omega) view
  refine ⟨_, _, ?_, h₁.first, h₁.count, h₃⟩
  have e₀ : ((Abs.new N).enter N .SetVertexBuffersCmd i).next < N := by
    rw [h₀.next]
    omega
  have e₂ : ((((Abs.new N).enter N .SetVertexBuffersCmd i).writeDirect binding).enter N
      .SetVertexBuffersDynamicCmd (i + 1)).next < N := by
    rw [h₂.next]
    omega
  simp only [Abs.calls, Abs.call, Abs.SetVertexBuffer, Abs.SetVertexBufferView, e₀, e₂, if_true]

/-- A view bind followed by a direct bind to the next index: two batches. -/
theorem Abs.calls_view_then_direct (N : Nat) (hN : N < 2 ^ 32) (i : Nat) (hi : i + 1 < N)
    (view : BufferView) (binding : BufferBinding) :
    ∃ a c₁, Abs.calls N (Abs.new N)
        [.SetVertexBufferView i view, .SetVertexBuffer (i + 1) binding] = some a ∧
      c₁.base.firstBinding = i ∧ c₁.base.bindingCount = 1 ∧
      OpenRun a .SetVertexBuffersCmd (i + 1) 1
        [(.SetVertexBuffersDynamicCmd, .SetVertexBuffersDynamic c₁)] := by
  have h₀ : OpenRun ((Abs.new N).enter N .SetVertexBuffersDynamicCmd i)
      .SetVertexBuffersDynamicCmd i 0 [] := OpenRun.start N rfl rfl _ _
  have h₁ := h₀.succ_of_writeView hN (by omega) view
  have h₂ := h₁.break N (Nat.succ_ne_zero 0) .SetVertexBuffersCmd (i + 1)
    (Or.inr (by decide))
  have h₃ := h₂.succ_of_writeDirect hN (by omega) binding
  refine ⟨_, _, ?_, h₁.first, h₁.count, h₃⟩
  have e₀ : ((Abs.new N).enter N .SetVertexBuffersDynamicCmd i).next < N := by
    rw [h₀.next]
    omega
  have e₂ : ((((Abs.new N).enter N .SetVertexBuffersDynamicCmd i).writeView view).enter N
      .SetVertexBuffersCmd (i + 1)).next < N := by
    rw [h₂.next]
    omega
  simp only [Abs.calls, Abs.call, Abs.SetVertexBuffer, Abs.SetVertexBufferView, e₀, e₂, if_true]

/-- The kind of the binds in the slots of a batch is that of its record function. -/
theorem batchSlot_kind {r : RecordFunc} {c : SetVertexBuffersDynamicCmdImpl} {i : Nat}
    {vb : VertexBind} (h : batchSlot r c i = some vb) :
    (r = .SetVertexBuffersCmd ∧ ∃ buffer offset, vb.source = .direct buffer offset) ∨
      (r = .SetVertexBuffersDynamicCmd ∧ ∃ v, vb.source = .view v) := by
  unfold batchSlot at h
  split at h
  · split at h
    · cases h
      exact Or.inl ⟨rfl, _, _, rfl⟩
    · cases h
  · split at h
    · cases h
      exact Or.inr ⟨rfl, _, rfl⟩
    · cases h
  · cases h

/-- C22: a change of the bind variant closes the batch although the index is contiguous.  On a
new builder (`VertexStreamCount` a `u32` constant, `i + 1` below it) a direct bind to the index
`i` followed by a view bind to the index `i + 1`, and then `Build`, yield a list of two vertex
batches: the first with the record function of direct binds, `firstBinding = i`,
`bindingCount = 1` and the location bound in its slot, the second with the record function of
view binds, `firstBinding = i + 1`, `bindingCount = 1` and the view in its slot; likewise for
a view bind followed by a direct bind.  And after any calls followed by `Build` the slots of
every vertex batch of the list hold binds of one variant, that of its record function. -/
theorem variant_change_closes_batch (N : Nat) (hN : N < 2 ^ 32) (mem : Memory) (i : Nat)
    (hi : i + 1 < N) (binding : BufferBinding) (view : BufferView) :
    (∃ u b mem' c₁ c₂, StateUpdateBuilder.buildAll N mem
          [.SetVertexBuffer i binding, .SetVertexBufferView (i + 1) view] = some (u, b, mem') ∧
      u.contents b.allocator = [(.SetVertexBuffersCmd, .SetVertexBuffersDynamic c₁),
        (.SetVertexBuffersDynamicCmd, .SetVertexBuffersDynamic c₂)] ∧
      c₁.base.firstBinding = i ∧ c₁.base.bindingCount = 1 ∧
      c₂.base.firstBinding = i + 1 ∧ c₂.base.bindingCount = 1 ∧
      batchBinds .SetVertexBuffersCmd c₁ = [some ⟨i, .direct binding.buffer binding.offset⟩] ∧
      batchBinds .SetVertexBuffersDynamicCmd c₂ = [some ⟨i + 1, .view view⟩]) ∧
    (∃ u b mem' c₁ c₂, StateUpdateBuilder.buildAll N mem
          [.SetVertexBufferView i view, .SetVertexBuffer (i + 1) binding] = some (u, b, mem') ∧
      u.contents b.allocator = [(.SetVertexBuffersDynamicCmd, .SetVertexBuffersDynamic c₁),
        (.SetVertexBuffersCmd, .SetVertexBuffersDynamic c₂)] ∧
      c₁.base.firstBinding = i ∧ c₁.base.bindingCount = 1 ∧
      c₂.base.firstBinding = i + 1 ∧ c₂.base.bindingCount = 1 ∧
      batchBinds .SetVertexBuffersDynamicCmd c₁ = [some ⟨i, .view view⟩] ∧
      batchBinds .SetVertexBuffersCmd c₂ =
        [some ⟨i + 1, .direct binding.buffer binding.offset⟩]) ∧
    ∀ cs : List BuilderCall, (∀ c ∈ cs, c.indexInRange N = true) →
      ∃ u b mem', StateUpdateBuilder.buildAll N mem cs = some (u, b, mem') ∧
        ∀ rc ∈ u.contents b.allocator, ∀ c, rc.2 = .SetVertexBuffersDynamic c →
          (rc.1 = .SetVertexBuffersCmd ∧
            ∀ vb ∈ holderRun rc, ∃ buffer offset, vb.source = .direct buffer offset) ∨
          (rc.1 = .SetVertexBuffersDynamicCmd ∧
            ∀ vb ∈ holderRun rc, ∃ v, vb.source = .view v) := by
  refine ⟨?_, ?_, ?_⟩
  · obtain ⟨a, c₁, ha, hf₁, hc₁, hr⟩ := Abs.calls_direct_then_view N hN i hi binding view
    have hidx : ∀ c ∈ [BuilderCall.SetVertexBuffer i binding,
        .SetVertexBufferView (i + 1) view], c.indexInRange N = true := by
      intro c hc
      simp only [List.mem_cons, List.mem_singleton, List.not_mem_nil, or_false] at hc
      rcases hc with rfl | rfl <;> simp only [BuilderCall.indexInRange, decide_eq_true_eq] <;>
        omega
    obtain ⟨b, mem', a', hb, -, ha', ht, hcont⟩ :=
      StateUpdateBuilder.buildAll_tracks N hN mem _ hidx
    rw [ha] at ha'
    cases ha'
    have hfl := hr.list_of_flush N (Nat.succ_ne_zero 0)
    have hbinds := ht.of_flush.2.1
    rw [hfl] at hbinds
    simp only [List.flatMap_append, List.flatMap_cons, List.flatMap_nil, List.append_nil,
      holderBinds, batchBinds, hf₁, hc₁, hr.first, hr.count, List.range'_one, List.map_cons,
      List.map_nil, List.singleton_append, List.filterMap_cons, BuilderCall.vertexBind,
      List.filterMap_nil, List.cons.injEq, and_true] at hbinds
    refine ⟨⟨b.head⟩, b, mem', c₁, a.pending, hb, by rw [hcont, hfl]; rfl, hf₁, hc₁, hr.first,
      hr.count, ?_, ?_⟩
    · simp only [batchBinds, hf₁, hc₁, List.range'_one, List.map_cons, List.map_nil, hbinds.1]
    · simp only [batchBinds, hr.first, hr.count, List.range'_one, List.map_cons, List.map_nil,
        hbinds.2]
  · obtain ⟨a, c₁, ha, hf₁, hc₁, hr⟩ := Abs.calls_view_then_direct N hN i hi view binding
    have hidx : ∀ c ∈ [BuilderCall.SetVertexBufferView i view,
        .SetVertexBuffer (i + 1) binding], c.indexInRange N = true := by
      intro c hc
      simp only [List.mem_cons, List.mem_singleton, List.not_mem_nil, or_false] at hc
      rcases hc with rfl | rfl <;> simp only [BuilderCall.indexInRange, decide_eq_true_eq] <;>
        omega
    obtain ⟨b, mem', a', hb, -, ha', ht, hcont⟩ :=
      StateUpdateBuilder.buildAll_tracks N hN mem _ hidx
    rw [ha] at ha'
    cases ha'
    have hfl := hr.list_of_flush N (Nat.succ_ne_zero 0)
    have hbinds := ht.of_flush.2.1
    rw [hfl] at hbinds
    simp only [List.flatMap_append, List.flatMap_cons, List.flatMap_nil, List.append_nil,
      holderBinds, batchBinds, hf₁, hc₁, hr.first, hr.count, List.range'_one, List.map_cons,
      List.map_nil, List.singleton_append, List.filterMap_cons, BuilderCall.vertexBind,
      List.filterMap_nil, List.cons.injEq, and_true] at hbinds
    refine ⟨⟨b.head⟩, b, mem', c₁, a.pending, hb, by rw [hcont, hfl]; rfl, hf₁, hc₁, hr.first,
      hr.count, ?_, ?_⟩
    · simp only [batchBinds, hf₁, hc₁, List.range'_one, List.map_cons, List.map_nil, hbinds.1]
    · simp only [batchBinds, hr.first, hr.count, List.range'_one, List.map_cons, List.map_nil,
        hbinds.2]
  · intro cs hidx
    obtain ⟨u, b, mem', hb, -, -, hbat, -⟩ :=
      StateUpdateBuilder.buildAll_batches N hN mem cs hidx
    refine ⟨u, b, mem', hb, ?_⟩
    intro rc hrc c hcmd
    obtain ⟨hok, hslots⟩ := hbat rc hrc c hcmd
    have hmem : ∀ vb ∈ holderRun rc, ∃ idx, batchSlot rc.1 c idx = some vb := by
      intro vb hvb
      have : some vb ∈ batchBinds rc.1 c := by
        rw [hslots]
        exact List.mem_map_of_mem _ hvb
      obtain ⟨idx, -, hidx'⟩ := List.mem_map.mp this
      exact ⟨idx, hidx'⟩
    rcases hok.record with hr | hr
    · refine Or.inl ⟨hr, ?_⟩
      intro vb hvb
      obtain ⟨idx, hslot⟩ := hmem vb hvb
      rcases batchSlot_kind hslot with ⟨-, h⟩ | ⟨h, -⟩
      · exact h
      · rw [hr] at h
        cases h
    · refine Or.inr ⟨hr, ?_⟩
      intro vb hvb
      obtain ⟨idx, hslot⟩ := hmem vb hvb
      rcases batchSlot_kind hslot with ⟨h, -⟩ | ⟨-, h⟩
      · rw [hr] at h
        cases h
      · exact h

/-- C22, witness: the indices 2 and 3 on sixteen streams. -/
theorem variant_change_closes_batch_witness :
    16 < 2 ^ 32 ∧ 2 + 1 < 16 ∧
    ((∃ u b mem' c₁ c₂, StateUpdateBuilder.buildAll 16 Memory.example
          [.SetVertexBuffer 2 (⟨7, 0, 0⟩ : BufferBinding), .SetVertexBufferView (2 + 1) (⟨8, 0⟩ : BufferView)] = some (u, b, mem') ∧
      u.contents b.allocator = [(.SetVertexBuffersCmd, .SetVertexBuffersDynamic c₁),
        (.SetVertexBuffersDynamicCmd, .SetVertexBuffersDynamic c₂)] ∧
      c₁.base.firstBinding = 2 ∧ c₁.base.bindingCount = 1 ∧
      c₂.base.firstBinding = 2 + 1 ∧ c₂.base.bindingCount = 1 ∧
      batchBinds .SetVertexBuffersCmd c₁ = [some ⟨2, .direct (⟨7, 0, 0⟩ : BufferBinding).buffer (⟨7, 0, 0⟩ : BufferBinding).offset⟩] ∧
      batchBinds .SetVertexBuffersDynamicCmd c₂ = [some ⟨2 + 1, .view (⟨8, 0⟩ : BufferView)⟩]) ∧
    (∃ u b mem' c₁ c₂, StateUpdateBuilder.buildAll 16 Memory.example
          [.SetVertexBufferView 2 (⟨8, 0⟩ : BufferView), .SetVertexBuffer (2 + 1) (⟨7, 0, 0⟩ : BufferBinding)] = some (u, b, mem') ∧
      u.contents b.allocator = [(.SetVertexBuffersDynamicCmd, .SetVertexBuffersDynamic c₁),
        (.SetVertexBuffersCmd, .SetVertexBuffersDynamic c₂)] ∧
      c₁.base.firstBinding = 2 ∧ c₁.base.bindingCount = 1 ∧
      c₂.base.firstBinding = 2 + 1 ∧ c₂.base.bindingCount = 1 ∧
      batchBinds .SetVertexBuffersDynamicCmd c₁ = [some ⟨2, .view (⟨8, 0⟩ : BufferView)⟩] ∧
      batchBinds .SetVertexBuffersCmd c₂ =
        [some ⟨2 + 1, .direct (⟨7, 0, 0⟩ : BufferBinding).buffer (⟨7, 0, 0⟩ : BufferBinding).offset⟩]) ∧
    ∀ cs : List BuilderCall, (∀ c ∈ cs, c.indexInRange 16 = true) →
      ∃ u b mem', StateUpdateBuilder.buildAll 16 Memory.example cs = some (u, b, mem') ∧
        ∀ rc ∈ u.contents b.allocator, ∀ c, rc.2 = .SetVertexBuffersDynamic c →
          (rc.1 = .SetVertexBuffersCmd ∧
            ∀ vb ∈ holderRun rc, ∃ buffer offset, vb.source = .direct buffer offset) ∨
          (rc.1 = .SetVertexBuffersDynamicCmd ∧
            ∀ vb ∈ holderRun rc, ∃ v, vb.source = .view v)) :=
  ⟨by decide, by decide,
    variant_change_closes_batch 16 (by decide) Memory.example 2 (by decide) ⟨7, 0, 0⟩ ⟨8, 0⟩⟩

/-! ### Bounds of the pending batch -/

theorem Abs.flush_count (N : Nat) (a : Abs) : (a.flush N).pending.base.bindingCount = 0 := by
  unfold Abs.flush
  split
  · rfl
  · rename_i h
    simpa using h

/-- C23: for every sequence of builder calls on a new builder with every vertex stream index
below `VertexStreamCount`, a `u32` constant.  After every prefix of the calls the builder is
defined, which in this embedding says that every array access made so far was in bounds, and
its pending batch has `firstBinding + bindingCount` equal to `vertexBatchBindNextBinding` and
at most `VertexStreamCount`, with arrays of `VertexStreamCount` elements.  `Build` is defined
and leaves an empty pending batch, and every vertex batch of the list has `bindingCount` at
least one and `firstBinding + bindingCount` at most `VertexStreamCount`, so that its record
function, whose `subspan` is then in range, is defined in every world. -/
theorem pending_batch_in_bounds (N : Nat) (hN : N < 2 ^ 32) (mem : Memory)
    (cs : List BuilderCall) (hidx : ∀ c ∈ cs, c.indexInRange N = true) :
    (∀ pre post, cs = pre ++ post →
      ∃ b mem' header c,
        StateUpdateBuilder.calls N (StateUpdateBuilder.new N, mem) pre = some (b, mem') ∧
        b.vertexBatchBindCmd = some (header, c) ∧
        c.base.firstBinding + c.base.bindingCount = b.vertexBatchBindNextBinding ∧
        b.vertexBatchBindNextBinding ≤ N ∧
        c.base.buffers.length = N ∧ c.base.offsets.length = N ∧ c.views.length = N) ∧
    ∃ u b mem', StateUpdateBuilder.buildAll N mem cs = some (u, b, mem') ∧
      (∃ header c, b.vertexBatchBindCmd = some (header, c) ∧ c.base.bindingCount = 0) ∧
      ∀ rc ∈ u.contents b.allocator, ∀ c, rc.2 = .SetVertexBuffersDynamic c →
        1 ≤ c.base.bindingCount ∧ c.base.firstBinding + c.base.bindingCount ≤ N ∧
        ∀ w : World, (rc.1.call N rc.2 w).isSome = true := by
  constructor
  · intro pre post hcs
    have hidx' : ∀ c ∈ pre, c.indexInRange N = true := by
      intro c hc
      exact hidx c (by rw [hcs]; exact List.mem_append_left _ hc)
    obtain ⟨b, mem', a, hc, hr, ha⟩ := StateUpdateBuilder.calls_rep N mem pre hidx'
    obtain ⟨a', ha', ht, -⟩ := (Tracks_new N).of_calls hN pre
      (fun c hc => BuilderCall.lt_of_indexInRange (hidx' c hc))
    rw [ha] at ha'
    cases ha'
    refine ⟨b, mem', _, _, hc, hr.vertexBatchBindCmd, ?_, ?_, ht.buffers, ht.offsets, ht.views⟩
    · rw [hr.next]
      exact ht.sum
    · rw [hr.next]
      exact ht.le
  · obtain ⟨b, mem', a, hb, hr, -, -, hcont⟩ :=
      StateUpdateBuilder.buildAll_tracks N hN mem cs hidx
    obtain ⟨u, b₁, mem₁, hb₁, -, -, hbat, -⟩ :=
      StateUpdateBuilder.buildAll_batches N hN mem cs hidx
    rw [hb] at hb₁
    cases hb₁
    refine ⟨⟨b.head⟩, b, mem', hb, ⟨_, _, hr.vertexBatchBindCmd, Abs.flush_count N a⟩, ?_⟩
    intro rc hrc c hcmd
    obtain ⟨hok, hslots⟩ := hbat rc hrc c hcmd
    refine ⟨Nat.one_le_iff_ne_zero.mpr hok.count, hok.le, ?_⟩
    intro w
    obtain ⟨cmd', hcall⟩ := hok.record_call hN hslots w
    rw [hcmd, hcall]
    rfl

/-- C23, witness: direct binds to the last two of sixteen streams and a view bind to the
first. -/
theorem pending_batch_in_bounds_witness :
    16 < 2 ^ 32 ∧
    (∀ c ∈ [BuilderCall.SetVertexBuffer 14 ⟨7, 0, 0⟩, .SetVertexBuffer 15 ⟨8, 0, 0⟩,
        .SetVertexBufferView 0 ⟨9, 0⟩],
      c.indexInRange 16 = true) ∧
    ((∀ pre post, [BuilderCall.SetVertexBuffer 14 ⟨7, 0, 0⟩, .SetVertexBuffer 15 ⟨8, 0, 0⟩,
        .SetVertexBufferView 0 ⟨9, 0⟩] = pre ++ post →
      ∃ b mem' header c,
        StateUpdateBuilder.calls 16 (StateUpdateBuilder.new 16, Memory.example) pre = some (b, mem') ∧
        b.vertexBatchBindCmd = some (header, c) ∧
        c.base.firstBinding + c.base.bindingCount = b.vertexBatchBindNextBinding ∧
        b.vertexBatchBindNextBinding ≤ 16 ∧
        c.base.buffers.length = 16 ∧ c.base.offsets.length = 16 ∧ c.views.length = 16) ∧
    ∃ u b mem', StateUpdateBuilder.buildAll 16 Memory.example [BuilderCall.SetVertexBuffer 14 ⟨7, 0, 0⟩, .SetVertexBuffer 15 ⟨8, 0, 0⟩,
        .SetVertexBufferView 0 ⟨9, 0⟩] = some (u, b, mem') ∧
      (∃ header c, b.vertexBatchBindCmd = some (header, c) ∧ c.base.bindingCount = 0) ∧
      ∀ rc ∈ u.contents b.allocator, ∀ c, rc.2 = .SetVertexBuffersDynamic c →
        1 ≤ c.base.bindingCount ∧ c.base.firstBinding + c.base.bindingCount ≤ 16 ∧
        ∀ w : World, (rc.1.call 16 rc.2 w).isSome = true) :=
  ⟨by decide, by decide,
    pending_batch_in_bounds 16 (by decide) Memory.example _ (by decide)⟩

/-! ### Well-formedness of the list and termination of `RecordAll` -/

theorem Linked.start_none_iff {arena : List CmdHolder} :
    ∀ {ps : List Nat} {start : Option Nat} {L : List (RecordFunc × Cmd)},
      Linked arena start ps L → (start = none ↔ ps = [])
  | [], _, [], h => ⟨fun _ => rfl, fun _ => h⟩
  | _ :: _, _, [], h => h.elim
  | [], _, _ :: _, h => h.elim
  | p :: ps, start, rc :: L, h => by
    obtain ⟨hs, -⟩ := h
    rw [hs]
    simp

theorem Linked.last_next {arena : List CmdHolder} :
    ∀ {ps : List Nat} {start : Option Nat} {L : List (RecordFunc × Cmd)},
      Linked arena start ps L → ∀ t, ps.getLast? = some t →
      ∃ node, arena[t]? = some node ∧ node.header.next = none
  | [], _, [], _, t, ht => by simp at ht
  | _ :: _, _, [], h, _, _ => h.elim
  | [], _, _ :: _, h, _, _ => h.elim
  | [p], start, [rc], h, t, ht => by
    obtain ⟨-, nx, hp, h'⟩ := h
    have hnx : nx = none := h'
    simp only [List.getLast?_singleton, Option.some.injEq] at ht
    subst ht hnx
    exact ⟨_, hp, rfl⟩
  | [_], _, _ :: _ :: _, h, _, _ => by
    obtain ⟨-, nx, -, h'⟩ := h
    exact h'.elim
  | p :: p' :: ps, start, [rc], h, _, _ => by
    obtain ⟨-, nx, -, h'⟩ := h
    exact h'.elim
  | p :: p' :: ps, start, rc :: rc' :: L, h, t, ht => by
    obtain ⟨-, nx, -, h'⟩ := h
    rw [List.getLast?_cons_cons] at ht
    exact Linked.last_next h' t ht

/-- With fewer passes than the list is long the loop of `RecordAll` does not reach the end. -/
theorem Linked.recordFrom_short (N : Nat) :
    ∀ {ps : List Nat} {arena : List CmdHolder} {start : Option Nat}
      {L : List (RecordFunc × Cmd)} {fuel : Nat} (w : World),
      Linked arena start ps L → ps.Nodup → fuel < ps.length →
      recordFrom N fuel start arena w = none
  | [], _, _, [], _, _, _, _, hf => by simp at hf
  | _ :: _, _, _, [], _, _, h, _, _ => h.elim
  | [], _, _, _ :: _, _, _, h, _, _ => h.elim
  | p :: ps, arena, start, rc :: L, fuel, w, h, hnd, hf => by
    obtain ⟨hs, nx, hp, h'⟩ := h
    subst hs
    cases fuel with
    | zero => rfl
    | succ fuel =>
      simp only [recordFrom, hp]
      cases hr : rc.1.call N rc.2 w with
      | none => rfl
      | some r =>
        simp only
        have hpn : p ∉ ps := (List.nodup_cons.mp hnd).1
        refine Linked.recordFrom_short N r.2 (h'.frame ?_) (List.nodup_cons.mp hnd).2
          (by simpa using hf)
        intro q hq
        have : p ≠ q := by
          rintro rfl
          exact hpn hq
        exact List.getElem?_set_ne this

theorem foldlM_isSome {α β : Type} (f : β → α → Option β) :
    ∀ (l : List α) (init : β), (∀ x ∈ l, ∀ s, (f s x).isSome = true) →
      (l.foldlM f init).isSome = true
  | [], _, _ => rfl
  | x :: l, init, h => by
    rw [List.foldlM_cons]
    obtain ⟨s', hs'⟩ := Option.isSome_iff_exists.mp (h x (List.mem_cons_self _ _) init)
    rw [hs']
    exact foldlM_isSome f l s' (fun y hy => h y (List.mem_cons_of_mem _ hy))

theorem Rep.wellFormed {b : StateUpdateBuilder} {a : Abs} (h : Rep b a) : b.WellFormed := by
  have hw := h.walk_eq_appended
  refine ⟨?_, ?_, ?_, ?_, hw⟩
  · rw [h.list.linked.start_none_iff, h.list.tail, List.getLast?_eq_none_iff]
  · rw [hw]
    exact h.list.nodup
  · rw [hw]
    exact h.list.tail
  · intro t ht
    rw [h.list.tail] at ht
    exact h.list.linked.last_next t ht

/-- C24: for every sequence of builder calls on a new builder (vertex stream indices in
range), after every prefix of the calls the list of the builder is well formed: `head` is null
exactly when `tail` is null, following `next` from `head` meets no holder twice, meets `tail`
last and meets exactly the holders appended, and `next` of `tail` is null.  So it is after
`Build`, and on the list that `Build` returns the loop of `RecordAll` ends after as many
passes as holders were appended: with fewer passes it does not end, with at least as many it
is the call of the record function of each appended holder in turn, and it returns when each
of them returns. -/
theorem builder_list_well_formed (N : Nat) (mem : Memory) (cs : List BuilderCall)
    (hidx : ∀ c ∈ cs, c.indexInRange N = true) :
    (∀ pre post, cs = pre ++ post → ∃ b mem',
      StateUpdateBuilder.calls N (StateUpdateBuilder.new N, mem) pre = some (b, mem') ∧
      b.WellFormed) ∧
    ∃ u b mem', StateUpdateBuilder.buildAll N mem cs = some (u, b, mem') ∧
      u.first = b.head ∧ b.WellFormed ∧
      (∀ (fuel : Nat) (w : World), fuel < b.appended.length →
        u.RecordAll N fuel b.allocator w = none) ∧
      (∀ (fuel : Nat) (w : World), b.appended.length ≤ fuel →
        u.RecordAll N fuel b.allocator w = recordEach N b.appended b.allocator w) ∧
      ∀ (fuel : Nat) (w : World), b.appended.length ≤ fuel →
        (∀ rc ∈ u.contents b.allocator, ∀ w' : World, (holderRecord N w' rc).isSome = true) →
        (u.RecordAll N fuel b.allocator w).isSome = true := by
  constructor
  · intro pre post hcs
    have hidx' : ∀ c ∈ pre, c.indexInRange N = true := by
      intro c hc
      exact hidx c (by rw [hcs]; exact List.mem_append_left _ hc)
    obtain ⟨b, mem', a, hc, hr, -⟩ := StateUpdateBuilder.calls_rep N mem pre hidx'
    exact ⟨b, mem', hc, hr.wellFormed⟩
  · obtain ⟨b, mem', a, hb, hr, -⟩ := StateUpdateBuilder.buildAll_rep N mem cs hidx
    have hrec : ∀ (fuel : Nat) (w : World), b.appended.length ≤ fuel →
        (⟨b.head⟩ : StateUpdater).RecordAll N fuel b.allocator w =
          recordEach N b.appended b.allocator w :=
      fun fuel w hf => hr.list.linked.recordFrom_eq N w hr.list.nodup hf
    refine ⟨⟨b.head⟩, b, mem', hb, rfl, hr.wellFormed, ?_, hrec, ?_⟩
    · intro fuel w hf
      exact hr.list.linked.recordFrom_short N w hr.list.nodup hf
    · intro fuel w hf hdef
      have hworld := hr.list.linked.recordEach_world N w hr.list.nodup
      have hcont : (⟨b.head⟩ : StateUpdater).contents b.allocator = (a.flush N).list :=
        hr.nodes_eq
      rw [hcont] at hdef
      have := foldlM_isSome (holderRecord N) (a.flush N).list w hdef
      rw [← hworld] at this
      rw [hrec fuel w hf]
      simpa using this

/-- C24, witness: a direct vertex buffer bind, a pipeline bind, a view bind and a line width
on sixteen streams. -/
theorem builder_list_well_formed_witness :
    (∀ c ∈ [BuilderCall.SetVertexBuffer 0 ⟨7, 0, 0⟩, .SetPipeline 5,
        .SetVertexBufferView 1 ⟨9, 0⟩, .SetLineWidth 1],
      c.indexInRange 16 = true) ∧
    ((∀ pre post, [BuilderCall.SetVertexBuffer 0 ⟨7, 0, 0⟩, .SetPipeline 5,
        .SetVertexBufferView 1 ⟨9, 0⟩, .SetLineWidth 1] = pre ++ post → ∃ b mem',
      StateUpdateBuilder.calls 16 (StateUpdateBuilder.new 16, Memory.example) pre = some (b, mem') ∧
      b.WellFormed) ∧
    ∃ u b mem', StateUpdateBuilder.buildAll 16 Memory.example [BuilderCall.SetVertexBuffer 0 ⟨7, 0, 0⟩, .SetPipeline 5,
        .SetVertexBufferView 1 ⟨9, 0⟩, .SetLineWidth 1] = some (u, b, mem') ∧
      u.first = b.head ∧ b.WellFormed ∧
      (∀ (fuel : Nat) (w : World), fuel < b.appended.length →
        u.RecordAll 16 fuel b.allocator w = none) ∧
      (∀ (fuel : Nat) (w : World), b.appended.length ≤ fuel →
        u.RecordAll 16 fuel b.allocator w = recordEach 16 b.appended b.allocator w) ∧
      ∀ (fuel : Nat) (w : World), b.appended.length ≤ fuel →
        (∀ rc ∈ u.contents b.allocator, ∀ w' : World, (holderRecord 16 w' rc).isSome = true) →
        (u.RecordAll 16 fuel b.allocator w).isSome = true) :=
  ⟨by decide, builder_list_well_formed 16 Memory.example _ (by decide)⟩

/-! ### `KeplerCompute::CallMethodBatchNonInc` -/

theorem foldl_not_done {I : Type} (m : I2MMethods I) (o : KeplerOffsets) (method : Nat) :
    ∀ (arguments : List Nat) (r : Option (Outcome (KeplerCompute I))),
      (∀ s, r ≠ some (.done s)) →
      arguments.foldl (KeplerCompute.handleNext m o method) r = r
  | [], _, _ => rfl
  | a :: rest, r, h => by
    rw [List.foldl_cons]
    have : KeplerCompute.handleNext m o method r a = r := by
      cases r with
      | none => rfl
      | some x =>
        cases x with
        | done s => exact absurd rfl (h s)
        | thrown s => rfl
    rw [this]
    exact foldl_not_done m o method rest r h

theorem KeplerCompute.handleEach_eq {I : Type} (m : I2MMethods I) (o : KeplerOffsets)
    (method : Nat) :
    ∀ (arguments : List Nat) (s : KeplerCompute I),
      KeplerCompute.handleEach m o method arguments s =
        s.HandleMethodInOrder m o method arguments
  | [], _ => rfl
  | a :: rest, s => by
    unfold KeplerCompute.HandleMethodInOrder
    rw [List.foldl_cons]
    simp only [KeplerCompute.handleEach, KeplerCompute.handleNext]
    cases h : s.HandleMethod m o method a with
    | none => rw [foldl_not_done m o method rest none (by simp)]
    | some x =>
      cases x with
      | done s' => exact KeplerCompute.handleEach_eq m o method rest s'
      | thrown s' => rw [foldl_not_done m o method rest _ (by simp)]

theorem KeplerCompute.HandleMethod_raw {I : Type} (m : I2MMethods I) (o : KeplerOffsets)
    (s : KeplerCompute I) (method argument : Nat) (h : method < s.raw.length) :
    ∃ r, s.HandleMethod m o method argument = some r ∧
      r.state.raw = s.raw.set method argument := by
  unfold KeplerCompute.HandleMethod
  rw [if_pos h]
  simp only
  split
  · exact ⟨_, rfl, rfl⟩
  · split
    · exact ⟨_, rfl, rfl⟩
    · split
      · exact ⟨_, rfl, rfl⟩
      · split <;> exact ⟨_, rfl, rfl⟩

theorem KeplerCompute.handleEach_last {I : Type} (m : I2MMethods I) (o : KeplerOffsets)
    (method : Nat) :
    ∀ (arguments : List Nat) (s : KeplerCompute I), method < s.raw.length →
      ∃ r, KeplerCompute.handleEach m o method arguments s = some r ∧
        r.state.raw.length = s.raw.length ∧
        ∀ s', r = .done s' → arguments ≠ [] → s'.raw[method]? = arguments.getLast?
  | [], s, _ => ⟨_, rfl, rfl, fun _ _ h => absurd rfl h⟩
  | a :: rest, s, h => by
    obtain ⟨r, hr, hraw⟩ := s.HandleMethod_raw m o method a h
    simp only [KeplerCompute.handleEach, hr]
    cases r with
    | thrown s₁ =>
      refine ⟨_, rfl, ?_, ?_⟩
      · simp only [Outcome.state] at hraw
        simp [Outcome.state, hraw]
      · intro s' hs'
        cases hs'
    | done s₁ =>
      simp only [Outcome.state] at hraw
      have h₁ : method < s₁.raw.length := by simpa [hraw] using h
      obtain ⟨r', hr', hlen', hlast'⟩ := KeplerCompute.handleEach_last m o method rest s₁ h₁
      refine ⟨r', hr', by simpa [hraw] using hlen', ?_⟩
      intro s' hs' _
      cases rest with
      | nil =>
        simp only [KeplerCompute.handleEach, Option.some.injEq] at hr'
        subst hr'
        cases hs'
        simp [hraw, h]
      | cons b rest' =>
        rw [List.getLast?_cons_cons]
        exact hlast' s' hs' (by simp)

/-- C27: for a method other than the offset of `loadInlineData` of `i2m` and within `raw`,
and for every list of arguments: `CallMethodBatchNonInc(method, arguments)` ends as the calls
`HandleMethod(method, a)` for each `a` of `arguments` in order end; it is defined, and when it
returns and there were arguments, `raw[method]` holds the last of them.  `HandleMethod` stores
the argument in `raw[method]` whatever it dispatches to, and the methods of `i2m` that it
calls get the registers with the argument stored.  For the offset of the action of
`reportSemaphore`, a case label other than the three before it, a batch of at least one
argument ends with the exception thrown on the first argument, in a state that differs from the
one before only in `raw[method]`, which holds this argument. -/
theorem batch_is_HandleMethod_in_order {I : Type} (m : I2MMethods I) (o : KeplerOffsets)
    (s : KeplerCompute I) (method : Nat) (h : method ≠ o.loadInlineData)
    (hrange : method < s.raw.length) :
    (∀ arguments : List Nat,
      s.CallMethodBatchNonInc m o method arguments =
        s.HandleMethodInOrder m o method arguments) ∧
    (∀ arguments : List Nat, ∃ r, s.CallMethodBatchNonInc m o method arguments = some r ∧
      r.state.raw.length = s.raw.length ∧
      ∀ s', r = .done s' → arguments ≠ [] → s'.raw[method]? = arguments.getLast?) ∧
    (∀ (t : KeplerCompute I) (method' argument : Nat), method' < t.raw.length →
      ∃ r, t.HandleMethod m o method' argument = some r ∧
        r.state.raw = t.raw.set method' argument ∧
        (method' = o.launchDma →
          r = .done ⟨t.raw.set method' argument,
            m.LaunchDma t.i2m (t.raw.set method' argument)⟩) ∧
        (method' ≠ o.launchDma → method' = o.loadInlineData →
          r = .done ⟨t.raw.set method' argument,
            m.LoadInlineData t.i2m (t.raw.set method' argument) argument⟩)) ∧
    (method = o.reportSemaphoreAction → method ≠ o.launchDma →
      method ≠ o.sendSignalingPcasB → ∀ (a : Nat) (rest : List Nat),
        s.CallMethodBatchNonInc m o method (a :: rest) =
          some (.thrown ⟨s.raw.set method a, s.i2m⟩)) := by
  refine ⟨?_, ?_, ?_, ?_⟩
  · intro arguments
    rw [KeplerCompute.CallMethodBatchNonInc, if_neg h]
    exact KeplerCompute.handleEach_eq m o method arguments s
  · intro arguments
    rw [KeplerCompute.CallMethodBatchNonInc, if_neg h]
    exact KeplerCompute.handleEach_last m o method arguments s hrange
  · intro t method' argument ht
    obtain ⟨r, hr, hraw⟩ := t.HandleMethod_raw m o method' argument ht
    refine ⟨r, hr, hraw, ?_, ?_⟩
    · intro hl
      subst hl
      simp only [KeplerCompute.HandleMethod, ht, if_true] at hr
      exact (Option.some.inj hr).symm
    · intro hl hd
      subst hd
      simp only [KeplerCompute.HandleMethod, ht, if_true, hl, if_false] at hr
      exact (Option.some.inj hr).symm
  · intro ha hl hs a rest
    rw [KeplerCompute.CallMethodBatchNonInc, if_neg h]
    subst ha
    simp only [KeplerCompute.handleEach, KeplerCompute.HandleMethod, hrange, if_true, hl, h, hs,
      if_false]

/-- C27, witness: eight registers, the method 5 and then the offset 4 of the action of
`reportSemaphore`. -/
theorem batch_is_HandleMethod_in_order_witness :
    (4 : Nat) ≠ KeplerOffsets.example.loadInlineData ∧
    4 < (⟨[0, 0, 0, 0, 0, 0, 0, 0], 0⟩ : KeplerCompute Nat).raw.length ∧
    ((∀ arguments : List Nat,
      (⟨[0, 0, 0, 0, 0, 0, 0, 0], 0⟩ : KeplerCompute Nat).CallMethodBatchNonInc
          I2MMethods.example KeplerOffsets.example 4 arguments =
        (⟨[0, 0, 0, 0, 0, 0, 0, 0], 0⟩ : KeplerCompute Nat).HandleMethodInOrder
          I2MMethods.example KeplerOffsets.example 4 arguments) ∧
    (∀ arguments : List Nat, ∃ r,
      (⟨[0, 0, 0, 0, 0, 0, 0, 0], 0⟩ : KeplerCompute Nat).CallMethodBatchNonInc
          I2MMethods.example KeplerOffsets.example 4 arguments = some r ∧
      r.state.raw.length = (⟨[0, 0, 0, 0, 0, 0, 0, 0], 0⟩ : KeplerCompute Nat).raw.length ∧
      ∀ s', r = .done s' → arguments ≠ [] → s'.raw[4]? = arguments.getLast?) ∧
    (∀ (t : KeplerCompute Nat) (method' argument : Nat), method' < t.raw.length →
      ∃ r, t.HandleMethod I2MMethods.example KeplerOffsets.example method' argument = some r ∧
        r.state.raw = t.raw.set method' argument ∧
        (method' = KeplerOffsets.example.launchDma →
          r = .done ⟨t.raw.set method' argument,
            I2MMethods.example.LaunchDma t.i2m (t.raw.set method' argument)⟩) ∧
        (method' ≠ KeplerOffsets.example.launchDma →
          method' = KeplerOffsets.example.loadInlineData →
          r = .done ⟨t.raw.set method' argument,
            I2MMethods.example.LoadInlineData t.i2m (t.raw.set method' argument)
              argument⟩)) ∧
    (4 = KeplerOffsets.example.reportSemaphoreAction → 4 ≠ KeplerOffsets.example.launchDma →
      4 ≠ KeplerOffsets.example.sendSignalingPcasB → ∀ (a : Nat) (rest : List Nat),
        (⟨[0, 0, 0, 0, 0, 0, 0, 0], 0⟩ : KeplerCompute Nat).CallMethodBatchNonInc
            I2MMethods.example KeplerOffsets.example 4 (a :: rest) =
          some (.thrown ⟨(⟨[0, 0, 0, 0, 0, 0, 0, 0], 0⟩ : KeplerCompute Nat).raw.set 4 a,
            (⟨[0, 0, 0, 0, 0, 0, 0, 0], 0⟩ : KeplerCompute Nat).i2m⟩))) :=
  ⟨by decide, by decide,
    batch_is_HandleMethod_in_order I2MMethods.example KeplerOffsets.example
      ⟨[0, 0, 0, 0, 0, 0, 0, 0], 0⟩ 4 (by decide) (by decide)⟩

/-! ### The attachments of `ClearHelperShader::Clear` -/

/-- C26: `Clear`, when it is defined, hands the destination view on as colour attachment
exactly when the aspect mask contains colour, else null, and as depth stencil attachment
exactly when the mask contains depth or stencil, else null.  `GetPipeline` reads the
dimensions from the colour attachment if it is not null and else from the depth stencil
attachment; with attachments that point to views if they are not null it is defined if and
only if one of them is not null.  So `Clear` with a destination view that is not null is
defined if and only if the mask contains one of colour, depth and stencil. -/
theorem Clear_attachments_follow_mask (views : List Extent2D) (mask components stencil : Nat)
    (dst : Nat) (dimensions : Extent2D) (hdst : views[dst]? = some dimensions) :
    (∀ r, ClearHelperShader.Clear views mask components stencil (some dst) = some r →
      (r.2.colorAttachment = if hasAspect mask eColor then some dst else none) ∧
      (r.2.depthStencilAttachment =
        if hasAspect mask eDepth || hasAspect mask eStencil then some dst else none) ∧
      r.2.viewport = dimensions ∧ r.2.scissor = dimensions) ∧
    (∀ (color depthStencil : Option Nat),
      attachmentDimensions views color depthStencil =
        if color ≠ none then deref views color else deref views depthStencil) ∧
    (∀ (color depthStencil : Option Nat) (depthWrite stencilWrite : Bool) (value colors : Nat),
      (∀ p, color = some p → p < views.length) →
      (∀ p, depthStencil = some p → p < views.length) →
      ((GetPipeline views color depthStencil depthWrite stencilWrite value colors).isSome =
          true ↔ color ≠ none ∨ depthStencil ≠ none)) ∧
    ((ClearHelperShader.Clear views mask components stencil (some dst)).isSome = true ↔
      hasAspect mask eColor = true ∨ hasAspect mask eDepth = true ∨
        hasAspect mask eStencil = true) := by
  have hlt : dst < views.length := (List.getElem?_eq_some_iff.mp hdst).1
  refine ⟨?_, ?_, ?_, ?_⟩
  · intro r hr
    unfold ClearHelperShader.Clear GetPipeline at hr
    simp only [Option.map_eq_some'] at hr
    obtain ⟨p, hp, rfl⟩ := hr
    split at hp
    · cases hp
    · rename_i dims hdims
      cases hp
      refine ⟨rfl, rfl, ?_⟩
      unfold attachmentDimensions at hdims
      by_cases hc : hasAspect mask eColor = true
      · simp only [hc, if_true, hdst, Option.some.injEq] at hdims
        exact ⟨hdims.symm, hdims.symm⟩
      · by_cases hd : (hasAspect mask eDepth || hasAspect mask eStencil) = true
        · have hc' : hasAspect mask eColor = false := by simpa using hc
          simp only [hc', hd, if_true, deref, hdst, Option.some.injEq, Bool.false_eq_true,
            if_false] at hdims
          exact ⟨hdims.symm, hdims.symm⟩
        · simp [hc, hd, deref] at hdims
  · intro color depthStencil
    cases color <;> simp [attachmentDimensions, deref]
  · intro color depthStencil depthWrite stencilWrite value colors hc hd
    unfold GetPipeline attachmentDimensions
    cases color with
    | some p =>
      have := hc p rfl
      simp [List.getElem?_eq_getElem this]
    | none =>
      cases depthStencil with
      | some q =>
        have := hd q rfl
        simp [deref, List.getElem?_eq_getElem this]
      | none => simp [deref]
  · unfold ClearHelperShader.Clear GetPipeline attachmentDimensions
    by_cases hc : hasAspect mask eColor = true
    · simp [hc, hdst]
    · by_cases hd : hasAspect mask eDepth = true
      · simp [hc, hd, deref, hdst]
      · by_cases hs : hasAspect mask eStencil = true
        · simp [hc, hd, hs, deref, hdst]
        · simp [hc, hd, hs, deref]

/-- C26, witness: one view of 640 by 480 and the mask of colour and depth. -/
theorem Clear_attachments_follow_mask_witness :
    [(⟨640, 480⟩ : Extent2D)][0]? = some (⟨640, 480⟩ : Extent2D) ∧
    ((∀ r, ClearHelperShader.Clear [(⟨640, 480⟩ : Extent2D)] 3 15 0 (some 0) = some r →
      (r.2.colorAttachment = if hasAspect 3 eColor then some 0 else none) ∧
      (r.2.depthStencilAttachment =
        if hasAspect 3 eDepth || hasAspect 3 eStencil then some 0 else none) ∧
      r.2.viewport = (⟨640, 480⟩ : Extent2D) ∧ r.2.scissor = (⟨640, 480⟩ : Extent2D)) ∧
    (∀ (color depthStencil : Option Nat),
      attachmentDimensions [(⟨640, 480⟩ : Extent2D)] color depthStencil =
        if color ≠ none then deref [(⟨640, 480⟩ : Extent2D)] color else deref [(⟨640, 480⟩ : Extent2D)] depthStencil) ∧
    (∀ (color depthStencil : Option Nat) (depthWrite stencilWrite : Bool) (value colors : Nat),
      (∀ p, color = some p → p < [(⟨640, 480⟩ : Extent2D)].length) →
      (∀ p, depthStencil = some p → p < [(⟨640, 480⟩ : Extent2D)].length) →
      ((GetPipeline [(⟨640, 480⟩ : Extent2D)] color depthStencil depthWrite stencilWrite value colors).isSome =
          true ↔ color ≠ none ∨ depthStencil ≠ none)) ∧
    ((ClearHelperShader.Clear [(⟨640, 480⟩ : Extent2D)] 3 15 0 (some 0)).isSome = true ↔
      hasAspect 3 eColor = true ∨ hasAspect 3 eDepth = true ∨
        hasAspect 3 eStencil = true)) :=
  ⟨rfl, Clear_attachments_follow_mask [⟨640, 480⟩] 3 15 0 0 ⟨640, 480⟩ rfl⟩

/-! ### The scissor of `Clear` -/

theorem rectIntersection_contains (a b : Rect2D) (px py : Int) :
    (rectIntersection a b).contains px py = true ↔
      a.contains px py = true ∧ b.contains px py = true := by
  simp only [Rect2D.contains, rectIntersection, Bool.and_eq_true, decide_eq_true_eq]
  constructor
  · rintro ⟨⟨⟨h₁, h₂⟩, h₃⟩, h₄⟩
    refine ⟨⟨⟨⟨?_, ?_⟩, ?_⟩, ?_⟩, ⟨⟨?_, ?_⟩, ?_⟩, ?_⟩ <;> omega
  · rintro ⟨⟨⟨⟨h₁, h₂⟩, h₃⟩, h₄⟩, ⟨⟨g₁, g₂⟩, g₃⟩, g₄⟩
    refine ⟨⟨⟨?_, ?_⟩, ?_⟩, ?_⟩ <;> omega

/-- C17: the scissor of `Clear` is the rectangle intersection of the clear rectangle and the
surface clip, whatever the two rectangles are: a point lies in it if and only if it lies in
both, so it is contained in both; when one of the two lies within the other the scissor is the
inner one; and when the two have no point in common the scissor has zero area. -/
theorem clear_scissor_is_intersection (clearRect surfaceClip : Rect2D) :
    (∀ px py : Int, (Maxwell3D.GetClearScissor clearRect surfaceClip).contains px py = true ↔
      clearRect.contains px py = true ∧ surfaceClip.contains px py = true) ∧
    (clearRect.x ≤ surfaceClip.x → clearRect.y ≤ surfaceClip.y →
      surfaceClip.x + surfaceClip.width ≤ clearRect.x + clearRect.width →
      surfaceClip.y + surfaceClip.height ≤ clearRect.y + clearRect.height →
      Maxwell3D.GetClearScissor clearRect surfaceClip = surfaceClip) ∧
    (surfaceClip.x ≤ clearRect.x → surfaceClip.y ≤ clearRect.y →
      clearRect.x + clearRect.width ≤ surfaceClip.x + surfaceClip.width →
      clearRect.y + clearRect.height ≤ surfaceClip.y + surfaceClip.height →
      Maxwell3D.GetClearScissor clearRect surfaceClip = clearRect) ∧
    ((∀ px py : Int, ¬(clearRect.contains px py = true ∧ surfaceClip.contains px py = true)) →
      (Maxwell3D.GetClearScissor clearRect surfaceClip).width *
        (Maxwell3D.GetClearScissor clearRect surfaceClip).height = 0) ∧
    ((∃ px py : Int, clearRect.contains px py = true ∧ surfaceClip.contains px py = true) →
      0 < (Maxwell3D.GetClearScissor clearRect surfaceClip).width *
        (Maxwell3D.GetClearScissor clearRect surfaceClip).height) := by
  refine ⟨rectIntersection_contains clearRect surfaceClip, ?_, ?_, ?_, ?_⟩
  · intro h₁ h₂ h₃ h₄
    cases surfaceClip
    simp only [Maxwell3D.GetClearScissor, rectIntersection, Rect2D.mk.injEq] at *
    refine ⟨?_, ?_, ?_, ?_⟩ <;> omega
  · intro h₁ h₂ h₃ h₄
    cases clearRect
    simp only [Maxwell3D.GetClearScissor, rectIntersection, Rect2D.mk.injEq] at *
    refine ⟨?_, ?_, ?_, ?_⟩ <;> omega
  · intro hdisjoint
    by_contra hne
    have hw : (Maxwell3D.GetClearScissor clearRect surfaceClip).width ≠ 0 := by
      intro h
      exact hne (by rw [h, Nat.zero_mul])
    have hh : (Maxwell3D.GetClearScissor clearRect surfaceClip).height ≠ 0 := by
      intro h
      exact hne (by rw [h, Nat.mul_zero])
    refine hdisjoint (max clearRect.x surfaceClip.x) (max clearRect.y surfaceClip.y)
      ((rectIntersection_contains clearRect surfaceClip _ _).mp ?_)
    simp only [Maxwell3D.GetClearScissor, rectIntersection] at hw hh
    simp only [Rect2D.contains, rectIntersection, Bool.and_eq_true, decide_eq_true_eq]
    refine ⟨⟨⟨?_, ?_⟩, ?_⟩, ?_⟩ <;> omega
  · rintro ⟨px, py, hp⟩
    have := (rectIntersection_contains clearRect surfaceClip px py).mpr hp
    simp only [Rect2D.contains, rectIntersection, Bool.and_eq_true, decide_eq_true_eq] at this
    obtain ⟨⟨⟨h₁, h₂⟩, h₃⟩, h₄⟩ := this
    apply Nat.mul_pos
    · simp only [Maxwell3D.GetClearScissor, rectIntersection]
      omega
    · simp only [Maxwell3D.GetClearScissor, rectIntersection]
      omega

/-! ### The quad conversion buffer -/

theorem flatMap_length_const {α β : Type} (f : α → List β) (n : Nat) :
    ∀ (l : List α), (∀ x ∈ l, (f x).length = n) → (l.flatMap f).length = n * l.length
  | [], _ => by simp
  | x :: l, h => by
    rw [List.flatMap_cons, List.length_append, h x (List.mem_cons_self _ _),
      flatMap_length_const f n l (fun y hy => h y (List.mem_cons_of_mem _ hy)),
      List.length_cons, Nat.mul_succ, Nat.add_comm]

theorem quadIndices_length (corner : Fin 6 → Fin 4) (count : Nat) :
    (quadIndices corner count).length = 6 * (count / 4) := by
  unfold quadIndices
  rw [flatMap_length_const _ 6 _ (by intro x _; simp), List.length_range]

theorem flatMap_take_const {α β : Type} (f : α → List β) (n : Nat) :
    ∀ (l : List α) (m : Nat), (∀ x ∈ l, (f x).length = n) →
      (l.flatMap f).take (n * m) = (l.take m).flatMap f
  | [], m, _ => by simp
  | x :: l, 0, _ => by simp
  | x :: l, m + 1, h => by
    have hx := h x (List.mem_cons_self _ _)
    rw [List.flatMap_cons, List.take_succ_cons, List.flatMap_cons, List.take_append_eq_append_take,
      List.take_of_length_le (by rw [hx, Nat.mul_succ]; omega)]
    congr 1
    rw [hx, Nat.mul_succ, Nat.add_sub_cancel]
    exact flatMap_take_const f n l m (fun y hy => h y (List.mem_cons_of_mem _ hy))

/-- The indices for a smaller vertex count are the first of those for a larger one. -/
theorem quadIndices_take (corner : Fin 6 → Fin 4) {count count' : Nat} (h : count' ≤ count) :
    (quadIndices corner count).take (6 * (count' / 4)) = quadIndices corner count' := by
  unfold quadIndices
  rw [flatMap_take_const _ 6 _ _ (by intro x _; simp)]
  congr 1
  rw [List.take_range, Nat.min_eq_left (Nat.div_le_div_right h)]

/-- C16: a draw of `V` vertices under quad topology uses `6 * (V / 4)` indices, with integer
division, and when it synthesizes the conversion buffer, there being none or one for fewer
vertices, the buffer holds exactly these `6 * (V / 4)` indices.  After it a draw of `V'` vertices with `V'` at most
`V` leaves the buffer as it is and synthesizes nothing, and the first `6 * (V' / 4)` indices
of the buffer are those of a buffer synthesized for `V'`; a draw of more than `V` vertices
synthesizes the buffer again, with `6 * (V' / 4)` indices. -/
theorem quad_conversion_buffer_reuse (corner : Fin 6 → Fin 4) (s : QuadConversion)
    (V V' : Nat)
    (hsynth : ∀ cached indices, s.buffer = some (cached, indices) → cached < V) :
    (Maxwell3D.UpdateQuadConversionBuffer corner s V).1 = 6 * (V / 4) ∧
    (∃ indices, (Maxwell3D.UpdateQuadConversionBuffer corner s V).2 =
        ⟨some (V, indices), s.generated + 1⟩ ∧ indices.length = 6 * (V / 4) ∧
      (V' ≤ V →
        Maxwell3D.UpdateQuadConversionBuffer corner
            (Maxwell3D.UpdateQuadConversionBuffer corner s V).2 V' =
          (6 * (V' / 4), (Maxwell3D.UpdateQuadConversionBuffer corner s V).2) ∧
        indices.take (6 * (V' / 4)) = quadIndices corner V') ∧
      (V < V' → ∃ indices',
        Maxwell3D.UpdateQuadConversionBuffer corner
            (Maxwell3D.UpdateQuadConversionBuffer corner s V).2 V' =
          (6 * (V' / 4), ⟨some (V', indices'), s.generated + 2⟩) ∧
        indices'.length = 6 * (V' / 4) ∧ indices' = quadIndices corner V')) := by
  have h₁ : Maxwell3D.UpdateQuadConversionBuffer corner s V =
      (6 * (V / 4), ⟨some (V, quadIndices corner V), s.generated + 1⟩) := by
    unfold Maxwell3D.UpdateQuadConversionBuffer
    cases hb : s.buffer with
    | none => rfl
    | some x =>
      obtain ⟨cached, indices⟩ := x
      have := hsynth cached indices hb
      simp [Nat.not_le.mpr this]
  rw [h₁]
  refine ⟨rfl, quadIndices corner V, rfl, quadIndices_length corner V, ?_, ?_⟩
  · intro h
    exact ⟨by simp [Maxwell3D.UpdateQuadConversionBuffer, h], quadIndices_take corner h⟩
  · intro h
    exact ⟨quadIndices corner V', by
      simp [Maxwell3D.UpdateQuadConversionBuffer, Nat.not_le.mpr h],
      quadIndices_length corner V', rfl⟩

/-- C16, witness: a first draw of ten vertices and then one of seven. -/
theorem quad_conversion_buffer_reuse_witness :
    (∀ cached indices, (⟨none, 0⟩ : QuadConversion).buffer = some (cached, indices) →
      cached < 10) ∧
    (Maxwell3D.UpdateQuadConversionBuffer quadCorner ⟨none, 0⟩ 10).1 = 6 * (10 / 4) ∧
    (∃ indices, (Maxwell3D.UpdateQuadConversionBuffer quadCorner ⟨none, 0⟩ 10).2 =
        ⟨some (10, indices), (⟨none, 0⟩ : QuadConversion).generated + 1⟩ ∧
      indices.length = 6 * (10 / 4) ∧
      (7 ≤ 10 →
        Maxwell3D.UpdateQuadConversionBuffer quadCorner
            (Maxwell3D.UpdateQuadConversionBuffer quadCorner ⟨none, 0⟩ 10).2 7 =
          (6 * (7 / 4), (Maxwell3D.UpdateQuadConversionBuffer quadCorner ⟨none, 0⟩ 10).2) ∧
        indices.take (6 * (7 / 4)) = quadIndices quadCorner 7) ∧
      (10 < 7 → ∃ indices',
        Maxwell3D.UpdateQuadConversionBuffer quadCorner
            (Maxwell3D.UpdateQuadConversionBuffer quadCorner ⟨none, 0⟩ 10).2 7 =
          (6 * (7 / 4), ⟨some (7, indices'), (⟨none, 0⟩ : QuadConversion).generated + 2⟩) ∧
        indices'.length = 6 * (7 / 4) ∧ indices' = quadIndices quadCorner 7)) :=
  ⟨by simp, quad_conversion_buffer_reuse quadCorner ⟨none, 0⟩ 10 7 (by simp)⟩

/-! ### Writes to a descriptor set -/

theorem applyWrites_snoc {R : Type} (set : Nat → Option R) (writes : List (Nat × R))
    (w : Nat × R) (slot : Nat) :
    applyWrites set (writes ++ [w]) slot =
      if slot = w.1 then some w.2 else applyWrites set writes slot := by
  simp [applyWrites, List.foldl_append]

/-- A slot that no write names keeps its resource. -/
theorem applyWrites_of_not_mem {R : Type} (set : Nat → Option R) (slot : Nat) :
    ∀ (writes : List (Nat × R)), (∀ w ∈ writes, w.1 ≠ slot) →
      applyWrites set writes slot = set slot := by
  intro writes
  induction writes using List.reverseRecOn with
  | nil => intro _; rfl
  | append_singleton ws w ih =>
    intro h
    rw [applyWrites_snoc, if_neg (fun e => h w (by simp) e.symm)]
    exact ih (fun w' hw' => h w' (List.mem_append_left _ hw'))

/-- A slot that writes name, all with one resource, is bound to this resource. -/
theorem applyWrites_of_mem {R : Type} (set : Nat → Option R) (slot : Nat) (v : R) :
    ∀ (writes : List (Nat × R)), (∀ w ∈ writes, w.1 = slot → w.2 = v) →
      (∃ w ∈ writes, w.1 = slot) → applyWrites set writes slot = some v := by
  intro writes
  induction writes using List.reverseRecOn with
  | nil => rintro _ ⟨w, hw, -⟩; simp at hw
  | append_singleton ws w ih =>
    intro h hex
    rw [applyWrites_snoc]
    by_cases hw : slot = w.1
    · rw [if_pos hw, h w (by simp) hw.symm]
    · rw [if_neg hw]
      refine ih (fun w' hw' => h w' (List.mem_append_left _ hw')) ?_
      obtain ⟨w', hw', hs⟩ := hex
      rcases List.mem_append.mp hw' with h' | h'
      · exact ⟨w', h', hs⟩
      · simp only [List.mem_singleton] at h'
        subst h'
        exact absurd hs.symm hw

/-- Writes that agree at a slot leave the same resource there. -/
theorem applyWrites_congr_map {α R : Type} (set : Nat → Option R) (slot : Nat)
    (f g : α → Nat × R) (others : List (Nat × R)) :
    ∀ (l : List α), (∀ x ∈ l, (f x).1 = (g x).1 ∧ ((f x).1 = slot → f x = g x)) →
      applyWrites set (l.map f ++ others) slot = applyWrites set (l.map g ++ others) slot := by
  intro l h
  induction others using List.reverseRecOn with
  | nil =>
    simp only [List.append_nil]
    induction l using List.reverseRecOn with
    | nil => rfl
    | append_singleton l' x ih =>
      rw [List.map_append, List.map_append, List.map_singleton, List.map_singleton,
        applyWrites_snoc, applyWrites_snoc]
      obtain ⟨hk, hv⟩ := h x (by simp)
      by_cases hs : slot = (f x).1
      · rw [if_pos hs, if_pos (hs.trans hk), hv hs.symm]
      · rw [if_neg hs, if_neg (fun e => hs (e.trans hk.symm))]
        exact ih (fun y hy => h y (List.mem_append_left _ hy))
  | append_singleton o w ih =>
    rw [← List.append_assoc, ← List.append_assoc, applyWrites_snoc, applyWrites_snoc, ih]

theorem usagesAt_stage_index {stages : List (List ConstantBufferDescriptorUsages)}
    {stage index : Nat} {u : CbufUsage} (h : u ∈ usagesAt stages stage index) :
    u.stage = stage ∧ u.index = index := by
  unfold usagesAt at h
  split at h
  · simp at h
  · split at h
    · simp at h
    · simp only [List.mem_append, List.mem_map] at h
      rcases h with ⟨x, -, rfl⟩ | ⟨x, -, rfl⟩ <;> exact ⟨rfl, rfl⟩

theorem usagesAt_subset_allUsages {stages : List (List ConstantBufferDescriptorUsages)}
    {stage index : Nat} {u : CbufUsage} (h : u ∈ usagesAt stages stage index) :
    u ∈ allUsages stages := by
  unfold allUsages
  rw [List.mem_flatMap]
  have h' := h
  unfold usagesAt at h'
  split at h'
  · simp at h'
  · rename_i cbufUsages hs
    split at h'
    · simp at h'
    · rename_i us hi
      refine ⟨stage, List.mem_range.mpr (List.getElem?_eq_some_iff.mp hs).1, ?_⟩
      rw [List.mem_flatMap]
      refine ⟨index, List.mem_range.mpr ?_, h⟩
      rw [hs]
      exact (List.getElem?_eq_some_iff.mp hi).1

theorem mem_allUsages {stages : List (List ConstantBufferDescriptorUsages)} {u : CbufUsage}
    (h : u ∈ allUsages stages) : u ∈ usagesAt stages u.stage u.index := by
  unfold allUsages at h
  rw [List.mem_flatMap] at h
  obtain ⟨stage, -, h⟩ := h
  rw [List.mem_flatMap] at h
  obtain ⟨index, -, h⟩ := h
  obtain ⟨rfl, rfl⟩ := usagesAt_stage_index h
  exact h

/-- C15: the incremental synchronisation yields the bound resources of the full rebuild.  For
a pipeline whose usages and other resources have pairwise distinct bindings, a descriptor set
of the draw before that holds in every slot what a full rebuild on the constant buffers of
then yields, and constant buffers that differ from those of then only at the enumerated stages
and indices: `SyncDescriptorsQuickBind` and `SyncDescriptors`, on the same constant buffers
and the same pipeline, yield the same final bound resource for every descriptor slot. -/
theorem quick_bind_agrees_with_full_sync {C R : Type} (resolve : C → Bool → Usage → R)
    (stages : List (List ConstantBufferDescriptorUsages)) (others : List (Nat × R))
    (before constantBuffers : Nat → Nat → C) (quickBind : List (Nat × Nat))
    (previous : Nat → Option R)
    (hdistinct : ((allUsages stages).map (fun u => u.usage.binding) ++
      others.map Prod.fst).Nodup)
    (hprevious : ∀ slot, previous slot =
      Pipeline.SyncDescriptors resolve stages others before slot)
    (hsame : ∀ stage index, (stage, index) ∉ quickBind →
      constantBuffers stage index = before stage index) :
    ∀ slot, Pipeline.SyncDescriptorsQuickBind resolve stages previous constantBuffers
        quickBind slot =
      Pipeline.SyncDescriptors resolve stages others constantBuffers slot := by
  intro slot
  obtain ⟨hnd, -, hdisj⟩ := List.nodup_append.mp hdistinct
  have hinj : ∀ u ∈ allUsages stages, ∀ u' ∈ allUsages stages,
      u.usage.binding = u'.usage.binding → u = u' :=
    fun u hu u' hu' h => List.inj_on_of_nodup_map hnd hu hu' h
  unfold Pipeline.SyncDescriptorsQuickBind
  by_cases hq : ∃ u ∈ quickBind.flatMap (fun q => usagesAt stages q.1 q.2),
      u.usage.binding = slot
  · obtain ⟨u, hu, hb⟩ := hq
    have huall : u ∈ allUsages stages := by
      obtain ⟨q, -, hq⟩ := List.mem_flatMap.mp hu
      exact usagesAt_subset_allUsages hq
    rw [applyWrites_of_mem previous slot (writeOf resolve constantBuffers u).2]
    · unfold Pipeline.SyncDescriptors
      rw [applyWrites_of_mem (fun _ => none) slot (writeOf resolve constantBuffers u).2]
      · intro w hw hws
        rcases List.mem_append.mp hw with hw | hw
        · obtain ⟨u', hu', rfl⟩ := List.mem_map.mp hw
          rw [hinj u' hu' u huall (hws.trans hb.symm)]
        · exfalso
          refine hdisj (List.mem_map.mpr ⟨u, huall, hb⟩) ?_
          rw [← hws]
          exact List.mem_map_of_mem _ hw
      · exact ⟨writeOf resolve constantBuffers u,
          List.mem_append_left _ (List.mem_map_of_mem _ huall), hb⟩
    · intro w hw hws
      obtain ⟨u', hu', rfl⟩ := List.mem_map.mp hw
      have hu'all : u' ∈ allUsages stages := by
        obtain ⟨q, -, hq⟩ := List.mem_flatMap.mp hu'
        exact usagesAt_subset_allUsages hq
      rw [hinj u' hu'all u huall (hws.trans hb.symm)]
    · exact ⟨writeOf resolve constantBuffers u, List.mem_map_of_mem _ hu, hb⟩
  · rw [applyWrites_of_not_mem previous slot _ (by
      intro w hw hws
      obtain ⟨u, hu, rfl⟩ := List.mem_map.mp hw
      exact hq ⟨u, hu, hws⟩), hprevious slot]
    unfold Pipeline.SyncDescriptors
    refine applyWrites_congr_map _ slot _ _ others _ ?_
    intro u hu
    refine ⟨rfl, ?_⟩
    intro hb
    have hnq : (u.stage, u.index) ∉ quickBind := by
      intro hmem
      exact hq ⟨u, List.mem_flatMap.mpr ⟨(u.stage, u.index), hmem, mem_allUsages hu⟩, hb⟩
    simp only [writeOf, hsame u.stage u.index hnq]

/-- C15, witness: one stage with three bindings that depend on two constant buffers and one
other resource; the constant buffer at the index 1 changed since the full rebuild before. -/
theorem quick_bind_agrees_with_full_sync_witness :
    ((allUsages Pipeline.stagesExample).map (fun u => u.usage.binding) ++
      ([(3, 777)] : List (Nat × Nat)).map Prod.fst).Nodup ∧
    (∀ slot, Pipeline.SyncDescriptors Pipeline.resolveExample Pipeline.stagesExample
        [(3, 777)] Pipeline.beforeExample slot =
      Pipeline.SyncDescriptors Pipeline.resolveExample Pipeline.stagesExample [(3, 777)]
        Pipeline.beforeExample slot) ∧
    (∀ stage index, (stage, index) ∉ [(0, 1)] →
      Pipeline.constantBuffersExample stage index = Pipeline.beforeExample stage index) ∧
    ∀ slot, Pipeline.SyncDescriptorsQuickBind Pipeline.resolveExample Pipeline.stagesExample
        (Pipeline.SyncDescriptors Pipeline.resolveExample Pipeline.stagesExample [(3, 777)]
          Pipeline.beforeExample)
        Pipeline.constantBuffersExample [(0, 1)] slot =
      Pipeline.SyncDescriptors Pipeline.resolveExample Pipeline.stagesExample [(3, 777)]
        Pipeline.constantBuffersExample slot :=
  ⟨by decide, fun _ => rfl,
    fun stage index h => by simp only [Pipeline.constantBuffersExample, h, if_false,
      Pipeline.beforeExample],
    quick_bind_agrees_with_full_sync Pipeline.resolveExample Pipeline.stagesExample
      [(3, 777)] Pipeline.beforeExample Pipeline.constantBuffersExample [(0, 1)]
      (Pipeline.SyncDescriptors Pipeline.resolveExample Pipeline.stagesExample [(3, 777)]
        Pipeline.beforeExample)
      (by decide) (fun _ => rfl)
      (fun stage index h => by simp only [Pipeline.constantBuffersExample, h, if_false,
        Pipeline.beforeExample])⟩

/-! ### Where a vertex batch is replayed -/

theorem batchBinds_length (r : RecordFunc) (c : SetVertexBuffersDynamicCmdImpl) :
    (batchBinds r c).length = c.base.bindingCount := by
  simp [batchBinds]

theorem filterMap_id_map_some {β : Type} (l : List β) : (l.map some).filterMap id = l := by
  induction l with
  | nil => rfl
  | cons x xs ih => simp [ih]

/-- The list and the slots of the pending batch after `enter` for the bind `vb`, when the
slots of the pending batch hold the open run `run`. -/
theorem Abs.enter_items {N : Nat} {a : Abs} {run : List VertexBind} (vb : VertexBind)
    (hslots : batchBinds a.record a.pending = run.map some)
    (hlast : ∀ last, run.getLast? = some last →
      a.record = last.record ∧ a.next = last.index + 1) :
    (a.enter N vb.record vb.index).list.map holderItem =
        a.list.map holderItem ++ (if continuesRun run vb then [] else closeRun run) ∧
      batchBinds (a.enter N vb.record vb.index).record (a.enter N vb.record vb.index).pending =
        (if continuesRun run vb then run else []).map some := by
  have hcount : a.pending.base.bindingCount = run.length := by
    rw [← batchBinds_length a.record a.pending, hslots, List.length_map]
  cases hl : run.getLast? with
  | none =>
    have hrun : run = [] := List.getLast?_eq_none_iff.mp hl
    subst hrun
    have hc : a.pending.base.bindingCount = 0 := hcount
    have hcont : continuesRun [] vb = false := rfl
    rw [hcont]
    simp only [Bool.false_eq_true, if_false, closeRun, List.getLast?_nil, List.append_nil,
      List.map_nil]
    unfold Abs.enter
    split
    · constructor
      · simp [Abs.restart, Abs.flush, hc]
      · simp [Abs.restart, Abs.flush, hc, batchBinds]
    · exact ⟨rfl, by simpa using hslots⟩
  | some last =>
    obtain ⟨hrec, hnext⟩ := hlast last hl
    have hne : run ≠ [] := by
      rintro rfl
      simp at hl
    have hc : a.pending.base.bindingCount ≠ 0 := by
      rw [hcount]
      exact fun h => hne (List.length_eq_zero.mp h)
    unfold Abs.enter
    split
    · rename_i hcond
      have hcont : continuesRun run vb = false := by
        simp only [continuesRun, hl, Bool.and_eq_false_imp, decide_eq_true_eq,
          decide_eq_false_iff_not]
        intro hi hr
        rcases hcond with h | h
        · exact h (hi.trans hnext.symm)
        · exact h (hrec.trans hr.symm)
      rw [hcont]
      simp only [Bool.false_eq_true, if_false, List.map_nil]
      constructor
      · simp only [Abs.restart, Abs.flush, hc, ne_eq, not_false_eq_true, if_true,
          List.map_append, List.map_cons, List.map_nil, closeRun, hl]
        congr 1
        rw [hrec] at hslots
        simp only [holderItem, holderRun, holderBinds, hrec, hslots, filterMap_id_map_some]
      · simp [Abs.restart, Abs.flush, hc, batchBinds, SetVertexBuffersDynamicCmdImpl.new]
    · rename_i hcond
      simp only [ne_eq, not_or, not_not] at hcond
      have hcont : continuesRun run vb = true := by
        simp only [continuesRun, hl, Bool.and_eq_true, decide_eq_true_eq]
        exact ⟨hcond.1.trans hnext, hcond.2.symm.trans hrec⟩
      rw [hcont]
      exact ⟨by simp, by simpa using hslots⟩

theorem Abs.flush_items {N : Nat} {a : Abs} {run : List VertexBind}
    (hslots : batchBinds a.record a.pending = run.map some)
    (hlast : ∀ last, run.getLast? = some last →
      a.record = last.record ∧ a.next = last.index + 1) :
    (a.flush N).list.map holderItem = a.list.map holderItem ++ closeRun run := by
  have hcount : a.pending.base.bindingCount = run.length := by
    rw [← batchBinds_length a.record a.pending, hslots, List.length_map]
  cases hl : run.getLast? with
  | none =>
    have hrun : run = [] := List.getLast?_eq_none_iff.mp hl
    subst hrun
    have hc : a.pending.base.bindingCount = 0 := hcount
    simp [Abs.flush, hc, closeRun]
  | some last =>
    obtain ⟨hrec, -⟩ := hlast last hl
    have hc : a.pending.base.bindingCount ≠ 0 := by
      rw [hcount]
      intro h
      rw [List.length_eq_zero.mp h] at hl
      simp at hl
    simp only [Abs.flush, hc, ne_eq, not_false_eq_true, if_true, List.map_append, List.map_cons,
      List.map_nil, closeRun, hl]
    congr 1
    rw [hrec] at hslots
    simp only [holderItem, holderRun, holderBinds, hrec, hslots, filterMap_id_map_some]

theorem replayPlan_cons_vertex (run : List VertexBind) (c : BuilderCall)
    (cs : List BuilderCall) (vb : VertexBind) (hv : c.vertexBind = some vb) :
    (if continuesRun run vb then [] else closeRun run) ++
        replayPlan ((if continuesRun run vb then run else []) ++ [vb]) cs =
      replayPlan run (c :: cs) := by
  simp only [replayPlan, hv]
  split <;> simp

/-- The list after calls and `Build` is what was there followed by the order of replay of the
calls. -/
theorem Abs.calls_plan {N : Nat} (hN : N < 2 ^ 32) :
    ∀ (cs : List BuilderCall) (a : Abs) (pre : List BuilderCall) (run : List VertexBind),
      Tracks N a pre → batchBinds a.record a.pending = run.map some →
      (∀ last, run.getLast? = some last → a.record = last.record ∧ a.next = last.index + 1) →
      (∀ c ∈ cs, c.indexInRange N = true) →
      ∃ a', a.calls N cs = some a' ∧
        (a'.flush N).list.map holderItem = a.list.map holderItem ++ replayPlan run cs
  | [], a, _, run, _, hslots, hlast, _ =>
    ⟨a, rfl, Abs.flush_items hslots hlast⟩
  | c :: cs, a, pre, run, ht, hslots, hlast, hidx => by
    have hidx' : ∀ c' ∈ cs, c'.indexInRange N = true :=
      fun c' hc' => hidx c' (List.mem_cons_of_mem _ hc')
    have hc := hidx c (List.mem_cons_self _ _)
    have vertex : ∀ (vb : VertexBind) (a₁ : Abs), c.vertexBind = some vb →
        a.call N c = some a₁ → a₁.list = (a.enter N vb.record vb.index).list →
        a₁.record = vb.record → a₁.next = vb.index + 1 → Tracks N a₁ (pre ++ [c]) →
        Tracks N (a.enter N vb.record vb.index) pre →
        ∃ a', a.calls N (c :: cs) = some a' ∧
          (a'.flush N).list.map holderItem = a.list.map holderItem ++ replayPlan run (c :: cs) := by
      intro vb a₁ hv hcall hlist hrec hnext ht₁ hte
      obtain ⟨hitems, hslots_e⟩ := Abs.enter_items (N := N) vb hslots hlast
      have hslots₁ : batchBinds a₁.record a₁.pending =
          ((if continuesRun run vb then run else []) ++ [vb]).map some := by
        have h₁ := ht₁.binds
        have h₂ := hte.binds
        rw [List.filterMap_append, List.map_append, ← h₂, hlist, List.append_assoc] at h₁
        have h₃ := List.append_cancel_left h₁
        rw [h₃, hslots_e]
        simp only [List.filterMap_cons, hv, List.filterMap_nil, List.map_cons, List.map_nil,
          List.map_append]
      obtain ⟨a', ha', hplan⟩ := Abs.calls_plan hN cs a₁ (pre ++ [c]) _ ht₁ hslots₁
        (by
          intro last hl
          rw [List.getLast?_append_of_ne_nil _ (by simp), List.getLast?_singleton] at hl
          cases hl
          exact ⟨hrec, hnext⟩)
        hidx'
      refine ⟨a', by simp only [Abs.calls, hcall]; exact ha', ?_⟩
      rw [hplan, hlist, hitems, List.append_assoc, replayPlan_cons_vertex run c cs vb hv]
    cases hn : c.node with
    | some rc =>
      obtain ⟨ho, -, hv⟩ := Abs.holderOther_node hn
      have hcall : a.call N c = some (a.append rc) := by
        cases c <;> simp only [BuilderCall.node] at hn <;> try cases hn
        all_goals rfl
      obtain ⟨a₁, hcall₁, ht₁, -⟩ := ht.of_call hN c (BuilderCall.lt_of_indexInRange hc)
      rw [hcall] at hcall₁
      cases hcall₁
      obtain ⟨a', ha', hplan⟩ := Abs.calls_plan hN cs (a.append rc) (pre ++ [c]) run ht₁
        hslots hlast hidx'
      refine ⟨a', by simp only [Abs.calls, hcall]; exact ha', ?_⟩
      have hitem : holderItem rc = .holder rc := by
        unfold holderItem
        unfold holderOther at ho
        split
        · rename_i h
          simp [h] at ho
        · rfl
      rw [hplan]
      simp only [Abs.append, List.map_append, List.map_cons, List.map_nil, hitem, replayPlan, hv,
        hn, List.append_assoc, List.singleton_append]
    | none =>
      cases c <;> simp only [BuilderCall.node] at hn <;> try cases hn
      · rename_i index binding
        have hi : index < N := by simpa [BuilderCall.indexInRange] using hc
        obtain ⟨hte, -⟩ := ht.of_enter .SetVertexBuffersCmd index hi
        have ht₁ := hte.of_writeDirect hN (by simpa using hi) (by simp) binding
        rw [Abs.enter_next] at ht₁
        exact vertex ⟨index, .direct binding.buffer binding.offset⟩
          ((a.enter N .SetVertexBuffersCmd index).writeDirect binding) rfl
          (by simp [Abs.call, Abs.SetVertexBuffer, hi]) rfl (by simp [Abs.writeDirect]; rfl)
          (by simp only [Abs.writeDirect, Abs.enter_next]; exact u32_of_lt (by omega)) ht₁ hte
      · rename_i index view
        have hi : index < N := by simpa [BuilderCall.indexInRange] using hc
        obtain ⟨hte, -⟩ := ht.of_enter .SetVertexBuffersDynamicCmd index hi
        have ht₁ := hte.of_writeView hN (by simpa using hi) (by simp) view
        rw [Abs.enter_next] at ht₁
        exact vertex ⟨index, .view view⟩
          ((a.enter N .SetVertexBuffersDynamicCmd index).writeView view) rfl
          (by simp [Abs.call, Abs.SetVertexBufferView, hi]) rfl (by simp [Abs.writeView]; rfl)
          (by simp only [Abs.writeView, Abs.enter_next]; exact u32_of_lt (by omega)) ht₁ hte

/-- The order of replay of two vertex buffer binds to the indices 0 and 2 followed by a
pipeline bind: the batch of the first bind, closed by the second, then the pipeline bind, then
the batch of the second bind, closed by `Build`. -/
theorem replayPlan_two_runs :
    replayPlan [] [.SetVertexBuffer 0 ⟨7, 0, 0⟩, .SetVertexBuffer 2 ⟨8, 0, 0⟩, .SetPipeline 5] =
      [.batch .SetVertexBuffersCmd [⟨0, .direct 7 0⟩],
        .holder (.SetPipelineCmd, .SetPipeline ⟨5⟩),
        .batch .SetVertexBuffersCmd [⟨2, .direct 8 0⟩]] := by
  decide

/-- C6, amended: for every sequence of builder calls on a new builder (vertex stream indices in
range, `VertexStreamCount` a `u32` constant) followed by `Build`, the list that `RecordAll`
replays, holder by holder in list order, is exactly the order of replay `replayPlan` of the
calls: a call other than `SetVertexBuffer` is replayed where it is made, and a vertex buffer
bind is replayed, in the batch of its run, where the run is closed, by the next vertex buffer
bind that does not go on with it (another index than the next one, or the other variant) or by
`Build`; the slots of every batch of the list hold binds.  Hence the list holds, in call order,
the holders of the calls other than `SetVertexBuffer`, the slots of its vertex batches, taken
in list order, are the `SetVertexBuffer` calls in call order, and however the calls are split
into earlier calls `pre` and later calls `post`, the list splits into a front part that holds
the holders of all calls of `pre` other than `SetVertexBuffer` and vertex buffer binds of `pre`
only, and a rest that holds the holders of the calls of `post` other than `SetVertexBuffer`: a
call other than `SetVertexBuffer` is replayed before every call made after it, and only a
vertex buffer bind may be replayed after a later call of another kind. -/
theorem replay_order_of_builder_calls (N : Nat) (hN : N < 2 ^ 32) (mem : Memory)
    (cs : List BuilderCall) (hidx : ∀ c ∈ cs, c.indexInRange N = true) :
    ∃ u b mem', StateUpdateBuilder.buildAll N mem cs = some (u, b, mem') ∧
      (u.contents b.allocator).map holderItem = replayPlan [] cs ∧
      (∀ rc ∈ u.contents b.allocator, ∀ c, rc.2 = .SetVertexBuffersDynamic c →
        batchBinds rc.1 c = (holderRun rc).map some) ∧
      (∀ (fuel : Nat) (w : World), b.appended.length ≤ fuel →
        (u.RecordAll N fuel b.allocator w).map Prod.snd =
          (u.contents b.allocator).foldlM (holderRecord N) w) ∧
      (u.contents b.allocator).filterMap holderOther = cs.filterMap BuilderCall.node ∧
      (u.contents b.allocator).flatMap holderBinds =
        (cs.filterMap BuilderCall.vertexBind).map some ∧
      ∀ pre post, cs = pre ++ post → ∃ L₁ L₂, u.contents b.allocator = L₁ ++ L₂ ∧
        L₁.filterMap holderOther = pre.filterMap BuilderCall.node ∧
        L₁.flatMap holderBinds <+: (pre.filterMap BuilderCall.vertexBind).map some ∧
        L₂.filterMap holderOther = post.filterMap BuilderCall.node := by
  obtain ⟨b, mem', a, hb, -, ha, ht, hcont⟩ :=
    StateUpdateBuilder.buildAll_tracks N hN mem cs hidx
  obtain ⟨u₁, b₁, mem₁, hb₁, -, -, hbat, hrec⟩ :=
    StateUpdateBuilder.buildAll_batches N hN mem cs hidx
  rw [hb] at hb₁
  cases hb₁
  obtain ⟨hoth, hbinds, -⟩ := ht.of_flush
  obtain ⟨a', ha', hplan⟩ := Abs.calls_plan hN cs (Abs.new N) [] [] (Tracks_new N)
    (by simp [Abs.new, SetVertexBuffersDynamicCmdImpl.new, batchBinds])
    (by intro last hl; simp at hl) hidx
  rw [ha] at ha'
  cases ha'
  refine ⟨⟨b.head⟩, b, mem', hb, ?_, fun rc hrc c hcmd => (hbat rc hrc c hcmd).2, hrec,
    by rw [hcont]; exact hoth, by rw [hcont]; exact hbinds, ?_⟩
  · rw [hcont, hplan]
    rfl
  intro pre post hsplit
  subst hsplit
  have hidx₁ : ∀ c ∈ pre, ∀ vb, c.vertexBind = some vb → vb.index < N := fun c hc =>
    BuilderCall.lt_of_indexInRange (hidx c (List.mem_append_left _ hc))
  have hidx₂ : ∀ c ∈ post, ∀ vb, c.vertexBind = some vb → vb.index < N := fun c hc =>
    BuilderCall.lt_of_indexInRange (hidx c (List.mem_append_right _ hc))
  obtain ⟨a₁, ha₁, ht₁, -⟩ := (Tracks_new N).of_calls hN pre hidx₁
  obtain ⟨a₂, ha₂, ht₂, hp₂⟩ := ht₁.of_calls hN post hidx₂
  have ha' : Abs.calls N (Abs.new N) (pre ++ post) = some a₂ := by
    rw [Abs.calls_append, ha₁]
    exact ha₂
  rw [ha] at ha'
  cases ha'
  obtain ⟨L₂, hL₂⟩ := hp₂.trans ht.of_flush.2.2
  simp only [List.nil_append] at ht₁
  refine ⟨a₁.list, L₂, by rw [hcont, hL₂], ht₁.others, ⟨_, ht₁.binds⟩, ?_⟩
  have := hoth
  rw [← hL₂, List.filterMap_append, List.filterMap_append, ht₁.others] at this
  exact List.append_cancel_left this

/-- C6, amended, witness: direct binds to the indices 0 and 2, a pipeline bind, a direct bind
to the index 3 and a view bind to the index 4, on sixteen streams. -/
theorem replay_order_of_builder_calls_witness :
    16 < 2 ^ 32 ∧
    (∀ c ∈ [BuilderCall.SetVertexBuffer 0 ⟨7, 0, 0⟩, .SetVertexBuffer 2 ⟨8, 0, 0⟩,
        .SetPipeline 5, .SetVertexBuffer 3 ⟨9, 0, 0⟩, .SetVertexBufferView 4 ⟨6, 0⟩],
      c.indexInRange 16 = true) ∧
    (∃ u b mem', StateUpdateBuilder.buildAll 16 Memory.example [BuilderCall.SetVertexBuffer 0 ⟨7, 0, 0⟩, .SetVertexBuffer 2 ⟨8, 0, 0⟩,
        .SetPipeline 5, .SetVertexBuffer 3 ⟨9, 0, 0⟩, .SetVertexBufferView 4 ⟨6, 0⟩] = some (u, b, mem') ∧
      (u.contents b.allocator).map holderItem = replayPlan [] [BuilderCall.SetVertexBuffer 0 ⟨7, 0, 0⟩, .SetVertexBuffer 2 ⟨8, 0, 0⟩,
        .SetPipeline 5, .SetVertexBuffer 3 ⟨9, 0, 0⟩, .SetVertexBufferView 4 ⟨6, 0⟩] ∧
      (∀ rc ∈ u.contents b.allocator, ∀ c, rc.2 = .SetVertexBuffersDynamic c →
        batchBinds rc.1 c = (holderRun rc).map some) ∧
      (∀ (fuel : Nat) (w : World), b.appended.length ≤ fuel →
        (u.RecordAll 16 fuel b.allocator w).map Prod.snd =
          (u.contents b.allocator).foldlM (holderRecord 16) w) ∧
      (u.contents b.allocator).filterMap holderOther = [BuilderCall.SetVertexBuffer 0 ⟨7, 0, 0⟩, .SetVertexBuffer 2 ⟨8, 0, 0⟩,
        .SetPipeline 5, .SetVertexBuffer 3 ⟨9, 0, 0⟩, .SetVertexBufferView 4 ⟨6, 0⟩].filterMap BuilderCall.node ∧
      (u.contents b.allocator).flatMap holderBinds =
        ([BuilderCall.SetVertexBuffer 0 ⟨7, 0, 0⟩, .SetVertexBuffer 2 ⟨8, 0, 0⟩,
        .SetPipeline 5, .SetVertexBuffer 3 ⟨9, 0, 0⟩, .SetVertexBufferView 4 ⟨6, 0⟩].filterMap BuilderCall.vertexBind).map some ∧
      ∀ pre post, [BuilderCall.SetVertexBuffer 0 ⟨7, 0, 0⟩, .SetVertexBuffer 2 ⟨8, 0, 0⟩,
        .SetPipeline 5, .SetVertexBuffer 3 ⟨9, 0, 0⟩, .SetVertexBufferView 4 ⟨6, 0⟩] = pre ++ post → ∃ L₁ L₂, u.contents b.allocator = L₁ ++ L₂ ∧
        L₁.filterMap holderOther = pre.filterMap BuilderCall.node ∧
        L₁.flatMap holderBinds <+: (pre.filterMap BuilderCall.vertexBind).map some ∧
        L₂.filterMap holderOther = post.filterMap BuilderCall.node) :=
  ⟨by decide, by decide, replay_order_of_builder_calls 16 (by decide) Memory.example _
    (by decide)⟩

end Skyline
